import Mathlib

/-! # Texture atlas descriptor: reader, writer and region lookup

A shallow embedding of `texture_atlas.c` / `texture_atlas.h`.

Conventions of the embedding.

* A C string is represented by the list of its characters before the
  terminating NUL.  A raw buffer (the line returned by `getline`) is the list of
  the characters read; the terminator sits right behind it.
* `unsigned int` values are naturals below `2^32`, `int` values are integers in
  the signed 32-bit range; conversions between them wrap modulo `2^32`.
* The linked lists `firstPage/next` and `firstRegion/nextRegion` are lists.
* Behaviour that the C language leaves undefined (writing past the 1024-byte
  `attribute`/`value` buffers, using the `value` buffer when `snprintf` was
  given size 0 and wrote nothing, a `%u` conversion whose result does not fit)
  is reported as a separate outcome `undefined`.
-/

namespace TextureAtlas

/-! ## Characters, C strings, machine integers -/

/-- The string terminator. -/
def NUL : Char := Char.ofNat 0

/-- Size of the `attribute` and `value` buffers. -/
def BUFFER_SIZE : Nat := 1024

/-- C-locale `isspace`: space, `\t`, `\n`, `\v`, `\f`, `\r`. -/
def isspace (c : Char) : Bool :=
  c = ' ' || c = '\t' || c = '\n' || c = Char.ofNat 11 || c = Char.ofNat 12 || c = '\r'

/-- C-locale `isdigit`. -/
def isdigit (c : Char) : Bool := decide ('0' ≤ c) && decide (c ≤ '9')

/-- The C string stored at the start of a buffer: its characters up to the first NUL. -/
def cstr (buf : List Char) : List Char := buf.takeWhile (fun c => c ≠ NUL)

/-- Element `i` of a buffer; the position right behind the characters read holds the terminator. -/
def charAt (buf : List Char) (i : Nat) : Char := buf.getD i NUL

/-- Conversion `unsigned int -> int` (two's complement). -/
def toInt32 (u : Nat) : Int :=
  if u % 4294967296 < 2147483648 then ((u % 4294967296 : Nat) : Int)
  else ((u % 4294967296 : Nat) : Int) - 4294967296

/-- Conversion `int -> unsigned int` (modulo `2^32`). -/
def toUInt32 (i : Int) : Nat := (i % 4294967296).toNat

/-- Truncation of a wider signed value to `int`. -/
def wrapInt (i : Int) : Int := toInt32 (toUInt32 i)

/-- Conversion of an `int` to `size_t` (64 bit). -/
def toSize (i : Int) : Nat := (i % 18446744073709551616).toNat

/-- First position of `c` in the C string held by `buf` (`strchr`, for `c` other than NUL). -/
def strchr : List Char → Char → Option Nat
  | [], _ => none
  | x :: xs, c =>
    if x = NUL then none
    else if x = c then some 0
    else (strchr xs c).map (fun i => i + 1)

/-- What `snprintf(dst, size, "%s", src)` stores in `dst`: nothing when `size` is 0
(`none`), otherwise at most `size - 1` characters of the C string `src`. -/
def snprintf_s (size : Nat) (src : List Char) : Option (List Char) :=
  if size = 0 then none else some ((cstr src).take (size - 1))

/-! ## Data model (`texture_atlas.h`) -/

inductive TextureAtlas_format
  | ALPHA | INTENSITY | LUMINANCE_ALPHA | RGB565 | RGBA4444 | RGB888 | RGBA8888
  | UNDEFINED_FORMAT
  deriving DecidableEq, Repr

inductive TextureAtlas_repeat
  | X | Y | XY | NONE | UNDEFINED_REPEAT
  deriving DecidableEq, Repr

inductive TextureAtlas_filter
  | NEAREST | LINEAR | MIP_MAP | MIP_MAP_NEAREST_NEAREST | MIP_MAP_LINEAR_NEAREST
  | MIP_MAP_NEAREST_LINEAR | MIP_MAP_LINEAR_LINEAR | UNDEFINED_FILTER
  deriving DecidableEq, Repr

/-- One region.  The back pointer `page` is not stored: a region is only reachable through
the page that owns it.  `splits`/`pads` are `none` for a NULL pointer. -/
structure TextureAtlas_region where
  name : List Char
  rotate : Bool
  x : Nat
  y : Nat
  width : Nat
  height : Nat
  originalWidth : Nat
  originalHeight : Nat
  offsetX : Nat
  offsetY : Nat
  index : Int
  splits : Option (Int × Int × Int × Int)
  pads : Option (Int × Int × Int × Int)
  deriving DecidableEq, Repr

/-- One page; `regions` is the chain `firstRegion`, `nextRegion`, ... -/
structure TextureAtlas_page where
  index : Int
  name : List Char
  absolutePath : List Char
  width : Int
  height : Int
  format : TextureAtlas_format
  minificationFilter : TextureAtlas_filter
  magnificationFilter : TextureAtlas_filter
  repeat_ : TextureAtlas_repeat
  regions : List TextureAtlas_region
  deriving DecidableEq, Repr

/-- The atlas; `pages` is the chain `firstPage`, `next`, ... -/
structure TextureAtlas_atlas where
  pages : List TextureAtlas_page
  numberOfPages : Int
  deriving DecidableEq, Repr

/-! ## Token constants and enumeration codecs -/

def FORMAT_RGBA8888 : List Char := "RGBA8888".toList
def FORMAT_RGB888 : List Char := "RGB888".toList
def FORMAT_RGBA4444 : List Char := "RGBA4444".toList
def FORMAT_RGB565 : List Char := "RGB565".toList
def FORMAT_LUMINANCE_ALPHA : List Char := "LuminanceAlpha".toList
def FORMAT_INTENSITY : List Char := "Intensity".toList
def FORMAT_ALPHA : List Char := "Alpha".toList

def REPEAT_NONE : List Char := "none".toList
def REPEAT_XY : List Char := "xy".toList
def REPEAT_Y : List Char := "y".toList
def REPEAT_X : List Char := "x".toList

def FILTER_MIP_MAP_LINEAR_LINEAR : List Char := "MipMapLinearLinear".toList
def FILTER_MIP_MAP_NEAREST_LINEAR : List Char := "MipMapNearestLinear".toList
def FILTER_MIP_MAP_LINEAR_NEAREST : List Char := "MipMapLinearNearest".toList
def FILTER_MIP_MAP_NEAREST_NEAREST : List Char := "MipMapNearestNearest".toList
def FILTER_MIP_MAP : List Char := "MipMap".toList
def FILTER_LINEAR : List Char := "Linear".toList
def FILTER_NEAREST : List Char := "Nearest".toList

def filterEnumToString (filter : TextureAtlas_filter) : List Char :=
  if TextureAtlas_filter.NEAREST = filter then FILTER_NEAREST
  else if TextureAtlas_filter.LINEAR = filter then FILTER_LINEAR
  else if TextureAtlas_filter.MIP_MAP = filter then FILTER_MIP_MAP
  else if TextureAtlas_filter.MIP_MAP_NEAREST_NEAREST = filter then FILTER_MIP_MAP_NEAREST_NEAREST
  else if TextureAtlas_filter.MIP_MAP_LINEAR_NEAREST = filter then FILTER_MIP_MAP_LINEAR_NEAREST
  else if TextureAtlas_filter.MIP_MAP_NEAREST_LINEAR = filter then FILTER_MIP_MAP_NEAREST_LINEAR
  else if TextureAtlas_filter.MIP_MAP_LINEAR_LINEAR = filter then FILTER_MIP_MAP_LINEAR_LINEAR
  else "ERROR!!!!".toList

def repeatEnumToString (r : TextureAtlas_repeat) : List Char :=
  if r = TextureAtlas_repeat.X then REPEAT_X
  else if r = TextureAtlas_repeat.Y then REPEAT_Y
  else if r = TextureAtlas_repeat.XY then REPEAT_XY
  else if r = TextureAtlas_repeat.NONE then REPEAT_NONE
  else "ERROR!!!!".toList

def formatEnumToString (format : TextureAtlas_format) : List Char :=
  if format = TextureAtlas_format.ALPHA then FORMAT_ALPHA
  else if format = TextureAtlas_format.INTENSITY then FORMAT_INTENSITY
  else if format = TextureAtlas_format.LUMINANCE_ALPHA then FORMAT_LUMINANCE_ALPHA
  else if format = TextureAtlas_format.RGB565 then FORMAT_RGB565
  else if format = TextureAtlas_format.RGBA4444 then FORMAT_RGBA4444
  else if format = TextureAtlas_format.RGB888 then FORMAT_RGB888
  else if format = TextureAtlas_format.RGBA8888 then FORMAT_RGBA8888
  else "ERROR!!!!".toList

/-- The decoder `parse_filter_value`: `some v` when it returns true with `*result = v`. -/
def parse_filter_value (value : List Char) : Option TextureAtlas_filter :=
  if value = FILTER_NEAREST then some .NEAREST
  else if value = FILTER_LINEAR then some .LINEAR
  else if value = FILTER_MIP_MAP then some .MIP_MAP
  else if value = FILTER_MIP_MAP_NEAREST_NEAREST then some .MIP_MAP_NEAREST_NEAREST
  else if value = FILTER_MIP_MAP_LINEAR_NEAREST then some .MIP_MAP_LINEAR_NEAREST
  else if value = FILTER_MIP_MAP_NEAREST_LINEAR then some .MIP_MAP_NEAREST_LINEAR
  else if value = FILTER_MIP_MAP_LINEAR_LINEAR then some .MIP_MAP_LINEAR_LINEAR
  else none

/-- The `format` comparison chain of `TextureAtlas_read`; `none` is the error branch. -/
def parse_format_value (value : List Char) : Option TextureAtlas_format :=
  if value = FORMAT_ALPHA then some .ALPHA
  else if value = FORMAT_INTENSITY then some .INTENSITY
  else if value = FORMAT_LUMINANCE_ALPHA then some .LUMINANCE_ALPHA
  else if value = FORMAT_RGB565 then some .RGB565
  else if value = FORMAT_RGBA4444 then some .RGBA4444
  else if value = FORMAT_RGB888 then some .RGB888
  else if value = FORMAT_RGBA8888 then some .RGBA8888
  else none

/-- The `repeat` comparison chain of `TextureAtlas_read`; `none` is the error branch. -/
def parse_repeat_value (value : List Char) : Option TextureAtlas_repeat :=
  if value = REPEAT_X then some .X
  else if value = REPEAT_Y then some .Y
  else if value = REPEAT_XY then some .XY
  else if value = REPEAT_NONE then some .NONE
  else none

/-! ## Line level helpers -/

/-- Outcome of `getline`: `none` for the return value -1 (end of input), otherwise the line
read (up to and including the first `\n`, or the rest of the input) and what is left. -/
def getline : List Char → Option (List Char × List Char)
  | [] => none
  | c :: cs =>
    if c = '\n' then some ([c], cs)
    else match getline cs with
      | none => some ([c], [])
      | some (l, rest) => some (c :: l, rest)

/-- The lines produced by calling `getline` until it returns -1. -/
def getlines : List Char → List (List Char)
  | [] => []
  | c :: cs =>
    if c = '\n' then [c] :: getlines cs
    else match getlines cs with
      | [] => [[c]]
      | l :: ls => (c :: l) :: ls

/-- The helper `read_name`: `none` for NULL, otherwise the duplicated name
(`strndup` copies at most `charactersRead` characters and stops at a NUL). -/
def read_name (charactersRead : Int) (lineBuffer : List Char) : Option (List Char) :=
  if charactersRead ≤ 0 then none
  else
    let charactersRead :=
      if charAt lineBuffer (charactersRead - 1).toNat = '\n' then charactersRead - 1
      else charactersRead
    if charactersRead = 0 then none
    else some (cstr (lineBuffer.take charactersRead.toNat))

def is_new_page (charactersRead : Int) (lineBuffer : List Char) : Bool :=
  decide (charactersRead = 1) && decide (charAt lineBuffer 0 = '\n')

/-- Result of `parse_attribute`. -/
inductive Parsed
  /-- The function returns false. -/
  | notAttribute
  /-- The function returns true; `key` is the content of the `attribute` buffer, `value`
  the content of the value buffer, `none` when `snprintf` got size 0 and left it untouched. -/
  | pair (key : List Char) (value : Option (List Char))
  /-- Not defined by the C language: a `snprintf` call writes past its 1024-byte buffer, or
  leaves the `attribute` buffer unwritten. -/
  | undefined
  deriving DecidableEq, Repr

def parse_attribute (charactersRead : Int) (lineBuffer : List Char) (leadBlanks : Int) : Parsed :=
  -- If we have read less than the required blanks, the line is certainly invalid
  if charactersRead < leadBlanks then .notAttribute
  -- Test if those lead blanks are actually there
  else if leadBlanks > 0 ∧ (List.range leadBlanks.toNat).any (fun i => charAt lineBuffer i ≠ ' ')
    then .notAttribute
  else
    -- Advance past the blanks, subtract the characters skipped from the total
    let lineBuffer := if leadBlanks > 0 then lineBuffer.drop leadBlanks.toNat else lineBuffer
    let charactersRead := if leadBlanks > 0 then charactersRead - leadBlanks else charactersRead
    if charactersRead ≤ 0 then .notAttribute
    else
      -- We do not want to look at any ending newline
      let charactersRead :=
        if charAt lineBuffer (charactersRead - 1).toNat = '\n' then charactersRead - 1
        else charactersRead
      if charactersRead = 0 then .notAttribute
      else if isspace (charAt lineBuffer 0) then .notAttribute
      else
        match strchr lineBuffer ':' with
        | none => .notAttribute
        | some tokenPos =>
          let numSeparatingCharacters : Int := 2
          let attributeLength : Int := wrapInt ((tokenPos : Int) + 1)
          let valueLength : Int :=
            wrapInt (charactersRead - numSeparatingCharacters - attributeLength + 2)
          match snprintf_s (toSize attributeLength) lineBuffer with
          | none => .undefined
          | some key =>
            if key.length + 1 > BUFFER_SIZE then .undefined
            else
              match snprintf_s (toSize valueLength)
                  (lineBuffer.drop (tokenPos + numSeparatingCharacters.toNat)) with
              | none => .pair key none
              | some value =>
                if value.length + 1 > BUFFER_SIZE then .undefined
                else .pair key (some value)

/-! ## `sscanf` with `%u` conversions -/

/-- Outcome of one `%u` conversion or of a whole `sscanf` call. -/
inductive Scanned (α : Type)
  /-- Every conversion succeeded. -/
  | matched (a : α) (rest : List Char)
  /-- Input or matching failure: fewer conversions than requested. -/
  | mismatch
  /-- A converted value does not fit `unsigned int`: undefined behaviour. -/
  | overflow
  deriving DecidableEq, Repr

/-- Value of a string of decimal digits. -/
def decimalValue (ds : List Char) : Nat :=
  ds.foldl (fun acc c => 10 * acc + (c.toNat - 48)) 0

/-- One `%u` directive: skip white space, optional sign, at least one digit; a leading `-`
negates the value in `unsigned int`. -/
def scan_u (s : List Char) : Scanned Nat :=
  let s := s.dropWhile isspace
  let neg := decide (s.head? = some '-')
  let s := if s.head? = some '-' ∨ s.head? = some '+' then s.drop 1 else s
  let ds := s.takeWhile isdigit
  if ds = [] then .mismatch
  else if decimalValue ds > 4294967295 then .overflow
  else .matched (if neg then (4294967296 - decimalValue ds) % 4294967296 else decimalValue ds)
    (s.dropWhile isdigit)

/-- The directives `, %u` that follow a conversion: a literal comma, white space, `%u`. -/
def scan_comma_u (s : List Char) : Scanned Nat :=
  match s with
  | ',' :: t => scan_u (t.dropWhile isspace)
  | _ => .mismatch

/-- The call `sscanf(value, "%u", &a) == 1`. -/
def sscanf_u (value : List Char) : Scanned Nat := scan_u value

/-- The call `sscanf(value, "%u, %u", &a, &b) == 2`. -/
def sscanf_u_u (value : List Char) : Scanned (Nat × Nat) :=
  match scan_u value with
  | .mismatch => .mismatch
  | .overflow => .overflow
  | .matched a r1 =>
    match scan_comma_u r1 with
    | .mismatch => .mismatch
    | .overflow => .overflow
    | .matched b r2 => .matched (a, b) r2

/-- The call `sscanf(value, "%u, %u, %u, %u", &v1, &v2, &v3, &v4) == 4`. -/
def sscanf_u_u_u_u (value : List Char) : Scanned (Nat × Nat × Nat × Nat) :=
  match sscanf_u_u value with
  | .mismatch => .mismatch
  | .overflow => .overflow
  | .matched (v1, v2) r2 =>
    match scan_comma_u r2 with
    | .mismatch => .mismatch
    | .overflow => .overflow
    | .matched v3 r3 =>
      match scan_comma_u r3 with
      | .mismatch => .mismatch
      | .overflow => .overflow
      | .matched v4 r4 => .matched (v1, v2, v3, v4) r4

/-! ## `printf` with `%i` -/

/-- Output of `%i` for an `int`. -/
def fmt_i (v : Int) : List Char :=
  if v < 0 then '-' :: Nat.toDigits 10 v.natAbs else Nat.toDigits 10 v.natAbs

/-- Output of `%i` for an `unsigned int` argument (printed through its `int` reading). -/
def fmt_u_as_i (u : Nat) : List Char := fmt_i (toInt32 u)

/-! ## The reader `TextureAtlas_read` -/

/-- Outcome of `TextureAtlas_read`. -/
inductive ReadResult
  /-- The atlas returned. -/
  | atlas (a : TextureAtlas_atlas)
  /-- The NULL pointer: the file could not be opened, or `display_error` / the filter error
  path released the partial atlas. -/
  | null
  /-- The execution ran into behaviour the C language does not define. -/
  | undefined
  deriving DecidableEq, Repr

/-- Outcome of the body of one attribute loop iteration. -/
inductive Step (α : Type)
  /-- The object after the assignment; the loop goes on. -/
  | ok (a : α)
  /-- The function returns NULL. -/
  | error
  /-- Undefined behaviour. -/
  | undefined
  deriving DecidableEq, Repr

/-- The page as created at the top of the page loop (known invalid state), with the name and
the absolute path that are assigned as soon as the name line is read.  `dir` is the directory
of the descriptor, `dirname(realpath(filename))`. -/
def new_page (dir : List Char) (index : Int) (pageName : List Char) : TextureAtlas_page :=
  { index := index
    name := pageName
    absolutePath := dir ++ '/' :: pageName
    width := -1
    height := -1
    format := .UNDEFINED_FORMAT
    repeat_ := .UNDEFINED_REPEAT
    minificationFilter := .UNDEFINED_FILTER
    magnificationFilter := .UNDEFINED_FILTER
    regions := [] }

/-- The region as created at the top of the region loop, with its name assigned. -/
def new_region (regionName : List Char) : TextureAtlas_region :=
  { name := regionName
    width := toUInt32 (-1)
    height := toUInt32 (-1)
    index := -1
    offsetX := toUInt32 (-1)
    offsetY := toUInt32 (-1)
    originalHeight := toUInt32 (-1)
    originalWidth := toUInt32 (-1)
    pads := none
    rotate := false
    splits := none
    x := toUInt32 (-1)
    y := toUInt32 (-1) }

/-- The `filter` branch of the page attribute loop: the two decoded filters, or `none` for
either error path. -/
def parse_filter_pair (value : List Char) : Option (TextureAtlas_filter × TextureAtlas_filter) :=
  match strchr value ',' with
  | none => none
  | some separator =>
    let firstValue := value.take separator
    let lastValue := value.drop (separator + 1)
    let lastValue := if isspace (charAt lastValue 0) then lastValue.drop 1 else lastValue
    let lastValue := if lastValue.getLast? = some '\n' then lastValue.dropLast else lastValue
    match parse_filter_value firstValue with
    | none => none
    | some minFilter =>
      match parse_filter_value lastValue with
      | none => none
      | some magFilter => some (minFilter, magFilter)

/-- Body of the page attribute loop after a successful `parse_attribute`. -/
def page_attribute (page : TextureAtlas_page) (key : List Char) (value : Option (List Char)) :
    Step TextureAtlas_page :=
  if key = "size".toList then
    match value with
    | none => .undefined
    | some value =>
      match sscanf_u_u value with
      | .matched (width, _) _ => .ok { page with width := toInt32 width, height := toInt32 width }
      | .mismatch => .error
      | .overflow => .undefined
  else if key = "format".toList then
    match value with
    | none => .undefined
    | some value =>
      match parse_format_value value with
      | some f => .ok { page with format := f }
      | none => .error
  else if key = "filter".toList then
    match value with
    | none => .undefined
    | some value =>
      match parse_filter_pair value with
      | some (minFilter, magFilter) =>
        .ok { page with minificationFilter := minFilter, magnificationFilter := magFilter }
      | none => .error
  else if key = "repeat".toList then
    match value with
    | none => .undefined
    | some value =>
      match parse_repeat_value value with
      | some r => .ok { page with repeat_ := r }
      | none => .error
  else .ok page

/-- The checks made after the page attribute loop; `page->name` is never NULL at this point
because a NULL name has already ended the function. -/
def page_complete (page : TextureAtlas_page) : Bool :=
  !(page.width = -1 || page.height = -1)
  && !(page.format = .UNDEFINED_FORMAT)
  && !(page.repeat_ = .UNDEFINED_REPEAT)
  && !(page.minificationFilter = .UNDEFINED_FILTER
        || page.magnificationFilter = .UNDEFINED_FILTER)

/-- Body of the region attribute loop after a successful `parse_attribute`. -/
def region_attribute (region : TextureAtlas_region) (key : List Char)
    (value : Option (List Char)) : Step TextureAtlas_region :=
  if key = "rotate".toList then
    match value with
    | none => .undefined
    | some value =>
      if value = "false".toList then .ok { region with rotate := false }
      else if value = "true".toList then .ok { region with rotate := true }
      else .error
  else if key = REPEAT_XY then
    match value with
    | none => .undefined
    | some value =>
      match sscanf_u_u value with
      | .matched (x, y) _ => .ok { region with x := x, y := y }
      | .mismatch => .error
      | .overflow => .undefined
  else if key = "size".toList then
    match value with
    | none => .undefined
    | some value =>
      match sscanf_u_u value with
      | .matched (width, height) _ => .ok { region with width := width, height := height }
      | .mismatch => .error
      | .overflow => .undefined
  else if key = "orig".toList then
    match value with
    | none => .undefined
    | some value =>
      match sscanf_u_u value with
      | .matched (width, height) _ =>
        .ok { region with originalWidth := width, originalHeight := height }
      | .mismatch => .error
      | .overflow => .undefined
  else if key = "offset".toList then
    match value with
    | none => .undefined
    | some value =>
      match sscanf_u_u value with
      | .matched (offsetX, offsetY) _ =>
        .ok { region with offsetX := offsetX, offsetY := offsetY }
      | .mismatch => .error
      | .overflow => .undefined
  else if key = "index".toList then
    match value with
    | none => .undefined
    | some value =>
      match sscanf_u value with
      | .matched index _ => .ok { region with index := toInt32 index }
      | .mismatch => .error
      | .overflow => .undefined
  else if key = "split".toList then
    match value with
    | none => .undefined
    | some value =>
      match sscanf_u_u_u_u value with
      | .matched (v1, v2, v3, v4) _ =>
        .ok { region with splits := some (toInt32 v1, toInt32 v2, toInt32 v3, toInt32 v4) }
      | .mismatch => .error
      | .overflow => .undefined
  else if key = "pad".toList then
    match value with
    | none => .undefined
    | some value =>
      match sscanf_u_u_u_u value with
      | .matched (v1, v2, v3, v4) _ =>
        .ok { region with pads := some (toInt32 v1, toInt32 v2, toInt32 v3, toInt32 v4) }
      | .mismatch => .error
      | .overflow => .undefined
  else .ok region

/-- Control point of `TextureAtlas_read` right before a call of `getline`.  `pages` are the
pages finished so far; the page being filled holds its finished regions, the region being
filled is kept apart until it is finished. -/
inductive Reader
  /-- About to read a page name (top of the page loop). -/
  | page_name (pages : List TextureAtlas_page)
  /-- Inside the page attribute loop. -/
  | page_attributes (pages : List TextureAtlas_page) (page : TextureAtlas_page)
  /-- Inside the region attribute loop. -/
  | region_attributes (pages : List TextureAtlas_page) (page : TextureAtlas_page)
      (region : TextureAtlas_region)
  /-- The function has returned NULL. -/
  | error
  /-- Undefined behaviour has occurred. -/
  | undefined
  deriving DecidableEq, Repr

/-- Top of the region loop: a region is created and named from the line in the buffer;
`charactersRead` is -1 when the last `getline` hit the end of input. -/
def start_region (pages : List TextureAtlas_page) (page : TextureAtlas_page)
    (charactersRead : Int) (lineBuffer : List Char) : Reader :=
  match read_name charactersRead lineBuffer with
  | none => .error
  | some regionName => .region_attributes pages page (new_region regionName)

/-- The current region is finished: it is the last element of the page's chain. -/
def close_region (page : TextureAtlas_page) (region : TextureAtlas_region) :
    TextureAtlas_page :=
  { page with regions := page.regions ++ [region] }

/-- What the reader does with the line that `getline` has just returned. -/
def read_line (dir : List Char) (state : Reader) (lineBuffer : List Char) : Reader :=
  let charactersRead : Int := lineBuffer.length
  match state with
  | .error => .error
  | .undefined => .undefined
  | .page_name pages =>
    match read_name charactersRead lineBuffer with
    | none => .error
    | some pageName => .page_attributes pages (new_page dir pages.length pageName)
  | .page_attributes pages page =>
    match parse_attribute charactersRead lineBuffer 0 with
    | .undefined => .undefined
    | .pair key value =>
      match page_attribute page key value with
      | .ok page => .page_attributes pages page
      | .error => .error
      | .undefined => .undefined
    | .notAttribute =>
      if page_complete page then start_region pages page charactersRead lineBuffer
      else .error
  | .region_attributes pages page region =>
    match parse_attribute charactersRead lineBuffer 2 with
    | .undefined => .undefined
    | .pair key value =>
      match region_attribute region key value with
      | .ok region => .region_attributes pages page region
      | .error => .error
      | .undefined => .undefined
    | .notAttribute =>
      if is_new_page charactersRead lineBuffer then
        .page_name (pages ++ [close_region page region])
      else start_region pages (close_region page region) charactersRead lineBuffer

/-- What the reader does when `getline` returns -1.  In the page attribute loop the function
returns NULL either way: a completeness check fails, or the region loop calls `read_name` with
`charactersRead = -1`, which yields NULL.  In the region attribute loop both scanning flags are
cleared and the atlas is returned. -/
def read_eof (state : Reader) : ReadResult :=
  match state with
  | .error => .null
  | .undefined => .undefined
  | .page_name _ => .null
  | .page_attributes pages page =>
    if page_complete page then
      match start_region pages page (-1) [] with
      | .region_attributes pages page region =>
        .atlas { pages := pages ++ [close_region page region]
                 numberOfPages := (pages.length : Int) + 1 }
      | _ => .null
    else .null
  | .region_attributes pages page region =>
    .atlas { pages := pages ++ [close_region page region]
             numberOfPages := (pages.length : Int) + 1 }

/-- The reader fed with the lines that `getline` returns one after the other. -/
def read_lines (dir : List Char) (state : Reader) (lines : List (List Char)) : Reader :=
  lines.foldl (read_line dir) state

/-- The reader run over the lines that follow the header line. -/
def read_pages (dir : List Char) (lines : List (List Char)) : ReadResult :=
  read_eof (read_lines dir (.page_name []) lines)

/-- The function `TextureAtlas_read`.  `atlasFile` is `none` when `fopen` fails, otherwise the
content of the file; `dir` is the directory part of the resolved file name. -/
def TextureAtlas_read (dir : List Char) (atlasFile : Option (List Char)) : ReadResult :=
  match atlasFile with
  | none => .null
  | some content =>
    match getlines content with
    | [] => .null
    | lineBuffer :: lines =>
      if !is_new_page lineBuffer.length lineBuffer then .null
      else read_pages dir lines

/-! ## The writer `TextureAtlas_write` -/

def write_region (region : TextureAtlas_region) : List Char :=
  region.name ++ "\n".toList
  ++ "  rotate: ".toList ++ (if region.rotate then "true".toList else "false".toList)
    ++ "\n".toList
  ++ "  xy: ".toList ++ fmt_u_as_i region.x ++ ", ".toList ++ fmt_u_as_i region.y ++ "\n".toList
  ++ "  size: ".toList ++ fmt_u_as_i region.width ++ ", ".toList ++ fmt_u_as_i region.height
    ++ "\n".toList
  ++ (match region.splits with
      | some (s0, s1, s2, s3) =>
        "  split: ".toList ++ fmt_i s0 ++ ", ".toList ++ fmt_i s1 ++ ", ".toList ++ fmt_i s2
          ++ ", ".toList ++ fmt_i s3 ++ "\n".toList
      | none => [])
  ++ (match region.pads with
      | some (p0, p1, p2, p3) =>
        "  pad: ".toList ++ fmt_i p0 ++ ", ".toList ++ fmt_i p1 ++ ", ".toList ++ fmt_i p2
          ++ ", ".toList ++ fmt_i p3 ++ "\n".toList
      | none => [])
  ++ "  orig: ".toList ++ fmt_u_as_i region.originalWidth ++ ", ".toList
    ++ fmt_u_as_i region.originalHeight ++ "\n".toList
  ++ "  offset: ".toList ++ fmt_u_as_i region.offsetX ++ ", ".toList
    ++ fmt_u_as_i region.offsetY ++ "\n".toList
  ++ "  index: ".toList ++ fmt_i region.index ++ "\n".toList

def write_regions : List TextureAtlas_region → List Char
  | [] => []
  | region :: nextRegion => write_region region ++ write_regions nextRegion

def write_page (page : TextureAtlas_page) : List Char :=
  "\n".toList
  ++ page.name ++ "\n".toList
  ++ "size: ".toList ++ fmt_i page.width ++ ",".toList ++ fmt_i page.height ++ "\n".toList
  ++ "format: ".toList ++ formatEnumToString page.format ++ "\n".toList
  ++ "filter: ".toList ++ filterEnumToString page.minificationFilter ++ ",".toList
    ++ filterEnumToString page.magnificationFilter ++ "\n".toList
  ++ "repeat: ".toList ++ repeatEnumToString page.repeat_ ++ "\n".toList
  ++ write_regions page.regions

def write_pages : List TextureAtlas_page → List Char
  | [] => []
  | page :: next => write_page page ++ write_pages next

/-- The function `TextureAtlas_write`: the content of the destination file, `none` when
`fopen` fails (`opened` false) and nothing is written. -/
def TextureAtlas_write (atlas : TextureAtlas_atlas) (opened : Bool) : Option (List Char) :=
  if !opened then none else some (write_pages atlas.pages)

/-! ## Region lookup `TextureAtlas_findRegion` -/

/-- The inner loop of `TextureAtlas_findRegion` over the regions of one page. -/
def find_in_regions : List TextureAtlas_region → List Char → Option TextureAtlas_region
  | [], _ => none
  | currentRegion :: nextRegion, regionName =>
    if currentRegion.name = regionName then some currentRegion
    else find_in_regions nextRegion regionName

/-- The outer loop of `TextureAtlas_findRegion` over the pages. -/
def find_in_pages : List TextureAtlas_page → List Char → Option TextureAtlas_region
  | [], _ => none
  | currentPage :: next, regionName =>
    match find_in_regions currentPage.regions regionName with
    | some region => some region
    | none => find_in_pages next regionName

/-- The function `TextureAtlas_findRegion`; `none` is NULL. -/
def TextureAtlas_findRegion (atlas : TextureAtlas_atlas) (regionName : List Char) :
    Option TextureAtlas_region :=
  find_in_pages atlas.pages regionName

/-! ## Notions used to state the properties -/

/-- The regions of an atlas enumerated page by page, and inside a page in chain order. -/
def all_regions (atlas : TextureAtlas_atlas) : List TextureAtlas_region :=
  (atlas.pages.map (fun page => page.regions)).flatten

/-- The minimal descriptor of the specification (one page `sheet.png`, one region `hero_01`). -/
def minimal_example : List Char :=
  ("\nsheet.png\nsize: 256, 256\nformat: RGBA8888\nfilter: Nearest,Nearest\nrepeat: none\n"
    ++ "hero_01\n  rotate: false\n  xy: 0, 0\n  size: 32, 48\n  orig: 32, 48\n"
    ++ "  offset: 0, 0\n  index: 1\n").toList

/-- The region `hero_01` of the minimal descriptor. -/
def hero_01 : TextureAtlas_region :=
  { name := "hero_01".toList, rotate := false, x := 0, y := 0, width := 32, height := 48,
    originalWidth := 32, originalHeight := 48, offsetX := 0, offsetY := 0, index := 1,
    splits := none, pads := none }

/-- The atlas described by the minimal descriptor, read from directory `dir`. -/
def minimal_atlas (dir : List Char) : TextureAtlas_atlas :=
  { pages := [{ index := 0, name := "sheet.png".toList,
                absolutePath := dir ++ "/sheet.png".toList,
                width := 256, height := 256, format := .RGBA8888,
                minificationFilter := .NEAREST, magnificationFilter := .NEAREST,
                repeat_ := .NONE, regions := [hero_01] }],
    numberOfPages := 1 }

/-! ### Block structure of a descriptor

The descriptor grammar: after the header line come page blocks separated by single blank
lines.  A page block is a name line, the depth-0 attribute lines that follow it, and region
blocks; a region block is a name line and the depth-2 attribute lines that follow it.  The
classification of a line uses `parse_attribute` only. -/

/-- The blank line `\n`. -/
def blank_line : List Char := ['\n']

/-- A line is an attribute line at depth `leadBlanks` when `parse_attribute` does not
return false on it. -/
def is_attribute_line (leadBlanks : Int) (line : List Char) : Bool :=
  decide (parse_attribute line.length line leadBlanks ≠ .notAttribute)

/-- The key of an attribute line at depth `leadBlanks`, `none` for any other line. -/
def attribute_key (leadBlanks : Int) (line : List Char) : Option (List Char) :=
  match parse_attribute line.length line leadBlanks with
  | .pair key _ => some key
  | _ => none

/-- A region block: its name line and its attribute lines. -/
structure RegionBlock where
  nameLine : List Char
  attributes : List (List Char)
  deriving DecidableEq, Repr

/-- A page block: its name line, its attribute lines and its region blocks. -/
structure PageBlock where
  nameLine : List Char
  attributes : List (List Char)
  regions : List RegionBlock
  deriving DecidableEq, Repr

def RegionBlock.lines (b : RegionBlock) : List (List Char) := b.nameLine :: b.attributes

def region_blocks_lines (bs : List RegionBlock) : List (List Char) :=
  (bs.map RegionBlock.lines).flatten

def PageBlock.lines (b : PageBlock) : List (List Char) :=
  b.nameLine :: (b.attributes ++ region_blocks_lines b.regions)

/-- The lines after the header: the page blocks with one blank line between two of them. -/
def body_lines : List PageBlock → List (List Char)
  | [] => []
  | [b] => b.lines
  | b :: b2 :: bs => b.lines ++ blank_line :: body_lines (b2 :: bs)

/-- The lines of a descriptor: the header line, then the body. -/
def descriptor_lines (blocks : List PageBlock) : List (List Char) :=
  blank_line :: body_lines blocks

/-- A region block that follows another region block: its name line is neither a depth-2
attribute line nor a blank line, and its attribute lines are depth-2 attribute lines. -/
def RegionBlock.shaped (b : RegionBlock) : Bool :=
  !is_attribute_line 2 b.nameLine && !is_new_page b.nameLine.length b.nameLine
    && b.attributes.all (is_attribute_line 2)

/-- The block decomposition of a page is the one the line classes dictate: the attribute
lines are depth-0 attribute lines, the first region name line is not one, the attribute lines
of the regions are depth-2 attribute lines and the later region name lines are not. -/
def PageBlock.shaped (b : PageBlock) : Bool :=
  b.attributes.all (is_attribute_line 0) &&
    match b.regions with
    | [] => true
    | r :: rs =>
      !is_attribute_line 0 r.nameLine && r.attributes.all (is_attribute_line 2)
        && rs.all RegionBlock.shaped

/-- The page attribute loop run over the attribute lines of a block. -/
def page_attribute_lines (page : TextureAtlas_page) :
    List (List Char) → Step TextureAtlas_page
  | [] => .ok page
  | line :: rest =>
    match parse_attribute line.length line 0 with
    | .pair key value =>
      match page_attribute page key value with
      | .ok page => page_attribute_lines page rest
      | .error => .error
      | .undefined => .undefined
    | .undefined => .undefined
    | .notAttribute => .ok page

/-- The region attribute loop run over the attribute lines of a block. -/
def region_attribute_lines (region : TextureAtlas_region) :
    List (List Char) → Step TextureAtlas_region
  | [] => .ok region
  | line :: rest =>
    match parse_attribute line.length line 2 with
    | .pair key value =>
      match region_attribute region key value with
      | .ok region => region_attribute_lines region rest
      | .error => .error
      | .undefined => .undefined
    | .undefined => .undefined
    | .notAttribute => .ok region

/-- The region described by a region block. -/
def region_of_block (b : RegionBlock) : Step TextureAtlas_region :=
  match read_name b.nameLine.length b.nameLine with
  | none => .error
  | some regionName => region_attribute_lines (new_region regionName) b.attributes

/-- The regions described by consecutive region blocks, read in order. -/
def regions_of_blocks : List RegionBlock → Step (List TextureAtlas_region)
  | [] => .ok []
  | b :: bs =>
    match region_of_block b with
    | .ok region =>
      match regions_of_blocks bs with
      | .ok regions => .ok (region :: regions)
      | .error => .error
      | .undefined => .undefined
    | .error => .error
    | .undefined => .undefined

/-- The page described by a page block that is read as page number `index`. -/
def page_of_block (dir : List Char) (index : Int) (b : PageBlock) : Step TextureAtlas_page :=
  match read_name b.nameLine.length b.nameLine with
  | none => .error
  | some pageName =>
    match page_attribute_lines (new_page dir index pageName) b.attributes with
    | .ok page =>
      if page_complete page then
        match b.regions with
        | [] => .error
        | r :: rs =>
          match regions_of_blocks (r :: rs) with
          | .ok regions => .ok { page with regions := page.regions ++ regions }
          | .error => .error
          | .undefined => .undefined
      else .error
    | .error => .error
    | .undefined => .undefined

/-- The pages described by consecutive page blocks, read in order after the pages `done`. -/
def pages_of_blocks (dir : List Char) :
    List TextureAtlas_page → List PageBlock → Step (List TextureAtlas_page)
  | done, [] => .ok done
  | done, b :: bs =>
    match page_of_block dir done.length b with
    | .ok page => pages_of_blocks dir (done ++ [page]) bs
    | .error => .error
    | .undefined => .undefined

/-- The result of the reader for the outcome `step` of the whole page loop. -/
def pages_result (step : Step (List TextureAtlas_page)) : ReadResult :=
  match step with
  | .ok pages => .atlas { pages := pages, numberOfPages := pages.length }
  | .error => .null
  | .undefined => .undefined

/-- The outcome described by the page blocks of a descriptor. -/
def atlas_of_blocks (dir : List Char) (blocks : List PageBlock) : ReadResult :=
  match blocks with
  | [] => .null
  | b :: bs =>
    pages_result (pages_of_blocks dir [] (b :: bs))


/-- The reader state that follows the page attribute loop outcome `step`. -/
def page_loop_state (pages : List TextureAtlas_page) (step : Step TextureAtlas_page) : Reader :=
  match step with
  | .ok page => .page_attributes pages page
  | .error => .error
  | .undefined => .undefined

/-- The reader state that follows the region attribute loop outcome `step`. -/
def region_loop_state (pages : List TextureAtlas_page) (page : TextureAtlas_page)
    (step : Step TextureAtlas_region) : Reader :=
  match step with
  | .ok region => .region_attributes pages page region
  | .error => .error
  | .undefined => .undefined

/-- The reader state in which `region` and then `regions` have been read for `page`: all but
the last are closed, the last is being filled. -/
def region_chain_state (pages : List TextureAtlas_page) :
    TextureAtlas_page → TextureAtlas_region → List TextureAtlas_region → Reader
  | page, region, [] => .region_attributes pages page region
  | page, region, r :: rs => region_chain_state pages (close_region page region) r rs

/-- The reader state that follows the region loop outcome `step` after `region`. -/
def region_chain_loop_state (pages : List TextureAtlas_page) (page : TextureAtlas_page)
    (region : TextureAtlas_region) (step : Step (List TextureAtlas_region)) : Reader :=
  match step with
  | .ok regions => region_chain_state pages page region regions
  | .error => .error
  | .undefined => .undefined

/-- The reader state after the lines of a page block, read from the top of the page loop. -/
def page_block_state (dir : List Char) (pages : List TextureAtlas_page) (b : PageBlock) :
    Reader :=
  match read_name b.nameLine.length b.nameLine with
  | none => .error
  | some pageName =>
    match page_attribute_lines (new_page dir pages.length pageName) b.attributes with
    | .ok page =>
      match b.regions with
      | [] => .page_attributes pages page
      | r :: rs =>
        if page_complete page then
          match region_of_block r with
          | .ok region => region_chain_loop_state pages page region (regions_of_blocks rs)
          | .error => .error
          | .undefined => .undefined
        else .error
    | .error => .error
    | .undefined => .undefined


/-- The reader state at the next page after the page loop outcome `step`. -/
def next_page_state (pages : List TextureAtlas_page) (step : Step TextureAtlas_page) : Reader :=
  match step with
  | .ok page => .page_name (pages ++ [page])
  | .error => .error
  | .undefined => .undefined

/-- The result of the reader when the input ends after the page loop outcome `step`. -/
def last_page_result (pages : List TextureAtlas_page) (step : Step TextureAtlas_page) :
    ReadResult :=
  match step with
  | .ok page => .atlas { pages := pages ++ [page], numberOfPages := (pages.length : Int) + 1 }
  | .error => .null
  | .undefined => .undefined


/-- The end of `parse_attribute`, from the search for the colon on: `lineBuffer` and
`charactersRead` are the buffer and the count after the blanks and the newline are dealt with. -/
def split_at_colon (charactersRead : Int) (lineBuffer : List Char) : Parsed :=
  match strchr lineBuffer ':' with
  | none => .notAttribute
  | some tokenPos =>
    let attributeLength : Int := wrapInt ((tokenPos : Int) + 1)
    let valueLength : Int := wrapInt (charactersRead - 2 - attributeLength + 2)
    match snprintf_s (toSize attributeLength) lineBuffer with
    | none => .undefined
    | some key =>
      if key.length + 1 > BUFFER_SIZE then .undefined
      else
        match snprintf_s (toSize valueLength) (lineBuffer.drop (tokenPos + 2)) with
        | none => .pair key none
        | some value =>
          if value.length + 1 > BUFFER_SIZE then .undefined
          else .pair key (some value)

/-- The part of `parse_attribute` that follows the handling of the lead blanks. -/
def parse_unindented (charactersRead : Int) (lineBuffer : List Char) : Parsed :=
  if charactersRead ≤ 0 then .notAttribute
  else if (if charAt lineBuffer (charactersRead - 1).toNat = '\n' then charactersRead - 1
      else charactersRead) = 0 then .notAttribute
  else if isspace (charAt lineBuffer 0) then .notAttribute
  else split_at_colon
    (if charAt lineBuffer (charactersRead - 1).toNat = '\n' then charactersRead - 1
      else charactersRead) lineBuffer


/-- What may follow the last region block of a page: the end of the input, or a blank line
and further page blocks. -/
def is_page_tail (tail : List (List Char)) : Prop :=
  tail = [] ∨ ∃ blocks : List PageBlock,
    blocks ≠ [] ∧ blocks.all PageBlock.shaped = true ∧ tail = blank_line :: body_lines blocks


/-- Whether a loop outcome is a value. -/
def Step.is_ok {α : Type} (step : Step α) : Bool :=
  match step with
  | .ok _ => true
  | _ => false

/-- Every page block, read as page number `index`, `index + 1`, ..., describes a page. -/
def blocks_well_formed (dir : List Char) : Nat → List PageBlock → Bool
  | _, [] => true
  | index, b :: bs =>
    (page_of_block dir index b).is_ok && blocks_well_formed dir (index + 1) bs

/-- Region `j` of page `i` of an atlas. -/
def region_at (atlas : TextureAtlas_atlas) (i j : Nat) : Option TextureAtlas_region :=
  match atlas.pages[i]? with
  | some page => page.regions[j]?
  | none => none

/-- The region line `  index: n`, with its line terminator `nl`. -/
def index_line (n : Int) (nl : List Char) : List Char :=
  "  index: ".toList ++ fmt_i n ++ nl

/-- The region line `  split: a, b, c, d`, with its line terminator `nl`. -/
def split_line (a b c d : Int) (nl : List Char) : List Char :=
  "  split: ".toList ++ (fmt_i a ++ ", ".toList ++ fmt_i b ++ ", ".toList ++ fmt_i c
    ++ ", ".toList ++ fmt_i d) ++ nl

/-- The region line `  pad: a, b, c, d`, with its line terminator `nl`. -/
def pad_line (a b c d : Int) (nl : List Char) : List Char :=
  "  pad: ".toList ++ (fmt_i a ++ ", ".toList ++ fmt_i b ++ ", ".toList ++ fmt_i c
    ++ ", ".toList ++ fmt_i d) ++ nl

/-- The value is an `int`. -/
def is_int (v : Int) : Prop := -2147483648 ≤ v ∧ v < 2147483648

instance (v : Int) : Decidable (is_int v) :=
  inferInstanceAs (Decidable (-2147483648 ≤ v ∧ v < 2147483648))

/-- A line terminator: the newline, or nothing at the end of the input. -/
def is_terminator (nl : List Char) : Prop := nl = [] ∨ nl = ['\n']


/-- A key as the writer emits it: not empty, no colon, no NUL, no newline, no white space in
front, shorter than the attribute buffer. -/
def is_key (key : List Char) : Bool :=
  !key.isEmpty && key.all (fun c => decide (c ≠ ':') && decide (c ≠ NUL))
    && !isspace (charAt key 0) && decide (key.length < 1024)
    && key.all (fun c => decide (c ≠ '\n'))


/-! ### The text of the writer, line by line -/

/-- An attribute line as the writer prints it: `d` blanks, the key, a colon, a blank, the
value, a newline. -/
def attribute_text (d : Nat) (key value : List Char) : List Char :=
  List.replicate d ' ' ++ (key ++ [':', ' ']) ++ value ++ ['\n']

/-- A value as the writer prints it: no NUL, no newline, shorter than the value buffer. -/
def is_value (value : List Char) : Prop :=
  (∀ c ∈ value, c ≠ NUL ∧ c ≠ '\n') ∧ value.length < 1024

/-- Two numbers separated by `sep`, as printed by `%i<sep>%i`. -/
def two_numbers (a : Int) (sep : List Char) (b : Int) : List Char :=
  fmt_i a ++ sep ++ fmt_i b

/-- Four numbers as printed by `%i, %i, %i, %i`. -/
def four_numbers (a b c d : Int) : List Char :=
  fmt_i a ++ ", ".toList ++ fmt_i b ++ ", ".toList ++ fmt_i c ++ ", ".toList ++ fmt_i d

/-- The attribute lines that `TextureAtlas_write` prints for a region. -/
def written_region_attributes (region : TextureAtlas_region) : List (List Char) :=
  [attribute_text 2 "rotate".toList (if region.rotate then "true".toList else "false".toList),
   attribute_text 2 "xy".toList
     (two_numbers (toInt32 region.x) ", ".toList (toInt32 region.y)),
   attribute_text 2 "size".toList
     (two_numbers (toInt32 region.width) ", ".toList (toInt32 region.height))]
  ++ (match region.splits with
      | some (s0, s1, s2, s3) => [attribute_text 2 "split".toList (four_numbers s0 s1 s2 s3)]
      | none => [])
  ++ (match region.pads with
      | some (p0, p1, p2, p3) => [attribute_text 2 "pad".toList (four_numbers p0 p1 p2 p3)]
      | none => [])
  ++ [attribute_text 2 "orig".toList
        (two_numbers (toInt32 region.originalWidth) ", ".toList (toInt32 region.originalHeight)),
      attribute_text 2 "offset".toList
        (two_numbers (toInt32 region.offsetX) ", ".toList (toInt32 region.offsetY)),
      attribute_text 2 "index".toList (fmt_i region.index)]

/-- The region block that `TextureAtlas_write` prints for a region. -/
def written_region_block (region : TextureAtlas_region) : RegionBlock :=
  { nameLine := region.name ++ ['\n'], attributes := written_region_attributes region }

/-- The attribute lines that `TextureAtlas_write` prints for a page. -/
def written_page_attributes (page : TextureAtlas_page) : List (List Char) :=
  [attribute_text 0 "size".toList (two_numbers page.width ",".toList page.height),
   attribute_text 0 "format".toList (formatEnumToString page.format),
   attribute_text 0 "filter".toList
     (filterEnumToString page.minificationFilter ++ ',' ::
       filterEnumToString page.magnificationFilter),
   attribute_text 0 "repeat".toList (repeatEnumToString page.repeat_)]

/-- The page block that `TextureAtlas_write` prints for a page. -/
def written_page_block (page : TextureAtlas_page) : PageBlock :=
  { nameLine := page.name ++ ['\n'],
    attributes := written_page_attributes page,
    regions := page.regions.map written_region_block }

/-- The page with its absolute path recomputed for the directory `dir`. -/
def relocate_page (dir : List Char) (page : TextureAtlas_page) : TextureAtlas_page :=
  { page with absolutePath := dir ++ '/' :: page.name }

/-- The atlas with the absolute paths of its pages recomputed for the directory `dir`; every
other field of every page and region is unchanged. -/
def relocate (dir : List Char) (atlas : TextureAtlas_atlas) : TextureAtlas_atlas :=
  { atlas with pages := atlas.pages.map (relocate_page dir) }

/-- A name read from a text line: not empty, without NUL and without newline. -/
def is_name (name : List Char) : Prop :=
  name ≠ [] ∧ ∀ c ∈ name, c ≠ NUL ∧ c ≠ '\n'

/-- A line as `getline` returns it from a text without NUL: not empty, without NUL, and with a
newline at most at its end. -/
def is_text_line (line : List Char) : Prop :=
  line ≠ [] ∧ (∀ c ∈ line, c ≠ NUL) ∧
    ∃ body nl, line = body ++ nl ∧ (∀ c ∈ body, c ≠ '\n') ∧ is_terminator nl

/-- The numbers a region can hold after a successful read. -/
def region_numbers_valid (region : TextureAtlas_region) : Prop :=
  region.x < 4294967296 ∧ region.y < 4294967296
  ∧ region.width < 4294967296 ∧ region.height < 4294967296
  ∧ region.originalWidth < 4294967296 ∧ region.originalHeight < 4294967296
  ∧ region.offsetX < 4294967296 ∧ region.offsetY < 4294967296
  ∧ is_int region.index
  ∧ (∀ s0 s1 s2 s3, region.splits = some (s0, s1, s2, s3) →
      is_int s0 ∧ is_int s1 ∧ is_int s2 ∧ is_int s3)
  ∧ (∀ p0 p1 p2 p3, region.pads = some (p0, p1, p2, p3) →
      is_int p0 ∧ is_int p1 ∧ is_int p2 ∧ is_int p3)

/-- The values a region can hold after a successful read. -/
def region_valid (region : TextureAtlas_region) : Prop :=
  is_name region.name ∧ region_numbers_valid region

/-- The values a page can hold after a successful read, as page number `index`. -/
def page_valid (index : Nat) (page : TextureAtlas_page) : Prop :=
  page.index = index ∧ is_name page.name
  ∧ page.height = page.width ∧ is_int page.width ∧ page_complete page = true
  ∧ (∀ r ∈ page.regions, region_valid r)
  ∧ (written_page_block page).shaped = true ∧ page.regions ≠ []


/-! ### Example descriptors -/

/-- The block structure of `minimal_example`. -/
def minimal_blocks : List PageBlock :=
  [{ nameLine := "sheet.png\n".toList,
     attributes := ["size: 256, 256\n".toList, "format: RGBA8888\n".toList,
                    "filter: Nearest,Nearest\n".toList, "repeat: none\n".toList],
     regions := [{ nameLine := "hero_01\n".toList,
                   attributes := ["  rotate: false\n".toList, "  xy: 0, 0\n".toList,
                                  "  size: 32, 48\n".toList, "  orig: 32, 48\n".toList,
                                  "  offset: 0, 0\n".toList, "  index: 1\n".toList] }] }]

/-- The minimal descriptor without the `size` line of its page. -/
def no_size_example : List Char :=
  ("\nsheet.png\nformat: RGBA8888\nfilter: Nearest,Nearest\nrepeat: none\n"
    ++ "hero_01\n  rotate: false\n  xy: 0, 0\n  size: 32, 48\n  orig: 32, 48\n"
    ++ "  offset: 0, 0\n  index: 1\n").toList

/-- The block structure of `no_size_example`. -/
def no_size_blocks : List PageBlock :=
  [{ nameLine := "sheet.png\n".toList,
     attributes := ["format: RGBA8888\n".toList,
                    "filter: Nearest,Nearest\n".toList, "repeat: none\n".toList],
     regions := [{ nameLine := "hero_01\n".toList,
                   attributes := ["  rotate: false\n".toList, "  xy: 0, 0\n".toList,
                                  "  size: 32, 48\n".toList, "  orig: 32, 48\n".toList,
                                  "  offset: 0, 0\n".toList, "  index: 1\n".toList] }] }]

/-- A descriptor whose page is 256 wide and 128 high. -/
def wide_page_example : List Char :=
  ("\nsheet.png\nsize: 256, 128\nformat: RGBA8888\nfilter: Nearest,Nearest\nrepeat: none\n"
    ++ "hero_01\n  rotate: false\n  xy: 0, 0\n  size: 32, 48\n  orig: 32, 48\n"
    ++ "  offset: 0, 0\n  index: 1\n").toList

/-- A descriptor with two pages; the first has the regions `a` and `b`, the second the region
`c`, which carries nine-patch data and no index.  The input ends right after the last
attribute line, without a line terminator. -/
def two_page_example : List Char :=
  ("\nfirst.png\nsize: 64, 64\nformat: RGB565\nfilter: Linear,Nearest\nrepeat: x\n"
    ++ "a\n  xy: 1, 2\n  index: 7\nb\n  rotate: true\n"
    ++ "\nsecond.png\nsize: 32, 32\nformat: Alpha\nfilter: MipMap, Linear\nrepeat: xy\n"
    ++ "c\n  split: 1, 2, 3, 4\n  size: 5, 6").toList

/-- The block structure of `two_page_example`. -/
def two_page_blocks : List PageBlock :=
  [{ nameLine := "first.png\n".toList,
     attributes := ["size: 64, 64\n".toList, "format: RGB565\n".toList,
                    "filter: Linear,Nearest\n".toList, "repeat: x\n".toList],
     regions := [{ nameLine := "a\n".toList,
                   attributes := ["  xy: 1, 2\n".toList, "  index: 7\n".toList] },
                 { nameLine := "b\n".toList, attributes := ["  rotate: true\n".toList] }] },
   { nameLine := "second.png\n".toList,
     attributes := ["size: 32, 32\n".toList, "format: Alpha\n".toList,
                    "filter: MipMap, Linear\n".toList, "repeat: xy\n".toList],
     regions := [{ nameLine := "c\n".toList,
                   attributes := ["  split: 1, 2, 3, 4\n".toList, "  size: 5, 6".toList] }] }]


/-- The atlas described by `two_page_example`, read from the directory with the empty name. -/
def two_page_atlas : TextureAtlas_atlas :=
  { pages := [
      { index := 0, name := "first.png".toList, absolutePath := "/first.png".toList,
        width := 64, height := 64, format := .RGB565, minificationFilter := .LINEAR,
        magnificationFilter := .NEAREST, repeat_ := .X,
        regions := [{ new_region "a".toList with x := 1, y := 2, index := 7 },
                    { new_region "b".toList with rotate := true }] },
      { index := 1, name := "second.png".toList, absolutePath := "/second.png".toList,
        width := 32, height := 32, format := .ALPHA, minificationFilter := .MIP_MAP,
        magnificationFilter := .LINEAR, repeat_ := .XY,
        regions := [{ new_region "c".toList with
                        width := 5, height := 6, splits := some (1, 2, 3, 4) }] }],
    numberOfPages := 2 }


/-- The keys that the page attribute loop recognizes. -/
def page_keys : List (List Char) :=
  ["size".toList, "format".toList, "filter".toList, "repeat".toList]

/-- The keys that the region attribute loop recognizes. -/
def region_keys : List (List Char) :=
  ["rotate".toList, "xy".toList, "size".toList, "orig".toList, "offset".toList,
   "index".toList, "split".toList, "pad".toList]

/-- The page block of `minimal_example`. -/
def minimal_page_block : PageBlock :=
  { nameLine := "sheet.png\n".toList,
    attributes := ["size: 256, 256\n".toList, "format: RGBA8888\n".toList,
                   "filter: Nearest,Nearest\n".toList, "repeat: none\n".toList],
    regions := [{ nameLine := "hero_01\n".toList,
                  attributes := ["  rotate: false\n".toList, "  xy: 0, 0\n".toList,
                                 "  size: 32, 48\n".toList, "  orig: 32, 48\n".toList,
                                 "  offset: 0, 0\n".toList, "  index: 1\n".toList] }] }

/-- The region block of `minimal_example`. -/
def minimal_region_block : RegionBlock :=
  { nameLine := "hero_01\n".toList,
    attributes := ["  rotate: false\n".toList, "  xy: 0, 0\n".toList,
                   "  size: 32, 48\n".toList, "  orig: 32, 48\n".toList,
                   "  offset: 0, 0\n".toList, "  index: 1\n".toList] }

/-- The minimal descriptor with the line `comment: packed by hand` added to the attribute
block of its page, after the `size` line. -/
def extra_page_key_example : List Char :=
  ("\nsheet.png\nsize: 256, 256\ncomment: packed by hand\nformat: RGBA8888\n"
    ++ "filter: Nearest,Nearest\nrepeat: none\n"
    ++ "hero_01\n  rotate: false\n  xy: 0, 0\n  size: 32, 48\n  orig: 32, 48\n"
    ++ "  offset: 0, 0\n  index: 1\n").toList

/-- The minimal descriptor with the line `  flip: y` added to the attribute block of its
region, after the `xy` line. -/
def extra_region_key_example : List Char :=
  ("\nsheet.png\nsize: 256, 256\nformat: RGBA8888\nfilter: Nearest,Nearest\nrepeat: none\n"
    ++ "hero_01\n  rotate: false\n  xy: 0, 0\n  flip: y\n  size: 32, 48\n  orig: 32, 48\n"
    ++ "  offset: 0, 0\n  index: 1\n").toList


/-- The region line `  rotate: true` or `  rotate: false`, with its line terminator `nl`. -/
def rotate_line (v : Bool) (nl : List Char) : List Char :=
  "  rotate: ".toList ++ (if v then "true".toList else "false".toList) ++ nl

/-- The minimal descriptor with the region line `  rotate: True` (capital letter). -/
def capital_rotate_example : List Char :=
  ("\nsheet.png\nsize: 256, 256\nformat: RGBA8888\nfilter: Nearest,Nearest\nrepeat: none\n"
    ++ "hero_01\n  rotate: True\n  xy: 0, 0\n  size: 32, 48\n  orig: 32, 48\n"
    ++ "  offset: 0, 0\n  index: 1\n").toList

/-- The region block of `capital_rotate_example`. -/
def capital_rotate_region_block : RegionBlock :=
  { nameLine := "hero_01\n".toList,
    attributes := ["  rotate: True\n".toList, "  xy: 0, 0\n".toList,
                   "  size: 32, 48\n".toList, "  orig: 32, 48\n".toList,
                   "  offset: 0, 0\n".toList, "  index: 1\n".toList] }

/-- The block structure of `capital_rotate_example`. -/
def capital_rotate_blocks : List PageBlock :=
  [{ minimal_page_block with regions := [capital_rotate_region_block] }]


/-- The text of a line up to its first colon: the indentation and the key of an attribute
line. -/
def key_text (line : List Char) : List Char := line.takeWhile (fun c => c != ':')

/-- The lines that `TextureAtlas_write` prints for a page: an empty line, then the lines of
the page block. -/
def written_page_lines (page : TextureAtlas_page) : List (List Char) :=
  blank_line :: (written_page_block page).lines


/-- The minimal descriptor followed by a blank line. -/
def trailing_blank_example : List Char := minimal_example ++ ['\n']


/-- A line without one newline at its end. -/
def strip_newline (line : List Char) : List Char :=
  if line.getLast? = some '\n' then line.dropLast else line

/-- What remains of a line after the removal of `d` indentation characters and of one newline
at the end. -/
def remaining_content (d : Nat) (line : List Char) : List Char :=
  strip_newline (line.drop d)


/-- The page line `size: <w><sep><h>`, with the separator `sep` between the two numbers and
the line terminator `nl`. -/
def size_line (w h : Int) (sep nl : List Char) : List Char :=
  "size: ".toList ++ two_numbers w sep h ++ nl

/-- A descriptor whose page line is `size: 128, 512`. -/
def tall_page_example : List Char :=
  ("\nsheet.png\nsize: 128, 512\nformat: RGBA8888\nfilter: Nearest,Nearest\nrepeat: none\n"
    ++ "hero_01\n  rotate: false\n  xy: 0, 0\n  size: 32, 48\n  orig: 32, 48\n"
    ++ "  offset: 0, 0\n  index: 1\n").toList

/-- The block structure of `tall_page_example`. -/
def tall_page_blocks : List PageBlock :=
  [{ minimal_page_block with
      attributes := ["size: 128, 512\n".toList, "format: RGBA8888\n".toList,
                     "filter: Nearest,Nearest\n".toList, "repeat: none\n".toList] }]

/-- A page block without regions: the name line and the four attribute lines of the page of
the minimal descriptor. -/
def no_region_block : PageBlock :=
  { minimal_page_block with regions := [] }

/-- A descriptor whose first page has no region: its attribute lines are followed directly by
a blank line and the page of the minimal descriptor. -/
def no_region_example : List Char :=
  ("\nempty.png\nsize: 256, 256\nformat: RGBA8888\nfilter: Nearest,Nearest\nrepeat: none\n"
    ++ "\nsheet.png\nsize: 256, 256\nformat: RGBA8888\nfilter: Nearest,Nearest\nrepeat: none\n"
    ++ "hero_01\n  rotate: false\n  xy: 0, 0\n  size: 32, 48\n  orig: 32, 48\n"
    ++ "  offset: 0, 0\n  index: 1\n").toList

/-- A descriptor that ends right after the attribute lines of its page. -/
def no_region_at_end_example : List Char :=
  "\nsheet.png\nsize: 256, 256\nformat: RGBA8888\nfilter: Nearest,Nearest\nrepeat: none\n".toList

/-- A descriptor whose region blocks are name lines only: region `a` is followed by the name
of region `b`, region `b` by the blank line before the second page, region `c` by the end of
the input. -/
def name_only_example : List Char :=
  ("\nfirst.png\nsize: 64, 64\nformat: RGB565\nfilter: Linear,Nearest\nrepeat: x\n"
    ++ "a\nb\n"
    ++ "\nsecond.png\nsize: 32, 32\nformat: Alpha\nfilter: MipMap, Linear\nrepeat: xy\n"
    ++ "c\n").toList

/-- The block structure of `name_only_example`. -/
def name_only_blocks : List PageBlock :=
  [{ nameLine := "first.png\n".toList,
     attributes := ["size: 64, 64\n".toList, "format: RGB565\n".toList,
                    "filter: Linear,Nearest\n".toList, "repeat: x\n".toList],
     regions := [{ nameLine := "a\n".toList, attributes := [] },
                 { nameLine := "b\n".toList, attributes := [] }] },
   { nameLine := "second.png\n".toList,
     attributes := ["size: 32, 32\n".toList, "format: Alpha\n".toList,
                    "filter: MipMap, Linear\n".toList, "repeat: xy\n".toList],
     regions := [{ nameLine := "c\n".toList, attributes := [] }] }]

/-- The atlas described by `name_only_example`, read from the directory with the empty
name. -/
def name_only_atlas : TextureAtlas_atlas :=
  { pages := [
      { index := 0, name := "first.png".toList, absolutePath := "/first.png".toList,
        width := 64, height := 64, format := .RGB565, minificationFilter := .LINEAR,
        magnificationFilter := .NEAREST, repeat_ := .X,
        regions := [new_region "a".toList, new_region "b".toList] },
      { index := 1, name := "second.png".toList, absolutePath := "/second.png".toList,
        width := 32, height := 32, format := .ALPHA, minificationFilter := .MIP_MAP,
        magnificationFilter := .LINEAR, repeat_ := .XY,
        regions := [new_region "c".toList] }],
    numberOfPages := 2 }

/-- The string that the encoders return for a value that is none of the defined ones. -/
def ERROR_PLACEHOLDER : List Char := "ERROR!!!!".toList


/-- The minimal descriptor with the line `  rotate:` (nothing behind the colon) added to its
region block, right after the line `  rotate: false`. -/
def rotate_no_value_example : List Char :=
  ("\nsheet.png\nsize: 256, 256\nformat: RGBA8888\nfilter: Nearest,Nearest\nrepeat: none\n"
    ++ "hero_01\n  rotate: false\n  rotate:\n  xy: 0, 0\n  size: 32, 48\n  orig: 32, 48\n"
    ++ "  offset: 0, 0\n  index: 1\n").toList

/-- The descriptor `rotate_no_value_example` with the line `  flip: true`, whose key is not
recognized, added between the lines `  rotate: false` and `  rotate:`. -/
def rotate_no_value_flip_example : List Char :=
  ("\nsheet.png\nsize: 256, 256\nformat: RGBA8888\nfilter: Nearest,Nearest\nrepeat: none\n"
    ++ "hero_01\n  rotate: false\n  flip: true\n  rotate:\n  xy: 0, 0\n  size: 32, 48\n"
    ++ "  orig: 32, 48\n  offset: 0, 0\n  index: 1\n").toList

/-- C6 (token fidelity): for each of the 7 pixel formats, the 7 filter modes and the 4 wrap
modes, decoding the token produced by the encoder gives back the value. -/
theorem token_fidelity :
    (∀ f : TextureAtlas_format, f ≠ .UNDEFINED_FORMAT →
      parse_format_value (formatEnumToString f) = some f) ∧
    (∀ f : TextureAtlas_filter, f ≠ .UNDEFINED_FILTER →
      parse_filter_value (filterEnumToString f) = some f) ∧
    (∀ r : TextureAtlas_repeat, r ≠ .UNDEFINED_REPEAT →
      parse_repeat_value (repeatEnumToString r) = some r) := by
  refine ⟨?_, ?_, ?_⟩
  · intro f hf
    cases f <;> first | rfl | exact absurd rfl hf
  · intro f hf
    cases f <;> first | rfl | exact absurd rfl hf
  · intro r hr
    cases r <;> first | rfl | exact absurd rfl hr

/-- C6, instance: the tokens of RGB565, MipMapLinearNearest and xy decode to themselves. -/
theorem token_fidelity_witness :
    parse_format_value (formatEnumToString .RGB565) = some .RGB565 ∧
    parse_filter_value (filterEnumToString .MIP_MAP_LINEAR_NEAREST)
      = some .MIP_MAP_LINEAR_NEAREST ∧
    parse_repeat_value (repeatEnumToString .XY) = some .XY :=
  ⟨token_fidelity.1 .RGB565 (by decide),
   token_fidelity.2.1 .MIP_MAP_LINEAR_NEAREST (by decide),
   token_fidelity.2.2 .XY (by decide)⟩

/-! ## Region lookup -/

theorem find_in_regions_eq_find (regions : List TextureAtlas_region) (regionName : List Char) :
    find_in_regions regions regionName
      = regions.find? (fun r => decide (r.name = regionName)) := by
  induction regions with
  | nil => rfl
  | cons r rs ih =>
    by_cases h : r.name = regionName
    · simp [find_in_regions, List.find?, h]
    · simp [find_in_regions, List.find?, h, ih]

theorem find_in_pages_eq_find (pages : List TextureAtlas_page) (regionName : List Char) :
    find_in_pages pages regionName
      = ((pages.map (fun page => page.regions)).flatten).find?
          (fun r => decide (r.name = regionName)) := by
  induction pages with
  | nil => rfl
  | cons p ps ih =>
    simp only [find_in_pages, List.map_cons, List.flatten_cons, List.find?_append]
    rw [find_in_regions_eq_find, ih]
    cases List.find? (fun r => decide (r.name = regionName)) p.regions <;> rfl

theorem find_some_first {α : Type} (p : α → Bool) (l : List α) (a : α)
    (h : l.find? p = some a) :
    ∃ before after, l = before ++ a :: after ∧ p a = true ∧ ∀ b ∈ before, p b = false := by
  induction l with
  | nil => simp at h
  | cons x xs ih =>
    by_cases hx : p x = true
    · rw [List.find?_cons_of_pos _ hx] at h
      cases h
      exact ⟨[], xs, rfl, hx, by simp⟩
    · rw [List.find?_cons_of_neg _ hx] at h
      obtain ⟨before, after, h1, h2, h3⟩ := ih h
      refine ⟨x :: before, after, by rw [h1]; rfl, h2, ?_⟩
      intro b hb
      rcases List.mem_cons.mp hb with rfl | hb
      · simpa using hx
      · exact h3 b hb

/-- C5: `TextureAtlas_findRegion` returns the first region with the given name in the
enumeration page by page and region by region (everything before it has another name), and it
returns NULL exactly when no region of any page has that name. -/
theorem findRegion_first_match (atlas : TextureAtlas_atlas) (regionName : List Char) :
    TextureAtlas_findRegion atlas regionName
        = (all_regions atlas).find? (fun r => decide (r.name = regionName)) ∧
    (∀ region, TextureAtlas_findRegion atlas regionName = some region →
        ∃ before after, all_regions atlas = before ++ region :: after ∧
          region.name = regionName ∧ ∀ r ∈ before, r.name ≠ regionName) ∧
    (TextureAtlas_findRegion atlas regionName = none ↔
        ∀ r ∈ all_regions atlas, r.name ≠ regionName) := by
  have heq : TextureAtlas_findRegion atlas regionName
      = (all_regions atlas).find? (fun r => decide (r.name = regionName)) :=
    find_in_pages_eq_find atlas.pages regionName
  refine ⟨heq, ?_, ?_⟩
  · intro region h
    rw [heq] at h
    obtain ⟨before, after, h1, h2, h3⟩ := find_some_first _ _ _ h
    refine ⟨before, after, h1, by simpa using h2, ?_⟩
    intro r hr
    simpa using h3 r hr
  · rw [heq, List.find?_eq_none]
    simp

/-- C5, instance: in the atlas read from the minimal descriptor `hero_01` is found and
`missing` is not. -/
theorem findRegion_minimal_example :
    TextureAtlas_read [] (some minimal_example) = .atlas (minimal_atlas []) ∧
    TextureAtlas_findRegion (minimal_atlas []) "hero_01".toList = some hero_01 ∧
    TextureAtlas_findRegion (minimal_atlas []) "missing".toList = none := by
  refine ⟨by decide, ?_, ?_⟩
  · rw [(findRegion_first_match (minimal_atlas []) "hero_01".toList).1]
    decide
  · exact (findRegion_first_match (minimal_atlas []) "missing".toList).2.2.mpr (by decide)

/-! ## The header line -/

/-- C7: an input that does not begin with a lone line terminator (the empty input included)
makes `TextureAtlas_read` return NULL, whatever follows. -/
theorem read_header (dir content : List Char) (h : ∀ rest, content ≠ '\n' :: rest) :
    TextureAtlas_read dir (some content) = .null := by
  cases content with
  | nil => rfl
  | cons c cs =>
    have hc : c ≠ '\n' := fun hc => h cs (by rw [hc])
    simp only [TextureAtlas_read, getlines, hc, if_false]
    cases getlines cs with
    | nil => simp [is_new_page, charAt, hc]
    | cons l ls => simp [is_new_page, charAt, hc]

/-- C7, instance: a descriptor that starts with the page name is rejected. -/
theorem read_header_witness :
    (∀ rest, "sheet.png\nsize: 256, 256\n".toList ≠ '\n' :: rest) ∧
    TextureAtlas_read [] (some "sheet.png\nsize: 256, 256\n".toList) = .null :=
  ⟨by intro rest h; injection h with h1 _; revert h1; decide,
   read_header [] _ (by intro rest h; injection h with h1 _; revert h1; decide)⟩

/-! ## The reader on block structured input -/

theorem read_lines_nil (dir : List Char) (s : Reader) : read_lines dir s [] = s := rfl

theorem read_lines_cons (dir : List Char) (s : Reader) (l : List Char) (ls : List (List Char)) :
    read_lines dir s (l :: ls) = read_lines dir (read_line dir s l) ls := rfl

theorem read_lines_append (dir : List Char) (s : Reader) (l1 l2 : List (List Char)) :
    read_lines dir s (l1 ++ l2) = read_lines dir (read_lines dir s l1) l2 := by
  simp [read_lines, List.foldl_append]

theorem read_lines_error (dir : List Char) (ls : List (List Char)) :
    read_lines dir .error ls = .error := by
  induction ls with
  | nil => rfl
  | cons l ls ih => rw [read_lines_cons]; exact ih

theorem read_lines_undefined (dir : List Char) (ls : List (List Char)) :
    read_lines dir .undefined ls = .undefined := by
  induction ls with
  | nil => rfl
  | cons l ls ih => rw [read_lines_cons]; exact ih

theorem is_attribute_line_iff (d : Int) (l : List Char) :
    is_attribute_line d l = true ↔ parse_attribute l.length l d ≠ .notAttribute := by
  simp [is_attribute_line]

theorem is_attribute_line_false_iff (d : Int) (l : List Char) :
    is_attribute_line d l = false ↔ parse_attribute l.length l d = .notAttribute := by
  simp [is_attribute_line]

theorem read_lines_page_attributes (dir : List Char) (pages : List TextureAtlas_page) :
    ∀ (attrs : List (List Char)) (page : TextureAtlas_page),
      attrs.all (is_attribute_line 0) = true →
      read_lines dir (.page_attributes pages page) attrs
        = page_loop_state pages (page_attribute_lines page attrs) := by
  intro attrs
  induction attrs with
  | nil => intro page _; rfl
  | cons l ls ih =>
    intro page h
    rw [List.all_cons, Bool.and_eq_true] at h
    have hl := (is_attribute_line_iff 0 l).mp h.1
    rw [read_lines_cons]
    cases hp : parse_attribute l.length l 0 with
    | notAttribute => exact absurd hp hl
    | undefined =>
      simp only [read_line, page_attribute_lines, hp, page_loop_state]
      exact read_lines_undefined dir ls
    | pair key value =>
      cases hq : page_attribute page key value with
      | ok page2 =>
        simp only [read_line, page_attribute_lines, hp, hq]
        exact ih page2 h.2
      | error =>
        simp only [read_line, page_attribute_lines, hp, hq, page_loop_state]
        exact read_lines_error dir ls
      | undefined =>
        simp only [read_line, page_attribute_lines, hp, hq, page_loop_state]
        exact read_lines_undefined dir ls

theorem read_lines_region_attributes (dir : List Char) (pages : List TextureAtlas_page)
    (page : TextureAtlas_page) :
    ∀ (attrs : List (List Char)) (region : TextureAtlas_region),
      attrs.all (is_attribute_line 2) = true →
      read_lines dir (.region_attributes pages page region) attrs
        = region_loop_state pages page (region_attribute_lines region attrs) := by
  intro attrs
  induction attrs with
  | nil => intro region _; rfl
  | cons l ls ih =>
    intro region h
    rw [List.all_cons, Bool.and_eq_true] at h
    have hl := (is_attribute_line_iff 2 l).mp h.1
    rw [read_lines_cons]
    cases hp : parse_attribute l.length l 2 with
    | notAttribute => exact absurd hp hl
    | undefined =>
      simp only [read_line, region_attribute_lines, hp, region_loop_state]
      exact read_lines_undefined dir ls
    | pair key value =>
      cases hq : region_attribute region key value with
      | ok region2 =>
        simp only [read_line, region_attribute_lines, hp, hq]
        exact ih region2 h.2
      | error =>
        simp only [read_line, region_attribute_lines, hp, hq, region_loop_state]
        exact read_lines_error dir ls
      | undefined =>
        simp only [read_line, region_attribute_lines, hp, hq, region_loop_state]
        exact read_lines_undefined dir ls

theorem read_lines_region_blocks (dir : List Char) (pages : List TextureAtlas_page) :
    ∀ (bs : List RegionBlock) (page : TextureAtlas_page) (region : TextureAtlas_region),
      bs.all RegionBlock.shaped = true →
      read_lines dir (.region_attributes pages page region) (region_blocks_lines bs)
        = region_chain_loop_state pages page region (regions_of_blocks bs) := by
  intro bs
  induction bs with
  | nil => intro page region _; rfl
  | cons b bs ih =>
    intro page region h
    rw [List.all_cons, Bool.and_eq_true] at h
    obtain ⟨hb, hbs⟩ := h
    simp only [RegionBlock.shaped, Bool.and_eq_true, Bool.not_eq_true'] at hb
    obtain ⟨⟨hb1, hb2⟩, hb3⟩ := hb
    have hb1' := (is_attribute_line_false_iff 2 _).mp hb1
    have hlines : region_blocks_lines (b :: bs)
        = b.nameLine :: (b.attributes ++ region_blocks_lines bs) := by
      simp [region_blocks_lines, RegionBlock.lines]
    rw [hlines, read_lines_cons, read_lines_append]
    have hstep : read_line dir (.region_attributes pages page region) b.nameLine
        = start_region pages (close_region page region) b.nameLine.length b.nameLine := by
      simp only [read_line, hb1', hb2]
      simp
    rw [hstep]
    cases hn : read_name b.nameLine.length b.nameLine with
    | none =>
      simp only [start_region, hn, regions_of_blocks, region_of_block,
        region_chain_loop_state]
      rw [read_lines_error, read_lines_error]
    | some regionName =>
      simp only [start_region, hn]
      rw [read_lines_region_attributes dir pages _ _ _ hb3]
      cases hr : region_attribute_lines (new_region regionName) b.attributes with
      | ok region2 =>
        simp only [region_loop_state]
        rw [ih _ _ hbs]
        simp only [regions_of_blocks, region_of_block, hn, hr]
        cases regions_of_blocks bs <;> rfl
      | error =>
        simp only [region_loop_state, regions_of_blocks, region_of_block, hn, hr,
          region_chain_loop_state]
        exact read_lines_error dir _
      | undefined =>
        simp only [region_loop_state, regions_of_blocks, region_of_block, hn, hr,
          region_chain_loop_state]
        exact read_lines_undefined dir _


theorem parse_attribute_blank (d : Int) (hd : 0 ≤ d) :
    parse_attribute 1 blank_line d = .notAttribute := by
  unfold parse_attribute
  by_cases h1 : (1 : Int) < d
  · simp [h1]
  · have hd' : d = 0 ∨ d = 1 := by omega
    rcases hd' with rfl | rfl
    · simp [blank_line, charAt]
    · simp [blank_line, charAt, List.range, List.range.loop]

theorem read_name_blank : read_name 1 blank_line = none := by
  simp [read_name, blank_line, charAt]

theorem is_new_page_blank : is_new_page 1 blank_line = true := by
  simp [is_new_page, blank_line, charAt]

theorem read_line_region_chain_blank (dir : List Char) (pages : List TextureAtlas_page) :
    ∀ (rs : List TextureAtlas_region) (page : TextureAtlas_page) (r : TextureAtlas_region),
      read_line dir (region_chain_state pages page r rs) blank_line
        = .page_name (pages ++ [{ page with regions := page.regions ++ r :: rs }]) := by
  intro rs
  induction rs with
  | nil =>
    intro page r
    have h := parse_attribute_blank 2 (by norm_num)
    have hlen : ((blank_line.length : Nat) : Int) = 1 := rfl
    simp only [region_chain_state, read_line, hlen, h, is_new_page_blank, if_true, close_region]
  | cons r2 rs ih =>
    intro page r
    simp only [region_chain_state]
    rw [ih]
    simp [close_region]

theorem read_eof_region_chain (pages : List TextureAtlas_page) :
    ∀ (rs : List TextureAtlas_region) (page : TextureAtlas_page) (r : TextureAtlas_region),
      read_eof (region_chain_state pages page r rs)
        = .atlas { pages := pages ++ [{ page with regions := page.regions ++ r :: rs }],
                   numberOfPages := (pages.length : Int) + 1 } := by
  intro rs
  induction rs with
  | nil => intro page r; rfl
  | cons r2 rs ih =>
    intro page r
    simp only [region_chain_state]
    rw [ih]
    simp [close_region]

theorem read_lines_page_block (dir : List Char) (pages : List TextureAtlas_page) (b : PageBlock)
    (hb : b.shaped = true) :
    read_lines dir (.page_name pages) b.lines = page_block_state dir pages b := by
  simp only [PageBlock.shaped, Bool.and_eq_true] at hb
  obtain ⟨hattrs, hregions⟩ := hb
  simp only [PageBlock.lines, read_lines_cons, read_lines_append, page_block_state]
  cases hn : read_name b.nameLine.length b.nameLine with
  | none =>
    simp only [read_line, hn]
    rw [read_lines_error, read_lines_error]
  | some pageName =>
    simp only [read_line, hn]
    rw [read_lines_page_attributes dir pages _ _ hattrs]
    cases hp : page_attribute_lines (new_page dir pages.length pageName) b.attributes with
    | error => simp only [page_loop_state]; exact read_lines_error dir _
    | undefined => simp only [page_loop_state]; exact read_lines_undefined dir _
    | ok page =>
      simp only [page_loop_state]
      cases hr : b.regions with
      | nil => rfl
      | cons r rs =>
        rw [hr] at hregions
        simp only [Bool.and_eq_true, Bool.not_eq_true'] at hregions
        obtain ⟨⟨h1, h2⟩, h3⟩ := hregions
        have h1' := (is_attribute_line_false_iff 0 _).mp h1
        have hlines : region_blocks_lines (r :: rs)
            = r.nameLine :: (r.attributes ++ region_blocks_lines rs) := by
          simp [region_blocks_lines, RegionBlock.lines]
        rw [hlines, read_lines_cons, read_lines_append]
        by_cases hc : page_complete page = true
        · simp only [read_line, h1', hc, if_true, start_region, region_of_block]
          cases hrn : read_name r.nameLine.length r.nameLine with
          | none =>
            simp only []
            rw [read_lines_error, read_lines_error]
          | some regionName =>
            simp only []
            rw [read_lines_region_attributes dir pages _ _ _ h2]
            cases hra : region_attribute_lines (new_region regionName) r.attributes with
            | ok region =>
              simp only [region_loop_state]
              exact read_lines_region_blocks dir pages rs page region h3
            | error => simp only [region_loop_state]; exact read_lines_error dir _
            | undefined => simp only [region_loop_state]; exact read_lines_undefined dir _
        · simp only [read_line, h1', hc]
          simp only [Bool.false_eq_true, if_false]
          rw [read_lines_error, read_lines_error]

theorem page_attribute_regions (page page2 : TextureAtlas_page) (key : List Char)
    (value : Option (List Char)) (h : page_attribute page key value = .ok page2) :
    page2.regions = page.regions ∧ page2.name = page.name ∧ page2.index = page.index
      ∧ page2.absolutePath = page.absolutePath := by
  unfold page_attribute at h
  repeat' split at h
  all_goals first
    | (injection h with h; subst h; exact ⟨rfl, rfl, rfl, rfl⟩)
    | (injection h)


theorem page_attribute_lines_regions :
    ∀ (attrs : List (List Char)) (page page2 : TextureAtlas_page),
      page_attribute_lines page attrs = .ok page2 →
      page2.regions = page.regions ∧ page2.name = page.name ∧ page2.index = page.index
        ∧ page2.absolutePath = page.absolutePath := by
  intro attrs
  induction attrs with
  | nil =>
    intro page page2 h
    simp only [page_attribute_lines] at h
    cases h
    exact ⟨rfl, rfl, rfl, rfl⟩
  | cons l ls ih =>
    intro page page2 h
    simp only [page_attribute_lines] at h
    cases hp : parse_attribute l.length l 0 with
    | notAttribute =>
      simp only [hp] at h
      cases h
      exact ⟨rfl, rfl, rfl, rfl⟩
    | undefined => simp only [hp] at h; cases h
    | pair key value =>
      simp only [hp] at h
      cases hq : page_attribute page key value with
      | error => simp only [hq] at h; cases h
      | undefined => simp only [hq] at h; cases h
      | ok page3 =>
        simp only [hq] at h
        have h1 := page_attribute_regions _ _ _ _ hq
        have h2 := ih _ _ h
        exact ⟨h2.1.trans h1.1, h2.2.1.trans h1.2.1, h2.2.2.1.trans h1.2.2.1,
          h2.2.2.2.trans h1.2.2.2⟩

theorem read_line_page_block_blank (dir : List Char) (pages : List TextureAtlas_page)
    (b : PageBlock) :
    read_line dir (page_block_state dir pages b) blank_line
      = next_page_state pages (page_of_block dir pages.length b) := by
  have hlen : ((blank_line.length : Nat) : Int) = 1 := rfl
  cases hn : read_name b.nameLine.length b.nameLine with
  | none => simp only [page_block_state, page_of_block, hn]; rfl
  | some pageName =>
    cases hp : page_attribute_lines (new_page dir pages.length pageName) b.attributes with
    | error => simp only [page_block_state, page_of_block, hn, hp]; rfl
    | undefined => simp only [page_block_state, page_of_block, hn, hp]; rfl
    | ok page =>
      cases hr : b.regions with
      | nil =>
        simp only [page_block_state, page_of_block, hn, hp, hr, read_line, hlen,
          parse_attribute_blank 0 (le_refl 0), start_region, read_name_blank]
        by_cases hc : page_complete page = true <;> simp [hc, next_page_state]
      | cons r rs =>
        by_cases hc : page_complete page = true
        · cases hro : region_of_block r with
          | error =>
            simp only [page_block_state, page_of_block, hn, hp, hr, hc, if_true,
              regions_of_blocks, hro]
            rfl
          | undefined =>
            simp only [page_block_state, page_of_block, hn, hp, hr, hc, if_true,
              regions_of_blocks, hro]
            rfl
          | ok region =>
            cases hrs : regions_of_blocks rs with
            | error =>
              simp only [page_block_state, page_of_block, hn, hp, hr, hc, if_true,
                regions_of_blocks, hro, hrs]
              rfl
            | undefined =>
              simp only [page_block_state, page_of_block, hn, hp, hr, hc, if_true,
                regions_of_blocks, hro, hrs]
              rfl
            | ok regions =>
              simp only [page_block_state, page_of_block, hn, hp, hr, hc, if_true,
                regions_of_blocks, hro, hrs, region_chain_loop_state, next_page_state]
              exact read_line_region_chain_blank dir pages regions page region
        · simp only [page_block_state, page_of_block, hn, hp, hr, hc]
          rfl

theorem read_eof_page_block (dir : List Char) (pages : List TextureAtlas_page)
    (b : PageBlock) :
    read_eof (page_block_state dir pages b)
      = last_page_result pages (page_of_block dir pages.length b) := by
  cases hn : read_name b.nameLine.length b.nameLine with
  | none => simp only [page_block_state, page_of_block, hn]; rfl
  | some pageName =>
    cases hp : page_attribute_lines (new_page dir pages.length pageName) b.attributes with
    | error => simp only [page_block_state, page_of_block, hn, hp]; rfl
    | undefined => simp only [page_block_state, page_of_block, hn, hp]; rfl
    | ok page =>
      cases hr : b.regions with
      | nil =>
        simp only [page_block_state, page_of_block, hn, hp, hr]
        by_cases hc : page_complete page = true <;>
          simp [hc, last_page_result, read_eof, start_region, read_name]
      | cons r rs =>
        by_cases hc : page_complete page = true
        · cases hro : region_of_block r with
          | error =>
            simp only [page_block_state, page_of_block, hn, hp, hr, hc, if_true,
              regions_of_blocks, hro]
            rfl
          | undefined =>
            simp only [page_block_state, page_of_block, hn, hp, hr, hc, if_true,
              regions_of_blocks, hro]
            rfl
          | ok region =>
            cases hrs : regions_of_blocks rs with
            | error =>
              simp only [page_block_state, page_of_block, hn, hp, hr, hc, if_true,
                regions_of_blocks, hro, hrs]
              rfl
            | undefined =>
              simp only [page_block_state, page_of_block, hn, hp, hr, hc, if_true,
                regions_of_blocks, hro, hrs]
              rfl
            | ok regions =>
              simp only [page_block_state, page_of_block, hn, hp, hr, hc, if_true,
                regions_of_blocks, hro, hrs, region_chain_loop_state, last_page_result]
              exact read_eof_region_chain pages regions page region
        · simp only [page_block_state, page_of_block, hn, hp, hr, hc]
          rfl

theorem read_body_lines (dir : List Char) :
    ∀ (blocks : List PageBlock) (pages : List TextureAtlas_page),
      blocks.all PageBlock.shaped = true → blocks ≠ [] →
      read_eof (read_lines dir (.page_name pages) (body_lines blocks))
        = pages_result (pages_of_blocks dir pages blocks) := by
  intro blocks
  induction blocks with
  | nil => intro pages _ h; exact absurd rfl h
  | cons b bs ih =>
    intro pages hs _
    rw [List.all_cons, Bool.and_eq_true] at hs
    cases bs with
    | nil =>
      simp only [body_lines, pages_of_blocks]
      rw [read_lines_page_block dir pages b hs.1, read_eof_page_block]
      cases page_of_block dir pages.length b with
      | error => rfl
      | undefined => rfl
      | ok page => simp [last_page_result, pages_result, pages_of_blocks]
    | cons b2 bs =>
      simp only [body_lines, pages_of_blocks]
      rw [read_lines_append, read_lines_cons, read_lines_page_block dir pages b hs.1,
        read_line_page_block_blank]
      cases page_of_block dir pages.length b with
      | error => simp only [next_page_state, read_lines_error]; rfl
      | undefined => simp only [next_page_state, read_lines_undefined]; rfl
      | ok page =>
        simp only [next_page_state]
        exact ih (pages ++ [page]) hs.2 (by simp)

/-- The reader on a descriptor with block structure computes the outcome that the blocks
describe. -/
theorem read_descriptor (dir content : List Char) (blocks : List PageBlock)
    (hlines : getlines content = descriptor_lines blocks)
    (hshape : blocks.all PageBlock.shaped = true) :
    TextureAtlas_read dir (some content) = atlas_of_blocks dir blocks := by
  have hlen : ((blank_line.length : Nat) : Int) = 1 := rfl
  simp only [TextureAtlas_read, hlines, descriptor_lines, hlen, is_new_page_blank]
  cases blocks with
  | nil => rfl
  | cons b bs =>
    simp only [read_pages, atlas_of_blocks]
    exact read_body_lines dir (b :: bs) [] hshape (by simp)


/-! ## Printing and scanning integers -/

theorem digitChar_facts : ∀ k, k < 10 →
    isdigit (Nat.digitChar k) = true ∧ (Nat.digitChar k).toNat - 48 = k := by
  decide

theorem decimalValue_append (l : List Char) (c : Char) :
    decimalValue (l ++ [c]) = 10 * decimalValue l + (c.toNat - 48) := by
  simp [decimalValue, List.foldl_append]

theorem toDigitsCore_spec : ∀ (fuel n : Nat) (ds : List Char), n < fuel →
    ∃ L, Nat.toDigitsCore 10 fuel n ds = L ++ ds ∧ L ≠ [] ∧ (∀ c ∈ L, isdigit c = true)
      ∧ decimalValue L = n ∧ (∀ e, n < 10 ^ (e + 1) → L.length ≤ e + 1) := by
  intro fuel
  induction fuel with
  | zero => intro n ds h; omega
  | succ fuel ih =>
    intro n ds h
    have hd := digitChar_facts (n % 10) (Nat.mod_lt _ (by norm_num))
    by_cases h0 : n / 10 = 0
    · refine ⟨[Nat.digitChar (n % 10)], ?_, by simp, ?_, ?_, ?_⟩
      · simp [Nat.toDigitsCore, h0]
      · intro c hc
        rw [List.mem_singleton] at hc
        rw [hc]; exact hd.1
      · have : n % 10 = n := by omega
        simp only [decimalValue, List.foldl_cons, List.foldl_nil, hd.2]
        omega
      · intro e _; simp
    · have hlt : n / 10 < fuel := by omega
      obtain ⟨L, h1, h2, h3, h4, h5⟩ := ih (n / 10) (Nat.digitChar (n % 10) :: ds) hlt
      refine ⟨L ++ [Nat.digitChar (n % 10)], ?_, by simp, ?_, ?_, ?_⟩
      · simp only [Nat.toDigitsCore, h0, if_false, h1]
        simp
      · intro c hc
        rcases List.mem_append.mp hc with hc | hc
        · exact h3 c hc
        · rw [List.mem_singleton] at hc
          rw [hc]; exact hd.1
      · rw [decimalValue_append, h4, hd.2]; omega
      · intro e hn
        cases e with
        | zero => omega
        | succ e =>
          have hn' : n / 10 < 10 ^ (e + 1) := by
            rw [Nat.div_lt_iff_lt_mul (by norm_num)]
            calc n < 10 ^ (e + 1 + 1) := hn
              _ = 10 ^ (e + 1) * 10 := by ring
          have := h5 e hn'
          simp only [List.length_append, List.length_singleton]
          omega

theorem toDigits_spec (n : Nat) :
    Nat.toDigits 10 n ≠ [] ∧ (∀ c ∈ Nat.toDigits 10 n, isdigit c = true)
      ∧ decimalValue (Nat.toDigits 10 n) = n
      ∧ (n < 10000000000 → (Nat.toDigits 10 n).length ≤ 10) := by
  obtain ⟨L, h1, h2, h3, h4, h5⟩ := toDigitsCore_spec (n + 1) n [] (Nat.lt_succ_self n)
  have hL : Nat.toDigits 10 n = L := by
    rw [Nat.toDigits, h1, List.append_nil]
  rw [hL]
  exact ⟨h2, h3, h4, fun hn => h5 9 (by norm_num; exact hn)⟩


theorem isdigit_not_space (c : Char) (h : isdigit c = true) :
    isspace c = false ∧ c ≠ '-' ∧ c ≠ '+' ∧ c ≠ ',' ∧ c ≠ '\n' ∧ c ≠ NUL := by
  refine ⟨?_, ?_, ?_, ?_, ?_, ?_⟩
  · simp only [isspace, Bool.or_eq_false_iff, decide_eq_false_iff_not]
    refine ⟨⟨⟨⟨⟨?_, ?_⟩, ?_⟩, ?_⟩, ?_⟩, ?_⟩ <;> (intro hc; subst hc; revert h; decide)
  all_goals (intro hc; subst hc; revert h; decide)

theorem takeWhile_append_stop {α : Type} (p : α → Bool) (D rest : List α)
    (hD : ∀ c ∈ D, p c = true) (hrest : ∀ c, rest.head? = some c → p c = false) :
    (D ++ rest).takeWhile p = D ∧ (D ++ rest).dropWhile p = rest := by
  induction D with
  | nil =>
    cases rest with
    | nil => simp
    | cons r rs =>
      have := hrest r rfl
      simp [List.takeWhile, List.dropWhile, this]
  | cons d ds ih =>
    have hd := hD d (List.mem_cons_self _ _)
    have := ih (fun c hc => hD c (List.mem_cons_of_mem _ hc))
    simp [List.takeWhile, List.dropWhile, hd, this]

theorem scan_u_digits (D rest : List Char) (hne : D ≠ [])
    (hD : ∀ c ∈ D, isdigit c = true) (hrest : ∀ c, rest.head? = some c → isdigit c = false)
    (hval : decimalValue D ≤ 4294967295) :
    scan_u (D ++ rest) = .matched (decimalValue D) rest := by
  obtain ⟨d, ds, rfl⟩ := List.exists_cons_of_ne_nil hne
  have hd := isdigit_not_space d (hD d (List.mem_cons_self _ _))
  have htw := takeWhile_append_stop isdigit (d :: ds) rest hD hrest
  have h1 : (d :: ds ++ rest).dropWhile isspace = d :: ds ++ rest := by
    simp [List.dropWhile, hd.1]
  unfold scan_u
  simp only [h1]
  have h2 : (d :: ds ++ rest).head? = some d := rfl
  simp only [h2, Option.some.injEq, hd.2.1, hd.2.2.1, or_self, if_false, decide_False, htw]
  simp [Nat.not_lt.mpr hval]

theorem scan_u_minus_digits (D rest : List Char) (hne : D ≠ [])
    (hD : ∀ c ∈ D, isdigit c = true) (hrest : ∀ c, rest.head? = some c → isdigit c = false)
    (hval : decimalValue D ≤ 4294967295) :
    scan_u ('-' :: (D ++ rest))
      = .matched ((4294967296 - decimalValue D) % 4294967296) rest := by
  have htw := takeWhile_append_stop isdigit D rest hD hrest
  have h1 : ('-' :: (D ++ rest)).dropWhile isspace = '-' :: (D ++ rest) := by
    have : isspace '-' = false := by decide
    simp [List.dropWhile, this]
  unfold scan_u
  simp only [h1]
  have h2 : ('-' :: (D ++ rest)).head? = some '-' := rfl
  simp only [h2, true_or, if_true, decide_True, List.drop_succ_cons, List.drop_zero, htw]
  simp [Nat.not_lt.mpr hval, hne]

theorem toUInt32_toInt32 (u : Nat) (h : u < 4294967296) : toUInt32 (toInt32 u) = u := by
  unfold toUInt32 toInt32
  rw [Nat.mod_eq_of_lt h]
  split_ifs <;> omega

theorem toInt32_toUInt32 (v : Int) (h : -2147483648 ≤ v ∧ v < 2147483648) :
    toInt32 (toUInt32 v) = v := by
  unfold toUInt32 toInt32
  have h1 : 0 ≤ v % 4294967296 := Int.emod_nonneg _ (by norm_num)
  have h2 : v % 4294967296 < 4294967296 := Int.emod_lt_of_pos _ (by norm_num)
  have h3 : ((v % 4294967296).toNat : Int) = v % 4294967296 := Int.toNat_of_nonneg h1
  have h4 : (v % 4294967296).toNat % 4294967296 = (v % 4294967296).toNat := by
    apply Nat.mod_eq_of_lt; omega
  rw [h4]
  split_ifs <;> omega

theorem toInt32_range (u : Nat) : -2147483648 ≤ toInt32 u ∧ toInt32 u < 2147483648 := by
  unfold toInt32
  have := Nat.mod_lt u (show 0 < 4294967296 by norm_num)
  split_ifs <;> omega

theorem toUInt32_lt (v : Int) : toUInt32 v < 4294967296 := by
  unfold toUInt32
  have h1 : 0 ≤ v % 4294967296 := Int.emod_nonneg _ (by norm_num)
  have h2 : v % 4294967296 < 4294967296 := Int.emod_lt_of_pos _ (by norm_num)
  omega

theorem scan_u_fmt_i (v : Int) (rest : List Char)
    (hv : -2147483648 ≤ v ∧ v < 2147483648)
    (hrest : ∀ c, rest.head? = some c → isdigit c = false) :
    scan_u (fmt_i v ++ rest) = .matched (toUInt32 v) rest := by
  obtain ⟨h1, h2, h3, _⟩ := toDigits_spec v.natAbs
  have hval : decimalValue (Nat.toDigits 10 v.natAbs) ≤ 4294967295 := by rw [h3]; omega
  unfold fmt_i
  by_cases hneg : v < 0
  · simp only [hneg, if_true, List.cons_append]
    rw [scan_u_minus_digits _ _ h1 h2 hrest hval, h3]
    congr 1
    unfold toUInt32
    omega
  · simp only [hneg, if_false]
    rw [scan_u_digits _ _ h1 h2 hrest hval, h3]
    congr 1
    unfold toUInt32
    omega


/-! ## `parse_attribute` on a canonical attribute line -/

theorem strchr_append_found (c : Char) (hc : c ≠ NUL) (key rest : List Char)
    (hkey : ∀ x ∈ key, x ≠ c ∧ x ≠ NUL) :
    strchr (key ++ c :: rest) c = some key.length := by
  induction key with
  | nil => simp [strchr, hc]
  | cons k ks ih =>
    have hk := hkey k (List.mem_cons_self _ _)
    have := ih (fun x hx => hkey x (List.mem_cons_of_mem _ hx))
    simp [strchr, hk.1, hk.2, this]

theorem cstr_of_no_nul (l : List Char) (h : ∀ x ∈ l, x ≠ NUL) : cstr l = l := by
  unfold cstr
  rw [List.takeWhile_eq_self_iff]
  intro x hx
  simpa using h x hx

theorem cstr_append (l rest : List Char) (h : ∀ x ∈ l, x ≠ NUL) :
    cstr (l ++ rest) = l ++ cstr rest := by
  induction l with
  | nil => rfl
  | cons x xs ih =>
    have hx := h x (List.mem_cons_self _ _)
    have ih2 := ih (fun y hy => h y (List.mem_cons_of_mem _ hy))
    unfold cstr at ih2 ⊢
    rw [List.cons_append, List.takeWhile_cons_of_pos (by simpa using hx), ih2,
      List.cons_append]

theorem wrapInt_small (i : Int) (h : 0 ≤ i ∧ i < 2147483648) : wrapInt i = i :=
  toInt32_toUInt32 i ⟨by omega, h.2⟩

theorem toSize_small (i : Int) (h : 0 ≤ i ∧ i < 2147483648) : toSize i = i.toNat := by
  unfold toSize
  rw [Int.emod_eq_of_lt h.1 (by omega)]

theorem parse_attribute_zero (n : Int) (L : List Char) :
    parse_attribute n L 0 = if n < 0 then .notAttribute else parse_unindented n L := by
  unfold parse_attribute parse_unindented split_at_colon
  simp only [gt_iff_lt, lt_self_iff_false, false_and, if_false]
  rfl

theorem parse_attribute_pos (n : Int) (L : List Char) (d : Int) (hd : 0 < d) :
    parse_attribute n L d =
      if n < d then .notAttribute
      else if (List.range d.toNat).any (fun i => charAt L i ≠ ' ') then .notAttribute
      else parse_unindented (n - d) (L.drop d.toNat) := by
  unfold parse_attribute parse_unindented split_at_colon
  simp only [gt_iff_lt, hd, true_and, if_true]
  rfl

theorem split_at_colon_line (key value nl : List Char) (sp : Char)
    (hkey : ∀ c ∈ key, c ≠ ':' ∧ c ≠ NUL) (hvalue : ∀ c ∈ value, c ≠ NUL)
    (hklen : key.length < 1024) (hvlen : value.length < 1024) :
    split_at_colon ((key.length : Int) + 2 + (value.length : Int))
      (key ++ ':' :: sp :: value ++ nl) = .pair key (some value) := by
  have hcolon : (':' : Char) ≠ NUL := by decide
  have hstr := strchr_append_found ':' hcolon key (sp :: (value ++ nl)) hkey
  have hknul : ∀ x ∈ key, x ≠ NUL := fun x hx => (hkey x hx).2
  have h1 : wrapInt ((key.length : Int) + 1) = (key.length : Int) + 1 :=
    wrapInt_small _ (by omega)
  have h2 : wrapInt ((key.length : Int) + 2 + (value.length : Int) - 2
      - ((key.length : Int) + 1) + 2) = (value.length : Int) + 1 := by
    rw [wrapInt_small _ (by omega)]; ring
  have h3 : toSize ((key.length : Int) + 1) = key.length + 1 := by
    rw [toSize_small _ (by omega)]; omega
  have h4 : toSize ((value.length : Int) + 1) = value.length + 1 := by
    rw [toSize_small _ (by omega)]; omega
  have hbuf : key ++ ':' :: sp :: value ++ nl = key ++ (':' :: sp :: (value ++ nl)) := by
    simp
  have h5 : (cstr (key ++ (':' :: sp :: (value ++ nl)))).take key.length = key := by
    rw [cstr_append _ _ hknul, List.take_left']
    rfl
  have h6 : (cstr ((key ++ (':' :: sp :: (value ++ nl))).drop (key.length + 2))).take
      value.length = value := by
    have : (key ++ (':' :: sp :: (value ++ nl))).drop (key.length + 2) = value ++ nl := by
      rw [← List.drop_drop, List.drop_left']
      · rfl
      · rfl
    rw [this, cstr_append _ _ hvalue, List.take_left']
    rfl
  unfold split_at_colon
  rw [hbuf]
  simp only [hstr, h1, h2, h3, h4, snprintf_s, Nat.add_sub_cancel, Nat.succ_ne_zero, if_false,
    h5, h6, BUFFER_SIZE]
  simp only [gt_iff_lt, Nat.not_lt.mpr (show key.length + 1 ≤ 1024 by omega),
    Nat.not_lt.mpr (show value.length + 1 ≤ 1024 by omega), if_false]

theorem charAt_append_right (a b : List Char) (i : Nat) :
    charAt (a ++ b) (a.length + i) = charAt b i := by
  unfold charAt
  rw [List.getD_append_right _ _ _ _ (Nat.le_add_right _ _), Nat.add_sub_cancel_left]

theorem charAt_append_left (a b : List Char) (i : Nat) (h : i < a.length) :
    charAt (a ++ b) i = charAt a i := by
  unfold charAt
  rw [List.getD_append _ _ _ _ h]

theorem charAt_last_mem (l : List Char) (h : l ≠ []) : charAt l (l.length - 1) ∈ l := by
  unfold charAt
  have hlt : l.length - 1 < l.length := by
    have := List.length_pos.mpr h
    omega
  rw [List.getD_eq_getElem _ _ hlt]
  exact List.getElem_mem _

theorem charAt_zero_cons (c : Char) (l : List Char) : charAt (c :: l) 0 = c := rfl

theorem parse_unindented_line (key value nl : List Char)
    (hne : key ≠ []) (hhead : ∀ c, key.head? = some c → isspace c = false)
    (hkey : ∀ c ∈ key, c ≠ ':' ∧ c ≠ NUL) (hvalue : ∀ c ∈ value, c ≠ NUL ∧ c ≠ '\n')
    (hnl : nl = [] ∨ nl = ['\n'])
    (hklen : key.length < 1024) (hvlen : value.length < 1024) :
    parse_unindented ((key ++ ':' :: ' ' :: value ++ nl).length : Nat)
      (key ++ ':' :: ' ' :: value ++ nl) = .pair key (some value) := by
  have hsplit := split_at_colon_line key value nl ' ' hkey (fun c hc => (hvalue c hc).1)
    hklen hvlen
  obtain ⟨k, ks, hk⟩ := List.exists_cons_of_ne_nil hne
  have hk0 : charAt (key ++ ':' :: ' ' :: value ++ nl) 0 = k := by
    rw [hk]; rfl
  have hsp : isspace (charAt (key ++ ':' :: ' ' :: value ++ nl) 0) = false := by
    rw [hk0]; exact hhead k (by rw [hk]; rfl)
  unfold parse_unindented
  rw [hsp]
  rcases hnl with rfl | rfl
  · have hlen : (((key ++ ':' :: ' ' :: value ++ []).length : Nat) : Int)
        = (key.length : Int) + 2 + (value.length : Int) := by
      simp only [List.length_append, List.length_cons, List.length_nil]; push_cast; ring
    rw [hlen]
    have hlast : charAt (key ++ ':' :: ' ' :: value ++ [])
        ((key.length : Int) + 2 + (value.length : Int) - 1).toNat ≠ '\n' := by
      have h1 : ((key.length : Int) + 2 + (value.length : Int) - 1).toNat
          = key.length + (1 + value.length) := by omega
      have h2 : key ++ ':' :: ' ' :: value ++ [] = key ++ (':' :: (' ' :: value)) := by simp
      rw [h1, h2, charAt_append_right]
      have h3 : charAt (':' :: (' ' :: value)) (1 + value.length)
          = charAt (' ' :: value) ((' ' :: value).length - 1) := by
        simp [charAt, Nat.add_comm]
      rw [h3]
      have hm := charAt_last_mem (' ' :: value) (by simp)
      rcases List.mem_cons.mp hm with h | h
      · rw [h]; decide
      · exact (hvalue _ h).2
    have hpos : ¬ ((key.length : Int) + 2 + (value.length : Int) ≤ 0) := by omega
    have hnz : ¬ ((key.length : Int) + 2 + (value.length : Int) = 0) := by omega
    simp only [hlast, hpos, hnz, if_false, Bool.false_eq_true]
    exact hsplit
  · have hlen : (((key ++ ':' :: ' ' :: value ++ ['\n']).length : Nat) : Int)
        = (key.length : Int) + 2 + (value.length : Int) + 1 := by
      simp only [List.length_append, List.length_cons, List.length_nil]; push_cast; ring
    rw [hlen]
    have hlast : charAt (key ++ ':' :: ' ' :: value ++ ['\n'])
        ((key.length : Int) + 2 + (value.length : Int) + 1 - 1).toNat = '\n' := by
      have h1 : ((key.length : Int) + 2 + (value.length : Int) + 1 - 1).toNat
            = (key ++ ':' :: ' ' :: value).length + 0 := by
        simp only [List.length_append, List.length_cons]; omega
      rw [h1, charAt_append_right]
      rfl
    have hpos : ¬ ((key.length : Int) + 2 + (value.length : Int) + 1 ≤ 0) := by omega
    have hnz : ¬ ((key.length : Int) + 2 + (value.length : Int) + 1 - 1 = 0) := by omega
    have hsub : (key.length : Int) + 2 + (value.length : Int) + 1 - 1
        = (key.length : Int) + 2 + value.length := by omega
    simp only [hlast, hpos, hnz, if_false, if_true, Bool.false_eq_true]
    rw [hsub]
    exact hsplit

theorem charAt_replicate (d i : Nat) (rest : List Char) (h : i < d) :
    charAt (List.replicate d ' ' ++ rest) i = ' ' := by
  rw [charAt_append_left _ _ _ (by simpa using h)]
  unfold charAt
  rw [List.getD_eq_getElem _ _ (by simpa using h)]
  simp

/-- An attribute line in canonical form: `d` blanks, the key, a colon, a blank, the value and
an optional line terminator. -/
theorem parse_attribute_line (d : Nat) (key value nl : List Char)
    (hne : key ≠ []) (hhead : ∀ c, key.head? = some c → isspace c = false)
    (hkey : ∀ c ∈ key, c ≠ ':' ∧ c ≠ NUL) (hvalue : ∀ c ∈ value, c ≠ NUL ∧ c ≠ '\n')
    (hnl : nl = [] ∨ nl = ['\n'])
    (hklen : key.length < 1024) (hvlen : value.length < 1024) :
    parse_attribute ((List.replicate d ' ' ++ (key ++ ':' :: ' ' :: value ++ nl)).length : Nat)
      (List.replicate d ' ' ++ (key ++ ':' :: ' ' :: value ++ nl)) d
        = .pair key (some value) := by
  have hbody := parse_unindented_line key value nl hne hhead hkey hvalue hnl hklen hvlen
  rcases Nat.eq_zero_or_pos d with rfl | hd
  · rw [Nat.cast_zero, parse_attribute_zero]
    simp only [List.replicate_zero, List.nil_append]
    rw [if_neg (by omega)]
    exact hbody
  · rw [parse_attribute_pos _ _ _ (by exact_mod_cast hd)]
    have hlen : (((List.replicate d ' ' ++ (key ++ ':' :: ' ' :: value ++ nl)).length : Nat)
        : Int) = (d : Int) + ((key ++ ':' :: ' ' :: value ++ nl).length : Nat) := by
      rw [List.length_append, List.length_replicate]; push_cast; rfl
    have hany : (List.range (d : Int).toNat).any
        (fun i => charAt (List.replicate d ' ' ++ (key ++ ':' :: ' ' :: value ++ nl)) i ≠ ' ')
          = false := by
      rw [List.any_eq_false]
      intro i hi
      rw [Int.toNat_natCast, List.mem_range] at hi
      simp [charAt_replicate d i _ hi]
    rw [hany, hlen, if_neg (by omega)]
    simp only [Bool.false_eq_true, if_false, Int.toNat_natCast, add_sub_cancel_left]
    rw [List.drop_left' (by simp)]
    exact hbody


/-! ## Every accepted input has the block structure -/

theorem is_new_page_eq_blank (l : List Char) (h : is_new_page l.length l = true) :
    l = blank_line := by
  simp only [is_new_page, Bool.and_eq_true, decide_eq_true_eq] at h
  obtain ⟨h1, h2⟩ := h
  have hlen : l.length = 1 := by exact_mod_cast h1
  match l, hlen, h2 with
  | [c], _, h2 =>
    simp only [charAt, List.getD_cons_zero] at h2
    rw [h2]; rfl

theorem read_eof_error_lines (dir : List Char) (ls : List (List Char)) (a : TextureAtlas_atlas) :
    read_eof (read_lines dir .error ls) ≠ .atlas a := by
  rw [read_lines_error]; intro h; cases h

theorem read_eof_undefined_lines (dir : List Char) (ls : List (List Char))
    (a : TextureAtlas_atlas) :
    read_eof (read_lines dir .undefined ls) ≠ .atlas a := by
  rw [read_lines_undefined]; intro h; cases h

theorem region_blocks_lines_cons (b : RegionBlock) (bs : List RegionBlock) :
    region_blocks_lines (b :: bs) = b.nameLine :: (b.attributes ++ region_blocks_lines bs) := by
  simp [region_blocks_lines, RegionBlock.lines]

theorem body_lines_cons_tail (b : PageBlock) (tail : List (List Char))
    (hb : b.shaped = true) (ht : is_page_tail tail) :
    ∃ blocks : List PageBlock, blocks ≠ [] ∧ blocks.all PageBlock.shaped = true
      ∧ b.lines ++ tail = body_lines blocks := by
  rcases ht with rfl | ⟨blocks, hne, hs, rfl⟩
  · exact ⟨[b], by simp, by simp [hb], by simp [body_lines]⟩
  · obtain ⟨b2, bs, rfl⟩ := List.exists_cons_of_ne_nil hne
    exact ⟨b :: b2 :: bs, by simp, by rw [List.all_cons, hb, hs]; rfl, by simp [body_lines]⟩

theorem start_region_cases (pages : List TextureAtlas_page) (page : TextureAtlas_page)
    (n : Int) (l : List Char) :
    start_region pages page n l = .error
      ∨ ∃ region, start_region pages page n l = .region_attributes pages page region := by
  unfold start_region
  cases read_name n l with
  | none => exact Or.inl rfl
  | some regionName => exact Or.inr ⟨_, rfl⟩

theorem read_eof_page_attributes (pages : List TextureAtlas_page) (page : TextureAtlas_page) :
    read_eof (.page_attributes pages page) = .null := by
  have h : read_name (-1) [] = none := by simp [read_name]
  simp only [read_eof, start_region, h]
  split_ifs <;> rfl

/-- Any input accepted from one of the three control points has the block structure. -/
theorem read_lines_structure (dir : List Char) (a : TextureAtlas_atlas) :
    ∀ lines : List (List Char),
      (∀ pages, read_eof (read_lines dir (.page_name pages) lines) = .atlas a →
        ∃ blocks : List PageBlock, blocks ≠ [] ∧ blocks.all PageBlock.shaped = true
          ∧ lines = body_lines blocks) ∧
      (∀ pages page, read_eof (read_lines dir (.page_attributes pages page) lines) = .atlas a →
        ∃ attrs r rs tail, lines = attrs ++ region_blocks_lines (r :: rs) ++ tail
          ∧ attrs.all (is_attribute_line 0) = true ∧ is_attribute_line 0 r.nameLine = false
          ∧ r.attributes.all (is_attribute_line 2) = true
          ∧ rs.all RegionBlock.shaped = true ∧ is_page_tail tail) ∧
      (∀ pages page region,
        read_eof (read_lines dir (.region_attributes pages page region) lines) = .atlas a →
        ∃ attrs rs tail, lines = attrs ++ region_blocks_lines rs ++ tail
          ∧ attrs.all (is_attribute_line 2) = true
          ∧ rs.all RegionBlock.shaped = true ∧ is_page_tail tail) := by
  intro lines
  induction lines with
  | nil =>
    refine ⟨?_, ?_, ?_⟩
    · intro pages h; cases h
    · intro pages page h
      rw [read_lines_nil, read_eof_page_attributes] at h
      cases h
    · intro pages page region _
      exact ⟨[], [], [], rfl, rfl, rfl, Or.inl rfl⟩
  | cons l ls ih =>
    obtain ⟨ih1, ih2, ih3⟩ := ih
    refine ⟨?_, ?_, ?_⟩
    · intro pages h
      rw [read_lines_cons] at h
      cases hn : read_name l.length l with
      | none =>
        simp only [read_line, hn] at h
        exact absurd h (read_eof_error_lines dir ls a)
      | some pageName =>
        simp only [read_line, hn] at h
        obtain ⟨attrs, r, rs, tail, h1, h2, h3, h4, h5, h6⟩ := ih2 _ _ h
        have hb : (PageBlock.mk l attrs (r :: rs)).shaped = true := by
          simp [PageBlock.shaped, h2, h3, h4, h5]
        obtain ⟨blocks, hne, hs, heq⟩ := body_lines_cons_tail _ tail hb h6
        refine ⟨blocks, hne, hs, ?_⟩
        rw [← heq, h1]
        simp [PageBlock.lines]
    · intro pages page h
      rw [read_lines_cons] at h
      cases hp : parse_attribute l.length l 0 with
      | undefined =>
        simp only [read_line, hp] at h
        exact absurd h (read_eof_undefined_lines dir ls a)
      | pair key value =>
        have hl : is_attribute_line 0 l = true := by
          rw [is_attribute_line_iff, hp]; intro hc; cases hc
        cases hq : page_attribute page key value with
        | error =>
          simp only [read_line, hp, hq] at h
          exact absurd h (read_eof_error_lines dir ls a)
        | undefined =>
          simp only [read_line, hp, hq] at h
          exact absurd h (read_eof_undefined_lines dir ls a)
        | ok page2 =>
          simp only [read_line, hp, hq] at h
          obtain ⟨attrs, r, rs, tail, h1, h2, h3, h4, h5, h6⟩ := ih2 _ _ h
          refine ⟨l :: attrs, r, rs, tail, ?_, ?_, h3, h4, h5, h6⟩
          · rw [h1]; simp
          · rw [List.all_cons, hl, h2]; rfl
      | notAttribute =>
        have hl : is_attribute_line 0 l = false := (is_attribute_line_false_iff 0 l).mpr hp
        by_cases hc : page_complete page = true
        · simp only [read_line, hp, hc, if_true] at h
          rcases start_region_cases pages page l.length l with hs | ⟨region, hs⟩
          · rw [hs] at h
            exact absurd h (read_eof_error_lines dir ls a)
          · rw [hs] at h
            obtain ⟨attrs, rs, tail, h1, h2, h3, h4⟩ := ih3 _ _ _ h
            refine ⟨[], ⟨l, attrs⟩, rs, tail, ?_, rfl, hl, h2, h3, h4⟩
            rw [h1, region_blocks_lines_cons]
            simp
        · simp only [read_line, hp, hc] at h
          exact absurd h (read_eof_error_lines dir ls a)
    · intro pages page region h
      rw [read_lines_cons] at h
      cases hp : parse_attribute l.length l 2 with
      | undefined =>
        simp only [read_line, hp] at h
        exact absurd h (read_eof_undefined_lines dir ls a)
      | pair key value =>
        have hl : is_attribute_line 2 l = true := by
          rw [is_attribute_line_iff, hp]; intro hc; cases hc
        cases hq : region_attribute region key value with
        | error =>
          simp only [read_line, hp, hq] at h
          exact absurd h (read_eof_error_lines dir ls a)
        | undefined =>
          simp only [read_line, hp, hq] at h
          exact absurd h (read_eof_undefined_lines dir ls a)
        | ok region2 =>
          simp only [read_line, hp, hq] at h
          obtain ⟨attrs, rs, tail, h1, h2, h3, h4⟩ := ih3 _ _ _ h
          refine ⟨l :: attrs, rs, tail, ?_, ?_, h3, h4⟩
          · rw [h1]; simp
          · rw [List.all_cons, hl, h2]; rfl
      | notAttribute =>
        have hl : is_attribute_line 2 l = false := (is_attribute_line_false_iff 2 l).mpr hp
        by_cases hnp : is_new_page l.length l = true
        · simp only [read_line, hp, hnp, if_true] at h
          obtain ⟨blocks, hne, hs, heq⟩ := ih1 _ h
          refine ⟨[], [], l :: ls, by simp [region_blocks_lines], rfl, rfl, Or.inr ?_⟩
          exact ⟨blocks, hne, hs, by rw [is_new_page_eq_blank l hnp, heq]⟩
        · simp only [read_line, hp, hnp] at h
          rcases start_region_cases pages (close_region page region) l.length l
            with hs | ⟨region2, hs⟩
          · simp only [Bool.false_eq_true, if_false] at h
            rw [hs] at h
            exact absurd h (read_eof_error_lines dir ls a)
          · simp only [Bool.false_eq_true, if_false] at h
            rw [hs] at h
            obtain ⟨attrs, rs, tail, h1, h2, h3, h4⟩ := ih3 _ _ _ h
            refine ⟨[], ⟨l, attrs⟩ :: rs, tail, ?_, rfl, ?_, h4⟩
            · rw [h1, region_blocks_lines_cons]; simp
            · rw [List.all_cons, h3, Bool.and_true]
              simp only [RegionBlock.shaped, hl, Bool.not_false, Bool.true_and, h2,
                Bool.and_true]
              simpa using hnp

/-- Every input that `TextureAtlas_read` accepts is a header line followed by page blocks of
the shape above, and the atlas returned is the one the blocks describe. -/
theorem read_accepts_blocks (dir content : List Char) (a : TextureAtlas_atlas)
    (h : TextureAtlas_read dir (some content) = .atlas a) :
    ∃ blocks : List PageBlock, blocks.all PageBlock.shaped = true
      ∧ getlines content = descriptor_lines blocks
      ∧ pages_of_blocks dir [] blocks = .ok a.pages := by
  unfold TextureAtlas_read at h
  cases hl : getlines content with
  | nil => simp only [hl] at h; cases h
  | cons l ls =>
    simp only [hl] at h
    by_cases hnp : is_new_page l.length l = true
    · simp only [hnp, Bool.not_true, Bool.false_eq_true, if_false, read_pages] at h
      obtain ⟨blocks, hne, hs, heq⟩ := (read_lines_structure dir a ls).1 [] h
      refine ⟨blocks, hs, ?_, ?_⟩
      · rw [is_new_page_eq_blank l hnp, heq]; rfl
      · rw [heq, read_body_lines dir blocks [] hs hne] at h
        cases hp : pages_of_blocks dir [] blocks with
        | error => rw [hp] at h; cases h
        | undefined => rw [hp] at h; cases h
        | ok pages =>
          rw [hp] at h
          simp only [pages_result, ReadResult.atlas.injEq] at h
          rw [← h]
    · simp only [hnp] at h
      simp at h


/-! ## Pages and regions of an accepted descriptor -/

theorem pages_of_blocks_ok (dir : List Char) :
    ∀ (blocks : List PageBlock) (done ps : List TextureAtlas_page),
      pages_of_blocks dir done blocks = .ok ps →
      ∃ new, ps = done ++ new ∧ new.length = blocks.length ∧
        ∀ i b, blocks[i]? = some b →
          ∃ p, new[i]? = some p ∧ page_of_block dir ((done.length + i : Nat) : Int) b = .ok p := by
  intro blocks
  induction blocks with
  | nil =>
    intro done ps h
    simp only [pages_of_blocks, Step.ok.injEq] at h
    exact ⟨[], by simp [h], rfl, by simp⟩
  | cons b bs ih =>
    intro done ps h
    cases hp : page_of_block dir done.length b with
    | error => simp only [pages_of_blocks, hp] at h; cases h
    | undefined => simp only [pages_of_blocks, hp] at h; cases h
    | ok p =>
      simp only [pages_of_blocks, hp] at h
      obtain ⟨new, h1, h2, h3⟩ := ih _ _ h
      refine ⟨p :: new, by simp [h1], by simp [h2], ?_⟩
      intro i b2 hb2
      cases i with
      | zero =>
        simp only [List.getElem?_cons_zero, Option.some.injEq] at hb2
        subst hb2
        exact ⟨p, by simp, by simpa using hp⟩
      | succ i =>
        simp only [List.getElem?_cons_succ] at hb2
        obtain ⟨p2, h4, h5⟩ := h3 i b2 hb2
        refine ⟨p2, by simpa using h4, ?_⟩
        have : ((done ++ [p]).length + i : Nat) = done.length + (i + 1) := by
          simp only [List.length_append, List.length_singleton]; omega
        rw [this] at h5
        exact h5

theorem pages_of_blocks_well_formed (dir : List Char) :
    ∀ (blocks : List PageBlock) (done : List TextureAtlas_page),
      blocks_well_formed dir done.length blocks = true →
      ∃ ps, pages_of_blocks dir done blocks = .ok ps := by
  intro blocks
  induction blocks with
  | nil => intro done _; exact ⟨done, rfl⟩
  | cons b bs ih =>
    intro done h
    simp only [blocks_well_formed, Bool.and_eq_true] at h
    cases hp : page_of_block dir done.length b with
    | error => rw [hp] at h; simp [Step.is_ok] at h
    | undefined => rw [hp] at h; simp [Step.is_ok] at h
    | ok p =>
      have h2 : blocks_well_formed dir (done ++ [p]).length bs = true := by
        simpa using h.2
      obtain ⟨ps, hps⟩ := ih _ h2
      exact ⟨ps, by simp only [pages_of_blocks, hp, hps]⟩

theorem regions_of_blocks_ok :
    ∀ (bs : List RegionBlock) (rs : List TextureAtlas_region),
      regions_of_blocks bs = .ok rs →
      rs.length = bs.length ∧
        ∀ (j : Nat) (rb : RegionBlock), bs[j]? = some rb →
          ∃ r, rs[j]? = some r ∧ region_of_block rb = .ok r := by
  intro bs
  induction bs with
  | nil =>
    intro rs h
    simp only [regions_of_blocks, Step.ok.injEq] at h
    subst h
    exact ⟨rfl, by simp⟩
  | cons b bs ih =>
    intro rs h
    cases hr : region_of_block b with
    | error => simp only [regions_of_blocks, hr] at h; cases h
    | undefined => simp only [regions_of_blocks, hr] at h; cases h
    | ok r =>
      cases hrs : regions_of_blocks bs with
      | error => simp only [regions_of_blocks, hr, hrs] at h; cases h
      | undefined => simp only [regions_of_blocks, hr, hrs] at h; cases h
      | ok rest =>
        simp only [regions_of_blocks, hr, hrs, Step.ok.injEq] at h
        subst h
        obtain ⟨h1, h2⟩ := ih _ hrs
        refine ⟨by simp [h1], ?_⟩
        intro j rb hrb
        cases j with
        | zero =>
          simp only [List.getElem?_cons_zero, Option.some.injEq] at hrb
          subst hrb
          exact ⟨r, by simp, hr⟩
        | succ j =>
          simp only [List.getElem?_cons_succ] at hrb
          obtain ⟨r2, h3, h4⟩ := h2 j rb hrb
          exact ⟨r2, by simpa using h3, h4⟩

theorem page_of_block_ok (dir : List Char) (index : Int) (b : PageBlock)
    (p : TextureAtlas_page) (h : page_of_block dir index b = .ok p) :
    ∃ pageName page,
      read_name b.nameLine.length b.nameLine = some pageName
      ∧ page_attribute_lines (new_page dir index pageName) b.attributes = .ok page
      ∧ page_complete page = true ∧ b.regions ≠ []
      ∧ regions_of_blocks b.regions = .ok p.regions
      ∧ p = { page with regions := p.regions } := by
  unfold page_of_block at h
  cases hn : read_name b.nameLine.length b.nameLine with
  | none => simp only [hn] at h; cases h
  | some pageName =>
    simp only [hn] at h
    cases hp : page_attribute_lines (new_page dir index pageName) b.attributes with
    | error => simp only [hp] at h; cases h
    | undefined => simp only [hp] at h; cases h
    | ok page =>
      simp only [hp] at h
      have hreg : page.regions = [] :=
        (page_attribute_lines_regions _ _ _ hp).1
      by_cases hc : page_complete page = true
      · simp only [hc, if_true] at h
        cases hr : b.regions with
        | nil => simp only [hr] at h; cases h
        | cons r rs =>
          simp only [hr] at h
          cases hrs : regions_of_blocks (r :: rs) with
          | error => simp only [hrs] at h; cases h
          | undefined => simp only [hrs] at h; cases h
          | ok regions =>
            simp only [hrs, Step.ok.injEq] at h
            subst h
            refine ⟨pageName, page, rfl, hp, hc, by simp, ?_, ?_⟩
            · simp [hreg]
            · rfl
      · simp only [hc] at h
        cases h

/-- Access to the page that the reader builds from page block `i`. -/
theorem read_blocks_page (dir content : List Char) (blocks : List PageBlock)
    (a : TextureAtlas_atlas)
    (hread : TextureAtlas_read dir (some content) = .atlas a)
    (hlines : getlines content = descriptor_lines blocks)
    (hshape : blocks.all PageBlock.shaped = true) :
    a.pages.length = blocks.length ∧ a.numberOfPages = blocks.length ∧
    ∀ i b, blocks[i]? = some b →
      ∃ p, a.pages[i]? = some p ∧ page_of_block dir (i : Nat) b = .ok p := by
  rw [read_descriptor dir content blocks hlines hshape] at hread
  unfold atlas_of_blocks at hread
  cases blocks with
  | nil => cases hread
  | cons b bs =>
    simp only at hread
    cases hp : pages_of_blocks dir [] (b :: bs) with
    | error => rw [hp] at hread; cases hread
    | undefined => rw [hp] at hread; cases hread
    | ok ps =>
      rw [hp] at hread
      simp only [pages_result, ReadResult.atlas.injEq] at hread
      subst hread
      obtain ⟨new, h1, h2, h3⟩ := pages_of_blocks_ok dir _ _ _ hp
      simp only [List.nil_append] at h1
      subst h1
      refine ⟨h2, by simp [h2], ?_⟩
      intro i b2 hb2
      obtain ⟨p, h4, h5⟩ := h3 i b2 hb2
      exact ⟨p, h4, by simpa using h5⟩

/-- Access to the region that the reader builds from region block `j` of page block `i`. -/
theorem read_blocks_region (dir content : List Char) (blocks : List PageBlock)
    (a : TextureAtlas_atlas)
    (hread : TextureAtlas_read dir (some content) = .atlas a)
    (hlines : getlines content = descriptor_lines blocks)
    (hshape : blocks.all PageBlock.shaped = true)
    (i j : Nat) (b : PageBlock) (rb : RegionBlock)
    (hb : blocks[i]? = some b) (hrb : b.regions[j]? = some rb) :
    ∃ r, region_at a i j = some r ∧ region_of_block rb = .ok r := by
  obtain ⟨_, _, h⟩ := read_blocks_page dir content blocks a hread hlines hshape
  obtain ⟨p, hp1, hp2⟩ := h i b hb
  obtain ⟨_, _, _, _, _, _, hregs, _⟩ := page_of_block_ok dir _ b p hp2
  obtain ⟨_, h2⟩ := regions_of_blocks_ok _ _ hregs
  obtain ⟨r, hr1, hr2⟩ := h2 j rb hrb
  exact ⟨r, by simp [region_at, hp1, hr1], hr2⟩


/-! ## What the attribute loops keep -/

theorem page_attribute_keeps (page page2 : TextureAtlas_page) (key : List Char)
    (value : Option (List Char)) (h : page_attribute page key value = .ok page2) :
    (key ≠ "size".toList → page2.width = page.width ∧ page2.height = page.height) ∧
    (key ≠ "format".toList → page2.format = page.format) ∧
    (key ≠ "filter".toList → page2.minificationFilter = page.minificationFilter
      ∧ page2.magnificationFilter = page.magnificationFilter) ∧
    (key ≠ "repeat".toList → page2.repeat_ = page.repeat_) := by
  unfold page_attribute at h
  repeat' split at h
  all_goals first
    | (injection h with h; subst h
       refine ⟨?_, ?_, ?_, ?_⟩ <;> intro hk <;>
         first | contradiction | rfl | exact ⟨rfl, rfl⟩)
    | (injection h)

theorem region_attribute_keeps (region region2 : TextureAtlas_region) (key : List Char)
    (value : Option (List Char)) (h : region_attribute region key value = .ok region2) :
    region2.name = region.name ∧
    (key ≠ "rotate".toList → region2.rotate = region.rotate) ∧
    (key ≠ REPEAT_XY → region2.x = region.x ∧ region2.y = region.y) ∧
    (key ≠ "size".toList → region2.width = region.width ∧ region2.height = region.height) ∧
    (key ≠ "orig".toList → region2.originalWidth = region.originalWidth
      ∧ region2.originalHeight = region.originalHeight) ∧
    (key ≠ "offset".toList → region2.offsetX = region.offsetX
      ∧ region2.offsetY = region.offsetY) ∧
    (key ≠ "index".toList → region2.index = region.index) ∧
    (key ≠ "split".toList → region2.splits = region.splits) ∧
    (key ≠ "pad".toList → region2.pads = region.pads) := by
  unfold region_attribute at h
  repeat' split at h
  all_goals first
    | (injection h with h; subst h
       refine ⟨rfl, ?_, ?_, ?_, ?_, ?_, ?_, ?_, ?_⟩ <;> intro hk <;>
         first | contradiction | rfl | exact ⟨rfl, rfl⟩)
    | (injection h)

/-- A property of the page that only lines with key `K` can change is kept by the page
attribute loop over lines that do not have this key. -/
theorem page_attribute_lines_keeps (P : TextureAtlas_page → Prop) (K : List Char)
    (hP : ∀ page key value page2, key ≠ K → page_attribute page key value = .ok page2 →
      P page → P page2) :
    ∀ (attrs : List (List Char)) (page page2 : TextureAtlas_page),
      (∀ l ∈ attrs, attribute_key 0 l ≠ some K) →
      page_attribute_lines page attrs = .ok page2 → P page → P page2 := by
  intro attrs
  induction attrs with
  | nil =>
    intro page page2 _ h hp
    simp only [page_attribute_lines, Step.ok.injEq] at h
    rw [← h]; exact hp
  | cons l ls ih =>
    intro page page2 hk h hp
    have hl := hk l (List.mem_cons_self _ _)
    cases hpa : parse_attribute l.length l 0 with
    | notAttribute =>
      simp only [page_attribute_lines, hpa, Step.ok.injEq] at h
      rw [← h]; exact hp
    | undefined => simp only [page_attribute_lines, hpa] at h; cases h
    | pair key value =>
      simp only [attribute_key, hpa, ne_eq, Option.some.injEq] at hl
      cases hq : page_attribute page key value with
      | error => simp only [page_attribute_lines, hpa, hq] at h; cases h
      | undefined => simp only [page_attribute_lines, hpa, hq] at h; cases h
      | ok page3 =>
        simp only [page_attribute_lines, hpa, hq] at h
        exact ih page3 page2 (fun x hx => hk x (List.mem_cons_of_mem _ hx)) h
          (hP _ _ _ _ hl hq hp)

/-- The same for the region attribute loop. -/
theorem region_attribute_lines_keeps (P : TextureAtlas_region → Prop) (K : List Char)
    (hP : ∀ region key value region2, key ≠ K →
      region_attribute region key value = .ok region2 → P region → P region2) :
    ∀ (attrs : List (List Char)) (region region2 : TextureAtlas_region),
      (∀ l ∈ attrs, attribute_key 2 l ≠ some K) →
      region_attribute_lines region attrs = .ok region2 → P region → P region2 := by
  intro attrs
  induction attrs with
  | nil =>
    intro region region2 _ h hp
    simp only [region_attribute_lines, Step.ok.injEq] at h
    rw [← h]; exact hp
  | cons l ls ih =>
    intro region region2 hk h hp
    have hl := hk l (List.mem_cons_self _ _)
    cases hpa : parse_attribute l.length l 2 with
    | notAttribute =>
      simp only [region_attribute_lines, hpa, Step.ok.injEq] at h
      rw [← h]; exact hp
    | undefined => simp only [region_attribute_lines, hpa] at h; cases h
    | pair key value =>
      simp only [attribute_key, hpa, ne_eq, Option.some.injEq] at hl
      cases hq : region_attribute region key value with
      | error => simp only [region_attribute_lines, hpa, hq] at h; cases h
      | undefined => simp only [region_attribute_lines, hpa, hq] at h; cases h
      | ok region3 =>
        simp only [region_attribute_lines, hpa, hq] at h
        exact ih region3 region2 (fun x hx => hk x (List.mem_cons_of_mem _ hx)) h
          (hP _ _ _ _ hl hq hp)

/-- The region attribute loop over `pre ++ l :: post` passes through the state reached
after `pre`. -/
theorem region_attribute_lines_split :
    ∀ (pre : List (List Char)) (l : List Char) (post : List (List Char))
      (region region2 : TextureAtlas_region),
      pre.all (is_attribute_line 2) = true →
      region_attribute_lines region (pre ++ l :: post) = .ok region2 →
      ∃ region1, region_attribute_lines region pre = .ok region1
        ∧ region_attribute_lines region1 (l :: post) = .ok region2 := by
  intro pre
  induction pre with
  | nil => intro l post region region2 _ h; exact ⟨region, rfl, h⟩
  | cons x xs ih =>
    intro l post region region2 hall h
    rw [List.all_cons, Bool.and_eq_true] at hall
    have hx := (is_attribute_line_iff 2 x).mp hall.1
    cases hpa : parse_attribute x.length x 2 with
    | notAttribute => exact absurd hpa hx
    | undefined => simp only [List.cons_append, region_attribute_lines, hpa] at h; cases h
    | pair key value =>
      cases hq : region_attribute region key value with
      | error => simp only [List.cons_append, region_attribute_lines, hpa, hq] at h; cases h
      | undefined =>
        simp only [List.cons_append, region_attribute_lines, hpa, hq] at h; cases h
      | ok region3 =>
        simp only [List.cons_append, region_attribute_lines, hpa, hq] at h
        obtain ⟨region1, h1, h2⟩ := ih l post region3 region2 hall.2 h
        exact ⟨region1, by simp only [region_attribute_lines, hpa, hq, h1], h2⟩


/-! ## Page completeness and page size -/

theorem page_complete_fields (p : TextureAtlas_page) (h : page_complete p = true) :
    p.width ≠ -1 ∧ p.height ≠ -1 ∧ p.format ≠ .UNDEFINED_FORMAT
      ∧ p.repeat_ ≠ .UNDEFINED_REPEAT ∧ p.minificationFilter ≠ .UNDEFINED_FILTER
      ∧ p.magnificationFilter ≠ .UNDEFINED_FILTER := by
  simp only [page_complete, Bool.and_eq_true, Bool.not_eq_true', Bool.or_eq_false_iff,
    decide_eq_false_iff_not] at h
  obtain ⟨⟨⟨⟨h1, h2⟩, h3⟩, h4⟩, h5, h6⟩ := h
  exact ⟨h1, h2, h3, h4, h5, h6⟩

theorem pages_of_blocks_mem (dir : List Char) (blocks : List PageBlock)
    (ps : List TextureAtlas_page) (h : pages_of_blocks dir [] blocks = .ok ps) :
    ∀ p ∈ ps, ∃ (i : Nat) (b : PageBlock), blocks[i]? = some b ∧ ps[i]? = some p
      ∧ page_of_block dir (i : Nat) b = .ok p := by
  obtain ⟨new, h1, h2, h3⟩ := pages_of_blocks_ok dir _ _ _ h
  simp only [List.nil_append] at h1
  subst h1
  intro p hp
  obtain ⟨i, hi, hpi⟩ := List.mem_iff_getElem.mp hp
  have hib : i < blocks.length := by omega
  obtain ⟨p2, h4, h5⟩ := h3 i blocks[i] (List.getElem?_eq_getElem hib)
  have hpi2 : ps[i]? = some p := by rw [List.getElem?_eq_getElem hi, hpi]
  rw [hpi2] at h4
  cases h4
  exact ⟨i, blocks[i], List.getElem?_eq_getElem hib, hpi2, by simpa using h5⟩

/-- C2 (completeness): when the attribute block of some page block has no `size` line, or no
`format` line, or no `filter` line, or no `repeat` line, `TextureAtlas_read` returns no atlas;
and every page of an atlas that it returns has width, height, format, repeat and both filters
set to something other than the undefined sentinel (the name is set by construction). -/
theorem page_completeness :
    (∀ (dir content : List Char) (blocks : List PageBlock) (b : PageBlock),
      getlines content = descriptor_lines blocks → blocks.all PageBlock.shaped = true →
      b ∈ blocks →
      ((∀ l ∈ b.attributes, attribute_key 0 l ≠ some "size".toList)
        ∨ (∀ l ∈ b.attributes, attribute_key 0 l ≠ some "format".toList)
        ∨ (∀ l ∈ b.attributes, attribute_key 0 l ≠ some "filter".toList)
        ∨ (∀ l ∈ b.attributes, attribute_key 0 l ≠ some "repeat".toList)) →
      ∀ a, TextureAtlas_read dir (some content) ≠ .atlas a) ∧
    (∀ (dir : List Char) (atlasFile : Option (List Char)) (a : TextureAtlas_atlas),
      TextureAtlas_read dir atlasFile = .atlas a →
      ∀ p ∈ a.pages, p.width ≠ -1 ∧ p.height ≠ -1 ∧ p.format ≠ .UNDEFINED_FORMAT
        ∧ p.repeat_ ≠ .UNDEFINED_REPEAT ∧ p.minificationFilter ≠ .UNDEFINED_FILTER
        ∧ p.magnificationFilter ≠ .UNDEFINED_FILTER) := by
  constructor
  · intro dir content blocks b hlines hshape hb hmiss a hread
    obtain ⟨_, _, hpages⟩ := read_blocks_page dir content blocks a hread hlines hshape
    obtain ⟨i, hi, hbi⟩ := List.mem_iff_getElem.mp hb
    obtain ⟨p, _, hp⟩ := hpages i b (by rw [List.getElem?_eq_getElem hi, hbi])
    obtain ⟨pageName, page, _, hattrs, hc, _, _, _⟩ := page_of_block_ok dir _ b p hp
    have hf := page_complete_fields page hc
    rcases hmiss with h | h | h | h
    · have := page_attribute_lines_keeps (fun q => q.width = -1) "size".toList
        (fun q key value q2 hk hq hq1 =>
          ((page_attribute_keeps q q2 key value hq).1 hk).1.trans hq1)
        b.attributes _ page h hattrs rfl
      exact hf.1 this
    · have := page_attribute_lines_keeps (fun q => q.format = .UNDEFINED_FORMAT)
        "format".toList
        (fun q key value q2 hk hq hq1 =>
          ((page_attribute_keeps q q2 key value hq).2.1 hk).trans hq1)
        b.attributes _ page h hattrs rfl
      exact hf.2.2.1 this
    · have := page_attribute_lines_keeps
        (fun q => q.minificationFilter = .UNDEFINED_FILTER) "filter".toList
        (fun q key value q2 hk hq hq1 =>
          ((page_attribute_keeps q q2 key value hq).2.2.1 hk).1.trans hq1)
        b.attributes _ page h hattrs rfl
      exact hf.2.2.2.2.1 this
    · have := page_attribute_lines_keeps (fun q => q.repeat_ = .UNDEFINED_REPEAT)
        "repeat".toList
        (fun q key value q2 hk hq hq1 =>
          ((page_attribute_keeps q q2 key value hq).2.2.2 hk).trans hq1)
        b.attributes _ page h hattrs rfl
      exact hf.2.2.2.1 this
  · intro dir atlasFile a hread p hp
    cases atlasFile with
    | none => cases hread
    | some content =>
      obtain ⟨blocks, _, _, hpages⟩ := read_accepts_blocks dir content a hread
      obtain ⟨i, b, _, _, hpb⟩ := pages_of_blocks_mem dir blocks a.pages hpages p hp
      obtain ⟨pageName, page, _, _, hc, _, _, heq⟩ := page_of_block_ok dir _ b p hpb
      have hf := page_complete_fields page hc
      rw [heq]
      exact hf

/-- C2, instance: the minimal descriptor without its `size` line is rejected, and the page
read from the minimal descriptor has no field left at its sentinel. -/
theorem page_completeness_witness :
    TextureAtlas_read [] (some no_size_example) ≠ .atlas (minimal_atlas []) ∧
    ((256 : Int) ≠ -1 ∧ (256 : Int) ≠ -1
      ∧ TextureAtlas_format.RGBA8888 ≠ .UNDEFINED_FORMAT
      ∧ TextureAtlas_repeat.NONE ≠ .UNDEFINED_REPEAT
      ∧ TextureAtlas_filter.NEAREST ≠ .UNDEFINED_FILTER
      ∧ TextureAtlas_filter.NEAREST ≠ .UNDEFINED_FILTER) :=
  ⟨page_completeness.1 [] no_size_example no_size_blocks _ (by decide) (by decide)
      (List.mem_singleton.mpr rfl) (Or.inl (by decide)) (minimal_atlas []),
   page_completeness.2 [] (some minimal_example) (minimal_atlas []) (by decide) _
      (List.mem_singleton.mpr rfl)⟩

/-- C3, evaluation: for the page line `size: 256, 128` the reader stores 256 in the width and
256, not 128, in the height. -/
theorem page_size_height_is_width :
    ∃ a p, TextureAtlas_read [] (some wide_page_example) = .atlas a ∧ a.pages = [p]
      ∧ p.width = 256 ∧ p.height = 256 ∧ p.height ≠ 128 := by
  refine ⟨minimal_atlas [], _, by decide, rfl, ?_, ?_, ?_⟩ <;> decide


/-! ## Several pages, end of input -/

theorem page_attribute_lines_name (attrs : List (List Char)) (page page2 : TextureAtlas_page)
    (h : page_attribute_lines page attrs = .ok page2) : page2.name = page.name :=
  (page_attribute_lines_regions attrs page page2 h).2.1

theorem region_attribute_lines_name :
    ∀ (attrs : List (List Char)) (region region2 : TextureAtlas_region),
      region_attribute_lines region attrs = .ok region2 → region2.name = region.name := by
  intro attrs
  induction attrs with
  | nil =>
    intro region region2 h
    simp only [region_attribute_lines, Step.ok.injEq] at h
    rw [h]
  | cons l ls ih =>
    intro region region2 h
    cases hpa : parse_attribute l.length l 2 with
    | notAttribute =>
      simp only [region_attribute_lines, hpa, Step.ok.injEq] at h
      rw [h]
    | undefined => simp only [region_attribute_lines, hpa] at h; cases h
    | pair key value =>
      cases hq : region_attribute region key value with
      | error => simp only [region_attribute_lines, hpa, hq] at h; cases h
      | undefined => simp only [region_attribute_lines, hpa, hq] at h; cases h
      | ok region3 =>
        simp only [region_attribute_lines, hpa, hq] at h
        rw [ih _ _ h, (region_attribute_keeps _ _ _ _ hq).1]

theorem region_of_block_name (rb : RegionBlock) (r : TextureAtlas_region)
    (h : region_of_block rb = .ok r) :
    read_name rb.nameLine.length rb.nameLine = some r.name := by
  unfold region_of_block at h
  cases hn : read_name rb.nameLine.length rb.nameLine with
  | none => simp only [hn] at h; cases h
  | some regionName =>
    simp only [hn] at h
    rw [region_attribute_lines_name _ _ _ h]
    rfl

theorem page_of_block_name (dir : List Char) (index : Int) (b : PageBlock)
    (p : TextureAtlas_page) (h : page_of_block dir index b = .ok p) :
    read_name b.nameLine.length b.nameLine = some p.name := by
  obtain ⟨pageName, page, h1, h2, _, _, _, h6⟩ := page_of_block_ok dir index b p h
  rw [h1, h6]
  simp only [Option.some.injEq]
  rw [page_attribute_lines_name _ _ _ h2]
  rfl

/-- The atlas that the reader returns for well formed page blocks. -/
theorem read_well_formed (dir content : List Char) (blocks : List PageBlock)
    (hlines : getlines content = descriptor_lines blocks)
    (hshape : blocks.all PageBlock.shaped = true) (hne : blocks ≠ [])
    (hwf : blocks_well_formed dir 0 blocks = true) :
    ∃ a, TextureAtlas_read dir (some content) = .atlas a := by
  rw [read_descriptor dir content blocks hlines hshape]
  obtain ⟨ps, hps⟩ := pages_of_blocks_well_formed dir blocks [] hwf
  obtain ⟨b, bs, rfl⟩ := List.exists_cons_of_ne_nil hne
  exact ⟨{ pages := ps, numberOfPages := ps.length },
    by simp only [atlas_of_blocks, hps, pages_result]⟩

/-- C4 (multi-page order): for a descriptor made of `n >= 1` well formed page blocks
separated by single blank lines the reader returns an atlas with exactly `n` pages; page `i`
is the page described by block `i`, it carries the name of that block, and its region list
consists of exactly the regions described by the region blocks of block `i`, in their order. -/
theorem read_multi_page (dir content : List Char) (blocks : List PageBlock)
    (hlines : getlines content = descriptor_lines blocks)
    (hshape : blocks.all PageBlock.shaped = true) (hne : blocks ≠ [])
    (hwf : blocks_well_formed dir 0 blocks = true) :
    ∃ a, TextureAtlas_read dir (some content) = .atlas a
      ∧ a.pages.length = blocks.length ∧ a.numberOfPages = blocks.length
      ∧ ∀ (i : Nat) (b : PageBlock), blocks[i]? = some b →
          ∃ p, a.pages[i]? = some p ∧ page_of_block dir (i : Nat) b = .ok p
            ∧ read_name b.nameLine.length b.nameLine = some p.name
            ∧ p.regions.length = b.regions.length
            ∧ ∀ (j : Nat) (rb : RegionBlock), b.regions[j]? = some rb →
                ∃ r, p.regions[j]? = some r ∧ region_of_block rb = .ok r
                  ∧ read_name rb.nameLine.length rb.nameLine = some r.name := by
  obtain ⟨a, hread⟩ := read_well_formed dir content blocks hlines hshape hne hwf
  obtain ⟨h1, h2, h3⟩ := read_blocks_page dir content blocks a hread hlines hshape
  refine ⟨a, hread, h1, h2, ?_⟩
  intro i b hb
  obtain ⟨p, hp1, hp2⟩ := h3 i b hb
  obtain ⟨_, _, _, _, _, _, hregs, _⟩ := page_of_block_ok dir _ b p hp2
  obtain ⟨h4, h5⟩ := regions_of_blocks_ok _ _ hregs
  refine ⟨p, hp1, hp2, page_of_block_name dir _ b p hp2, h4, ?_⟩
  intro j rb hrb
  obtain ⟨r, hr1, hr2⟩ := h5 j rb hrb
  exact ⟨r, hr1, hr2, region_of_block_name rb r hr2⟩

/-- C4, instance with two pages: the pages come out in file order, the first with the regions
`a` and `b`, the second with the region `c` only. -/
theorem read_multi_page_witness :
    ∃ a, TextureAtlas_read [] (some two_page_example) = .atlas a
      ∧ a.pages.length = 2
      ∧ a.pages.map (fun p => p.name) = ["first.png".toList, "second.png".toList]
      ∧ a.pages.map (fun p => p.regions.map (fun r => r.name))
          = [["a".toList, "b".toList], ["c".toList]] := by
  obtain ⟨a, h1, h2, _, _⟩ := read_multi_page [] two_page_example two_page_blocks
    (by decide) (by decide) (by decide) (by decide)
  have h : TextureAtlas_read [] (some two_page_example) = .atlas two_page_atlas := by
    decide
  rw [h] at h1
  cases h1
  exact ⟨_, h, by decide, by decide, by decide⟩

theorem getLast_eq_append {α : Type} (l : List α) (x : α) (h : l.getLast? = some x) :
    ∃ front, l = front ++ [x] := by
  induction l with
  | nil => cases h
  | cons y ys ih =>
    cases ys with
    | nil =>
      simp only [List.getLast?_singleton, Option.some.injEq] at h
      exact ⟨[], by rw [h]; rfl⟩
    | cons z zs =>
      rw [List.getLast?_cons_cons] at h
      obtain ⟨front, hf⟩ := ih h
      exact ⟨y :: front, by rw [hf]; rfl⟩

theorem body_lines_snoc (front : List PageBlock) (b : PageBlock) :
    ∃ lines, body_lines (front ++ [b]) = lines ++ b.lines := by
  induction front with
  | nil => exact ⟨[], rfl⟩
  | cons x xs ih =>
    obtain ⟨lines, hl⟩ := ih
    cases hxs : xs ++ [b] with
    | nil => simp at hxs
    | cons y ys =>
      rw [hxs] at hl
      refine ⟨x.lines ++ blank_line :: lines, ?_⟩
      rw [List.cons_append, hxs]
      simp only [body_lines, hl]
      simp

/-- C8 (boundary): when the input ends right after the attribute lines of the last region
block of the last page block (no blank line follows) and the page blocks are well formed, the
reader succeeds; the last page of the atlas is the page described by the last page block and
its last region is the region described by the last region block. -/
theorem read_boundary (dir content : List Char) (blocks : List PageBlock)
    (hlines : getlines content = descriptor_lines blocks)
    (hshape : blocks.all PageBlock.shaped = true)
    (hwf : blocks_well_formed dir 0 blocks = true)
    (b : PageBlock) (rb : RegionBlock)
    (hb : blocks.getLast? = some b) (hrb : b.regions.getLast? = some rb) :
    (∃ front, getlines content = front ++ rb.nameLine :: rb.attributes) ∧
    ∃ a p r, TextureAtlas_read dir (some content) = .atlas a
      ∧ a.pages.getLast? = some p
      ∧ page_of_block dir ((blocks.length - 1 : Nat) : Int) b = .ok p
      ∧ p.regions.getLast? = some r ∧ region_of_block rb = .ok r := by
  have hne : blocks ≠ [] := by
    intro h; rw [h] at hb; cases hb
  constructor
  · obtain ⟨fb, hfb⟩ := getLast_eq_append _ _ hb
    obtain ⟨fr, hfr⟩ := getLast_eq_append _ _ hrb
    obtain ⟨lines, hl⟩ := body_lines_snoc fb b
    refine ⟨blank_line :: (lines ++ b.nameLine :: (b.attributes ++ region_blocks_lines fr)), ?_⟩
    rw [hlines, descriptor_lines, hfb, hl, PageBlock.lines, hfr]
    simp [region_blocks_lines, RegionBlock.lines]
  · obtain ⟨a, hread⟩ := read_well_formed dir content blocks hlines hshape hne hwf
    obtain ⟨h1, _, h3⟩ := read_blocks_page dir content blocks a hread hlines hshape
    rw [List.getLast?_eq_getElem?] at hb hrb
    obtain ⟨p, hp1, hp2⟩ := h3 _ b hb
    obtain ⟨_, _, _, _, _, _, hregs, _⟩ := page_of_block_ok dir _ b p hp2
    obtain ⟨h4, h5⟩ := regions_of_blocks_ok _ _ hregs
    obtain ⟨r, hr1, hr2⟩ := h5 _ rb hrb
    refine ⟨a, p, r, hread, ?_, hp2, ?_, hr2⟩
    · rw [List.getLast?_eq_getElem?, h1]; exact hp1
    · rw [List.getLast?_eq_getElem?, h4]; exact hr1


/-! ## Scanning printed numbers -/

theorem fmt_i_chars (v : Int) :
    ∀ c ∈ fmt_i v, c = '-' ∨ isdigit c = true := by
  obtain ⟨_, h2, _, _⟩ := toDigits_spec v.natAbs
  intro c hc
  unfold fmt_i at hc
  split_ifs at hc
  · rcases List.mem_cons.mp hc with h | h
    · exact Or.inl h
    · exact Or.inr (h2 c h)
  · exact Or.inr (h2 c hc)

theorem fmt_i_char_facts (v : Int) (c : Char) (hc : c ∈ fmt_i v) :
    isspace c = false ∧ c ≠ ',' ∧ c ≠ '\n' ∧ c ≠ NUL ∧ c ≠ ' ' ∧ c ≠ ':' := by
  rcases fmt_i_chars v c hc with h | h
  · subst h; decide
  · obtain ⟨h1, _, _, h4, h5, h6⟩ := isdigit_not_space c h
    refine ⟨h1, h4, h5, h6, ?_, ?_⟩ <;> (intro hx; subst hx; revert h; decide)

theorem fmt_i_ne_nil (v : Int) : fmt_i v ≠ [] := by
  obtain ⟨h1, _, _, _⟩ := toDigits_spec v.natAbs
  unfold fmt_i
  split_ifs
  · simp
  · exact h1

theorem fmt_i_length (v : Int) (hv : is_int v) : (fmt_i v).length ≤ 11 := by
  obtain ⟨_, _, _, h4⟩ := toDigits_spec v.natAbs
  have := h4 (by unfold is_int at hv; omega)
  unfold fmt_i
  split_ifs
  · simp only [List.length_cons]; omega
  · omega

theorem dropWhile_isspace_fmt_i (v : Int) (rest : List Char) :
    (fmt_i v ++ rest).dropWhile isspace = fmt_i v ++ rest := by
  obtain ⟨c, cs, hcs⟩ := List.exists_cons_of_ne_nil (fmt_i_ne_nil v)
  have hc := (fmt_i_char_facts v c (by rw [hcs]; exact List.mem_cons_self _ _)).1
  rw [hcs, List.cons_append, List.dropWhile_cons_of_neg (by simp [hc])]

theorem not_digit_head_nil : ∀ c, ([] : List Char).head? = some c → isdigit c = false := by
  intro c h; cases h

theorem not_digit_head_comma (t : List Char) :
    ∀ c, (',' :: t).head? = some c → isdigit c = false := by
  intro c h
  simp only [List.head?_cons, Option.some.injEq] at h
  subst h; decide

theorem scan_comma_u_fmt_i (v : Int) (rest : List Char) (hv : is_int v)
    (hrest : ∀ c, rest.head? = some c → isdigit c = false) :
    scan_comma_u (',' :: ' ' :: (fmt_i v ++ rest)) = .matched (toUInt32 v) rest ∧
    scan_comma_u (',' :: (fmt_i v ++ rest)) = .matched (toUInt32 v) rest := by
  have hsp : isspace ' ' = true := by decide
  constructor
  · simp only [scan_comma_u]
    rw [List.dropWhile_cons_of_pos hsp, dropWhile_isspace_fmt_i]
    exact scan_u_fmt_i v rest hv hrest
  · simp only [scan_comma_u]
    rw [dropWhile_isspace_fmt_i]
    exact scan_u_fmt_i v rest hv hrest

theorem sscanf_u_fmt_i (v : Int) (hv : is_int v) :
    sscanf_u (fmt_i v) = .matched (toUInt32 v) [] := by
  have := scan_u_fmt_i v [] hv not_digit_head_nil
  rw [List.append_nil] at this
  exact this

theorem sscanf_u_u_fmt_i (a b : Int) (ha : is_int a) (hb : is_int b) (rest : List Char)
    (hrest : ∀ c, rest.head? = some c → isdigit c = false) :
    sscanf_u_u (fmt_i a ++ ',' :: ' ' :: (fmt_i b ++ rest))
      = .matched (toUInt32 a, toUInt32 b) rest ∧
    sscanf_u_u (fmt_i a ++ ',' :: (fmt_i b ++ rest))
      = .matched (toUInt32 a, toUInt32 b) rest := by
  constructor
  · unfold sscanf_u_u
    rw [scan_u_fmt_i a _ ha (not_digit_head_comma _)]
    simp only [(scan_comma_u_fmt_i b rest hb hrest).1]
  · unfold sscanf_u_u
    rw [scan_u_fmt_i a _ ha (not_digit_head_comma _)]
    simp only [(scan_comma_u_fmt_i b rest hb hrest).2]

theorem sscanf_u_u_u_u_fmt_i (a b c d : Int) (ha : is_int a) (hb : is_int b)
    (hc : is_int c) (hd : is_int d) :
    sscanf_u_u_u_u (fmt_i a ++ ", ".toList ++ fmt_i b ++ ", ".toList ++ fmt_i c
        ++ ", ".toList ++ fmt_i d)
      = .matched (toUInt32 a, toUInt32 b, toUInt32 c, toUInt32 d) [] := by
  have hform : fmt_i a ++ ", ".toList ++ fmt_i b ++ ", ".toList ++ fmt_i c
        ++ ", ".toList ++ fmt_i d
      = fmt_i a ++ ',' :: ' ' :: (fmt_i b ++ (',' :: ' ' :: (fmt_i c
          ++ (',' :: ' ' :: (fmt_i d ++ []))))) := by
    have : ", ".toList = [',', ' '] := rfl
    simp [this]
  rw [hform]
  unfold sscanf_u_u_u_u
  rw [(sscanf_u_u_fmt_i a b ha hb _ (not_digit_head_comma _)).1]
  simp only [(scan_comma_u_fmt_i c _ hc (not_digit_head_comma _)).1,
    (scan_comma_u_fmt_i d _ hd not_digit_head_nil).1]


/-! ## Region attributes: index, split, pad -/

/-- A line made of a literal `<blanks><key>: `, a value and a line terminator. -/
theorem parse_attribute_literal (d : Nat) (lit key value nl : List Char)
    (hlit : lit = List.replicate d ' ' ++ (key ++ [':', ' '])) (hkey : is_key key = true)
    (hvalue : ∀ c ∈ value, c ≠ NUL ∧ c ≠ '\n') (hvlen : value.length < 1024)
    (hnl : is_terminator nl) :
    parse_attribute ((lit ++ value ++ nl).length : Nat) (lit ++ value ++ nl) d
      = .pair key (some value) := by
  simp only [is_key, Bool.and_eq_true, Bool.not_eq_true', List.isEmpty_eq_false,
    List.all_eq_true, decide_eq_true_eq] at hkey
  obtain ⟨⟨⟨⟨h1, h2⟩, h3⟩, h4⟩, _⟩ := hkey
  have hform : lit ++ value ++ nl
      = List.replicate d ' ' ++ (key ++ ':' :: ' ' :: value ++ nl) := by
    rw [hlit]; simp
  rw [hform]
  refine parse_attribute_line d key value nl h1 ?_ ?_ hvalue hnl h4 hvlen
  · intro c hc
    obtain ⟨k, ks, rfl⟩ := List.exists_cons_of_ne_nil h1
    simp only [List.head?_cons, Option.some.injEq] at hc
    subst hc
    exact h3
  · intro c hc
    exact h2 c hc

theorem region_attribute_index (region : TextureAtlas_region) (n : Int) (hn : is_int n) :
    region_attribute region "index".toList (some (fmt_i n))
      = .ok { region with index := n } := by
  unfold region_attribute
  rw [if_neg (by decide), if_neg (by decide), if_neg (by decide), if_neg (by decide),
    if_neg (by decide), if_pos rfl]
  simp only [sscanf_u_fmt_i n hn, toInt32_toUInt32 n hn]

theorem region_attribute_split (region : TextureAtlas_region) (a b c d : Int)
    (ha : is_int a) (hb : is_int b) (hc : is_int c) (hd : is_int d) :
    region_attribute region "split".toList (some (fmt_i a ++ ", ".toList ++ fmt_i b
        ++ ", ".toList ++ fmt_i c ++ ", ".toList ++ fmt_i d))
      = .ok { region with splits := some (a, b, c, d) } := by
  unfold region_attribute
  rw [if_neg (by decide), if_neg (by decide), if_neg (by decide), if_neg (by decide),
    if_neg (by decide), if_neg (by decide), if_pos rfl]
  simp only [sscanf_u_u_u_u_fmt_i a b c d ha hb hc hd, toInt32_toUInt32 a ha,
    toInt32_toUInt32 b hb, toInt32_toUInt32 c hc, toInt32_toUInt32 d hd]

theorem region_attribute_pad (region : TextureAtlas_region) (a b c d : Int)
    (ha : is_int a) (hb : is_int b) (hc : is_int c) (hd : is_int d) :
    region_attribute region "pad".toList (some (fmt_i a ++ ", ".toList ++ fmt_i b
        ++ ", ".toList ++ fmt_i c ++ ", ".toList ++ fmt_i d))
      = .ok { region with pads := some (a, b, c, d) } := by
  unfold region_attribute
  rw [if_neg (by decide), if_neg (by decide), if_neg (by decide), if_neg (by decide),
    if_neg (by decide), if_neg (by decide), if_neg (by decide), if_pos rfl]
  simp only [sscanf_u_u_u_u_fmt_i a b c d ha hb hc hd, toInt32_toUInt32 a ha,
    toInt32_toUInt32 b hb, toInt32_toUInt32 c hc, toInt32_toUInt32 d hd]

theorem four_numbers_chars (a b c d : Int) (ha : is_int a) (hb : is_int b)
    (hc : is_int c) (hd : is_int d) :
    (∀ x ∈ fmt_i a ++ ", ".toList ++ fmt_i b ++ ", ".toList ++ fmt_i c ++ ", ".toList
        ++ fmt_i d, x ≠ NUL ∧ x ≠ '\n') ∧
    (fmt_i a ++ ", ".toList ++ fmt_i b ++ ", ".toList ++ fmt_i c ++ ", ".toList
        ++ fmt_i d).length < 1024 := by
  constructor
  · intro x hx
    have hsep : ∀ y ∈ ", ".toList, y ≠ NUL ∧ y ≠ '\n' := by decide
    simp only [List.mem_append] at hx
    rcases hx with (((((h | h) | h) | h) | h) | h) | h
    · exact ⟨(fmt_i_char_facts a x h).2.2.2.1, (fmt_i_char_facts a x h).2.2.1⟩
    · exact hsep x h
    · exact ⟨(fmt_i_char_facts b x h).2.2.2.1, (fmt_i_char_facts b x h).2.2.1⟩
    · exact hsep x h
    · exact ⟨(fmt_i_char_facts c x h).2.2.2.1, (fmt_i_char_facts c x h).2.2.1⟩
    · exact hsep x h
    · exact ⟨(fmt_i_char_facts d x h).2.2.2.1, (fmt_i_char_facts d x h).2.2.1⟩
  · have h1 := fmt_i_length a ha
    have h2 := fmt_i_length b hb
    have h3 := fmt_i_length c hc
    have h4 := fmt_i_length d hd
    have hsep : (", ".toList).length = 2 := rfl
    simp only [List.length_append, hsep]
    omega

theorem parse_attribute_index_line (n : Int) (nl : List Char) (hn : is_int n)
    (hnl : is_terminator nl) :
    parse_attribute ((index_line n nl).length : Nat) (index_line n nl) 2
      = .pair "index".toList (some (fmt_i n)) := by
  unfold index_line
  refine parse_attribute_literal 2 _ "index".toList (fmt_i n) nl (by decide) (by decide) ?_ ?_
    hnl
  · intro c hc
    exact ⟨(fmt_i_char_facts n c hc).2.2.2.1, (fmt_i_char_facts n c hc).2.2.1⟩
  · have := fmt_i_length n hn
    omega

theorem parse_attribute_split_line (a b c d : Int) (nl : List Char)
    (ha : is_int a) (hb : is_int b) (hc : is_int c) (hd : is_int d)
    (hnl : is_terminator nl) :
    parse_attribute ((split_line a b c d nl).length : Nat) (split_line a b c d nl) 2
      = .pair "split".toList (some (fmt_i a ++ ", ".toList ++ fmt_i b ++ ", ".toList
          ++ fmt_i c ++ ", ".toList ++ fmt_i d)) := by
  unfold split_line
  obtain ⟨h1, h2⟩ := four_numbers_chars a b c d ha hb hc hd
  exact parse_attribute_literal 2 _ "split".toList _ nl (by decide) (by decide) h1 h2 hnl

theorem parse_attribute_pad_line (a b c d : Int) (nl : List Char)
    (ha : is_int a) (hb : is_int b) (hc : is_int c) (hd : is_int d)
    (hnl : is_terminator nl) :
    parse_attribute ((pad_line a b c d nl).length : Nat) (pad_line a b c d nl) 2
      = .pair "pad".toList (some (fmt_i a ++ ", ".toList ++ fmt_i b ++ ", ".toList
          ++ fmt_i c ++ ", ".toList ++ fmt_i d)) := by
  unfold pad_line
  obtain ⟨h1, h2⟩ := four_numbers_chars a b c d ha hb hc hd
  exact parse_attribute_literal 2 _ "pad".toList _ nl (by decide) (by decide) h1 h2 hnl

/-- The last line with key `K` of a region block decides a property that only lines with
this key can change. -/
theorem region_attribute_lines_last (P : TextureAtlas_region → Prop) (K : List Char)
    (hP : ∀ region key value region2, key ≠ K →
      region_attribute region key value = .ok region2 → P region → P region2)
    (pre post : List (List Char)) (l value : List Char)
    (region region2 : TextureAtlas_region)
    (hpre : pre.all (is_attribute_line 2) = true)
    (hl : parse_attribute l.length l 2 = .pair K (some value))
    (hset : ∀ q q2, region_attribute q K (some value) = .ok q2 → P q2)
    (hpost : ∀ x ∈ post, attribute_key 2 x ≠ some K)
    (h : region_attribute_lines region (pre ++ l :: post) = .ok region2) : P region2 := by
  obtain ⟨region1, _, h2⟩ := region_attribute_lines_split pre l post region region2 hpre h
  cases hq : region_attribute region1 K (some value) with
  | error => simp only [region_attribute_lines, hl, hq] at h2; cases h2
  | undefined => simp only [region_attribute_lines, hl, hq] at h2; cases h2
  | ok region3 =>
    simp only [region_attribute_lines, hl, hq] at h2
    exact region_attribute_lines_keeps P K hP post region3 region2 hpost h2 (hset _ _ hq)

theorem shaped_region_attributes (blocks : List PageBlock)
    (hshape : blocks.all PageBlock.shaped = true) (i j : Nat) (b : PageBlock)
    (rb : RegionBlock) (hb : blocks[i]? = some b) (hrb : b.regions[j]? = some rb) :
    rb.attributes.all (is_attribute_line 2) = true := by
  have hbm : b ∈ blocks := List.getElem?_mem hb
  have hbs := List.all_eq_true.mp hshape b hbm
  simp only [PageBlock.shaped, Bool.and_eq_true] at hbs
  obtain ⟨_, hregs⟩ := hbs
  cases hr : b.regions with
  | nil => rw [hr] at hrb; simp at hrb
  | cons r rs =>
    rw [hr] at hregs hrb
    simp only [Bool.and_eq_true, Bool.not_eq_true'] at hregs
    cases j with
    | zero =>
      simp only [List.getElem?_cons_zero, Option.some.injEq] at hrb
      subst hrb
      exact hregs.1.2
    | succ j =>
      simp only [List.getElem?_cons_succ] at hrb
      have := List.all_eq_true.mp hregs.2 rb (List.getElem?_mem hrb)
      simp only [RegionBlock.shaped, Bool.and_eq_true] at this
      exact this.2

theorem region_of_block_lines (rb : RegionBlock) (r : TextureAtlas_region)
    (h : region_of_block rb = .ok r) :
    ∃ regionName, region_attribute_lines (new_region regionName) rb.attributes = .ok r := by
  unfold region_of_block at h
  cases hn : read_name rb.nameLine.length rb.nameLine with
  | none => simp only [hn] at h; cases h
  | some regionName => simp only [hn] at h; exact ⟨regionName, h⟩

/-- C9 (optional nine-patch fields): in an atlas returned by the reader, a region whose block
has no `split` line has no splits and one whose block has no `pad` line has no pads; when the
last `split` line of the block is `  split: a, b, c, d` the splits are exactly `(a, b, c, d)`,
and likewise for `pad`.  Each of the four statements holds whatever lines of the other key the
block contains. -/
theorem nine_patch_fields (dir content : List Char) (blocks : List PageBlock)
    (a : TextureAtlas_atlas)
    (hread : TextureAtlas_read dir (some content) = .atlas a)
    (hlines : getlines content = descriptor_lines blocks)
    (hshape : blocks.all PageBlock.shaped = true)
    (i j : Nat) (b : PageBlock) (rb : RegionBlock)
    (hb : blocks[i]? = some b) (hrb : b.regions[j]? = some rb) :
    ∃ r, region_at a i j = some r ∧
      ((∀ l ∈ rb.attributes, attribute_key 2 l ≠ some "split".toList) → r.splits = none) ∧
      ((∀ l ∈ rb.attributes, attribute_key 2 l ≠ some "pad".toList) → r.pads = none) ∧
      (∀ (pre post : List (List Char)) (s0 s1 s2 s3 : Int) (nl : List Char),
        rb.attributes = pre ++ split_line s0 s1 s2 s3 nl :: post →
        is_int s0 → is_int s1 → is_int s2 → is_int s3 → is_terminator nl →
        (∀ l ∈ post, attribute_key 2 l ≠ some "split".toList) →
        r.splits = some (s0, s1, s2, s3)) ∧
      (∀ (pre post : List (List Char)) (p0 p1 p2 p3 : Int) (nl : List Char),
        rb.attributes = pre ++ pad_line p0 p1 p2 p3 nl :: post →
        is_int p0 → is_int p1 → is_int p2 → is_int p3 → is_terminator nl →
        (∀ l ∈ post, attribute_key 2 l ≠ some "pad".toList) →
        r.pads = some (p0, p1, p2, p3)) := by
  obtain ⟨r, hr1, hr2⟩ :=
    read_blocks_region dir content blocks a hread hlines hshape i j b rb hb hrb
  obtain ⟨regionName, hlist⟩ := region_of_block_lines rb r hr2
  have hattrs := shaped_region_attributes blocks hshape i j b rb hb hrb
  refine ⟨r, hr1, ?_, ?_, ?_, ?_⟩
  · intro hno
    exact region_attribute_lines_keeps (fun q => q.splits = none) "split".toList
      (fun q key value q2 hk hq hq1 =>
        ((region_attribute_keeps q q2 key value hq).2.2.2.2.2.2.2.1 hk).trans hq1)
      rb.attributes _ r hno hlist rfl
  · intro hno
    exact region_attribute_lines_keeps (fun q => q.pads = none) "pad".toList
      (fun q key value q2 hk hq hq1 =>
        ((region_attribute_keeps q q2 key value hq).2.2.2.2.2.2.2.2 hk).trans hq1)
      rb.attributes _ r hno hlist rfl
  · intro pre post s0 s1 s2 s3 nl heq h0 h1 h2 h3 hnl hpost
    rw [heq] at hlist hattrs
    have hpre : pre.all (is_attribute_line 2) = true := by
      rw [List.all_append, Bool.and_eq_true] at hattrs
      exact hattrs.1
    exact region_attribute_lines_last (fun q => q.splits = some (s0, s1, s2, s3))
      "split".toList
      (fun q key value q2 hk hq hq1 =>
        ((region_attribute_keeps q q2 key value hq).2.2.2.2.2.2.2.1 hk).trans hq1)
      pre post _ _ _ r hpre (parse_attribute_split_line s0 s1 s2 s3 nl h0 h1 h2 h3 hnl)
      (fun q q2 hq => by
        rw [region_attribute_split q s0 s1 s2 s3 h0 h1 h2 h3] at hq
        cases hq; rfl)
      hpost hlist
  · intro pre post p0 p1 p2 p3 nl heq h0 h1 h2 h3 hnl hpost
    rw [heq] at hlist hattrs
    have hpre : pre.all (is_attribute_line 2) = true := by
      rw [List.all_append, Bool.and_eq_true] at hattrs
      exact hattrs.1
    exact region_attribute_lines_last (fun q => q.pads = some (p0, p1, p2, p3))
      "pad".toList
      (fun q key value q2 hk hq hq1 =>
        ((region_attribute_keeps q q2 key value hq).2.2.2.2.2.2.2.2 hk).trans hq1)
      pre post _ _ _ r hpre (parse_attribute_pad_line p0 p1 p2 p3 nl h0 h1 h2 h3 hnl)
      (fun q q2 hq => by
        rw [region_attribute_pad q p0 p1 p2 p3 h0 h1 h2 h3] at hq
        cases hq; rfl)
      hpost hlist

/-- C10 (index default): in an atlas returned by the reader, a region whose block has no
`index` line has index -1, and a region whose block has `  index: n` as its last `index` line
has index `n`. -/
theorem index_default (dir content : List Char) (blocks : List PageBlock)
    (a : TextureAtlas_atlas)
    (hread : TextureAtlas_read dir (some content) = .atlas a)
    (hlines : getlines content = descriptor_lines blocks)
    (hshape : blocks.all PageBlock.shaped = true)
    (i j : Nat) (b : PageBlock) (rb : RegionBlock)
    (hb : blocks[i]? = some b) (hrb : b.regions[j]? = some rb) :
    ∃ r, region_at a i j = some r ∧
      ((∀ l ∈ rb.attributes, attribute_key 2 l ≠ some "index".toList) → r.index = -1) ∧
      (∀ (pre post : List (List Char)) (n : Int) (nl : List Char),
        rb.attributes = pre ++ index_line n nl :: post →
        is_int n → is_terminator nl →
        (∀ l ∈ post, attribute_key 2 l ≠ some "index".toList) →
        r.index = n) := by
  obtain ⟨r, hr1, hr2⟩ :=
    read_blocks_region dir content blocks a hread hlines hshape i j b rb hb hrb
  obtain ⟨regionName, hlist⟩ := region_of_block_lines rb r hr2
  have hattrs := shaped_region_attributes blocks hshape i j b rb hb hrb
  refine ⟨r, hr1, ?_, ?_⟩
  · intro hno
    exact region_attribute_lines_keeps (fun q => q.index = -1) "index".toList
      (fun q key value q2 hk hq hq1 =>
        ((region_attribute_keeps q q2 key value hq).2.2.2.2.2.2.1 hk).trans hq1)
      rb.attributes _ r hno hlist rfl
  · intro pre post n nl heq hn hnl hpost
    rw [heq] at hlist hattrs
    have hpre : pre.all (is_attribute_line 2) = true := by
      rw [List.all_append, Bool.and_eq_true] at hattrs
      exact hattrs.1
    exact region_attribute_lines_last (fun q => q.index = n) "index".toList
      (fun q key value q2 hk hq hq1 =>
        ((region_attribute_keeps q q2 key value hq).2.2.2.2.2.2.1 hk).trans hq1)
      pre post _ _ _ r hpre (parse_attribute_index_line n nl hn hnl)
      (fun q q2 hq => by
        rw [region_attribute_index q n hn] at hq
        cases hq; rfl)
      hpost hlist


/-- C8, instance: `two_page_example` ends right after the line `  size: 5, 6` of its last
region, without a line terminator; the atlas is returned, its last page is `second.png` and
the last region of that page is `c` with the size and the splits of its block. -/
theorem read_boundary_witness :
    ∃ a p r, TextureAtlas_read [] (some two_page_example) = .atlas a
      ∧ a.pages.getLast? = some p ∧ p.name = "second.png".toList
      ∧ p.regions.getLast? = some r ∧ r.name = "c".toList
      ∧ r.width = 5 ∧ r.height = 6 ∧ r.splits = some (1, 2, 3, 4) := by
  obtain ⟨_, a, p, r, h1, h2, h3, h4, h5⟩ :=
    read_boundary [] two_page_example two_page_blocks (by decide) (by decide) (by decide)
      { nameLine := "second.png\n".toList,
        attributes := ["size: 32, 32\n".toList, "format: Alpha\n".toList,
                       "filter: MipMap, Linear\n".toList, "repeat: xy\n".toList],
        regions := [{ nameLine := "c\n".toList,
                      attributes := ["  split: 1, 2, 3, 4\n".toList, "  size: 5, 6".toList] }] }
      { nameLine := "c\n".toList,
        attributes := ["  split: 1, 2, 3, 4\n".toList, "  size: 5, 6".toList] }
      (by decide) (by decide)
  have hr : region_of_block
      { nameLine := "c\n".toList,
        attributes := ["  split: 1, 2, 3, 4\n".toList, "  size: 5, 6".toList] }
      = .ok { new_region "c".toList with
                width := 5, height := 6, splits := some (1, 2, 3, 4) } := by decide
  rw [hr] at h5
  cases h5
  have hp := page_of_block_name _ _ _ _ h3
  have hn : read_name ("second.png\n".toList.length : Nat) "second.png\n".toList
      = some "second.png".toList := by decide
  rw [hn, Option.some.injEq] at hp
  exact ⟨a, p, _, h1, h2, hp.symm, h4, rfl, rfl, rfl, rfl⟩

/-- C9, instance: region `c` of `two_page_example` has the line `  split: 1, 2, 3, 4` and no
`pad` line: its splits are `(1, 2, 3, 4)` and its pads are absent; region `a` has neither. -/
theorem nine_patch_fields_witness :
    (∃ r, region_at two_page_atlas 1 0 = some r ∧ r.splits = some (1, 2, 3, 4)
      ∧ r.pads = none) ∧
    (∃ r, region_at two_page_atlas 0 0 = some r ∧ r.splits = none ∧ r.pads = none) := by
  constructor
  · obtain ⟨r, h1, _, h3, h4, _⟩ :=
      nine_patch_fields [] two_page_example two_page_blocks two_page_atlas
        (by decide) (by decide) (by decide) 1 0 _ _ rfl rfl
    exact ⟨r, h1,
      h4 [] ["  size: 5, 6".toList] 1 2 3 4 ['\n'] (by decide) (by decide) (by decide)
        (by decide) (by decide) (Or.inr rfl) (by decide),
      h3 (by decide)⟩
  · obtain ⟨r, h1, h2, h3, _, _⟩ :=
      nine_patch_fields [] two_page_example two_page_blocks two_page_atlas
        (by decide) (by decide) (by decide) 0 0 _ _ rfl rfl
    exact ⟨r, h1, h2 (by decide), h3 (by decide)⟩

/-- C10, instance: region `a` of `two_page_example` has the line `  index: 7` and index 7;
region `b` has no `index` line and index -1. -/
theorem index_default_witness :
    (∃ r, region_at two_page_atlas 0 0 = some r ∧ r.index = 7) ∧
    (∃ r, region_at two_page_atlas 0 1 = some r ∧ r.index = -1) := by
  constructor
  · obtain ⟨r, h1, _, h3⟩ :=
      index_default [] two_page_example two_page_blocks two_page_atlas
        (by decide) (by decide) (by decide) 0 0 _ _ rfl rfl
    exact ⟨r, h1,
      h3 ["  xy: 1, 2\n".toList] [] 7 ['\n'] (by decide) (by decide) (Or.inr rfl)
        (by decide)⟩
  · obtain ⟨r, h1, h2, _⟩ :=
      index_default [] two_page_example two_page_blocks two_page_atlas
        (by decide) (by decide) (by decide) 0 1 _ _ rfl rfl
    exact ⟨r, h1, h2 (by decide)⟩


/-! ## The text of the writer -/

theorem attribute_text_eq (d : Nat) (key value : List Char) (lit : List Char)
    (hlit : lit = List.replicate d ' ' ++ (key ++ [':', ' '])) :
    lit ++ value ++ ['\n'] = attribute_text d key value := by
  rw [hlit]; rfl

theorem write_region_lines (r : TextureAtlas_region) :
    write_region r = (written_region_block r).lines.flatten := by
  have e1 := fun v => attribute_text_eq 2 "rotate".toList v "  rotate: ".toList rfl
  have e2 := fun v => attribute_text_eq 2 "xy".toList v "  xy: ".toList rfl
  have e3 := fun v => attribute_text_eq 2 "size".toList v "  size: ".toList rfl
  have e4 := fun v => attribute_text_eq 2 "split".toList v "  split: ".toList rfl
  have e5 := fun v => attribute_text_eq 2 "pad".toList v "  pad: ".toList rfl
  have e6 := fun v => attribute_text_eq 2 "orig".toList v "  orig: ".toList rfl
  have e7 := fun v => attribute_text_eq 2 "offset".toList v "  offset: ".toList rfl
  have e8 := fun v => attribute_text_eq 2 "index".toList v "  index: ".toList rfl
  have hnl : "\n".toList = ['\n'] := rfl
  unfold write_region written_region_block RegionBlock.lines written_region_attributes
  simp only [← e1, ← e2, ← e3, ← e4, ← e5, ← e6, ← e7, ← e8, hnl, two_numbers, four_numbers,
    fmt_u_as_i]
  rcases r.splits with _ | ⟨s0, s1, s2, s3⟩ <;> rcases r.pads with _ | ⟨p0, p1, p2, p3⟩ <;>
    simp [List.flatten, List.append_assoc]


theorem write_regions_lines (rs : List TextureAtlas_region) :
    write_regions rs = (region_blocks_lines (rs.map written_region_block)).flatten := by
  induction rs with
  | nil => rfl
  | cons r rs ih =>
    simp only [write_regions, List.map_cons, region_blocks_lines, List.flatten_cons,
      List.flatten_append, write_region_lines r] at ih ⊢
    rw [ih]

theorem write_page_lines (p : TextureAtlas_page) :
    write_page p = (blank_line :: (written_page_block p).lines).flatten := by
  have e1 := fun v => attribute_text_eq 0 "size".toList v "size: ".toList rfl
  have e2 := fun v => attribute_text_eq 0 "format".toList v "format: ".toList rfl
  have e3 := fun v => attribute_text_eq 0 "filter".toList v "filter: ".toList rfl
  have e4 := fun v => attribute_text_eq 0 "repeat".toList v "repeat: ".toList rfl
  have hnl : "\n".toList = ['\n'] := rfl
  have hc : ",".toList = [','] := rfl
  unfold write_page written_page_block PageBlock.lines written_page_attributes
  simp only [← e1, ← e2, ← e3, ← e4, hnl, hc, two_numbers, write_regions_lines, blank_line]
  simp [List.flatten, List.append_assoc]

theorem write_pages_lines (ps : List TextureAtlas_page) (h : ps ≠ []) :
    write_pages ps = (descriptor_lines (ps.map written_page_block)).flatten := by
  induction ps with
  | nil => exact absurd rfl h
  | cons p ps ih =>
    cases ps with
    | nil =>
      simp only [write_pages, List.map_cons, List.map_nil, descriptor_lines, body_lines,
        List.append_nil, write_page_lines]
    | cons q qs =>
      have ih2 := ih (by simp)
      simp only [write_pages, List.map_cons, descriptor_lines, body_lines,
        write_page_lines] at ih2 ⊢
      rw [ih2]
      simp [List.flatten, List.append_assoc]

theorem getlines_line (body rest : List Char) (h : ∀ c ∈ body, c ≠ '\n') :
    getlines (body ++ '\n' :: rest) = (body ++ ['\n']) :: getlines rest := by
  induction body with
  | nil => simp [getlines]
  | cons c cs ih =>
    have hc := h c (List.mem_cons_self _ _)
    have ih2 := ih (fun x hx => h x (List.mem_cons_of_mem _ hx))
    rw [List.cons_append, getlines, if_neg hc, ih2]
    rfl

theorem getlines_flatten (ls : List (List Char))
    (h : ∀ l ∈ ls, ∃ body, l = body ++ ['\n'] ∧ ∀ c ∈ body, c ≠ '\n') :
    getlines ls.flatten = ls := by
  induction ls with
  | nil => rfl
  | cons l ls ih =>
    obtain ⟨body, hl, hb⟩ := h l (List.mem_cons_self _ _)
    have ih2 := ih (fun x hx => h x (List.mem_cons_of_mem _ hx))
    rw [List.flatten_cons, hl, List.append_assoc, List.singleton_append,
      getlines_line body _ hb, ih2]


theorem token_fidelity_format (f : TextureAtlas_format) (hf : f ≠ .UNDEFINED_FORMAT) :
    parse_format_value (formatEnumToString f) = some f := by
  cases f <;> first | rfl | exact absurd rfl hf

theorem token_fidelity_filter (f : TextureAtlas_filter) (hf : f ≠ .UNDEFINED_FILTER) :
    parse_filter_value (filterEnumToString f) = some f := by
  cases f <;> first | rfl | exact absurd rfl hf

theorem token_fidelity_repeat (r : TextureAtlas_repeat) (hr : r ≠ .UNDEFINED_REPEAT) :
    parse_repeat_value (repeatEnumToString r) = some r := by
  cases r <;> first | rfl | exact absurd rfl hr

theorem is_key_no_newline (key : List Char) (h : is_key key = true) :
    ∀ c ∈ key, c ≠ '\n' := by
  simp only [is_key, Bool.and_eq_true, List.all_eq_true, decide_eq_true_eq] at h
  exact h.2

theorem parse_attribute_text (d : Nat) (key value : List Char) (hk : is_key key = true)
    (hv : is_value value) :
    parse_attribute ((attribute_text d key value).length : Nat) (attribute_text d key value) d
      = .pair key (some value) :=
  parse_attribute_literal d _ key value ['\n'] rfl hk hv.1 hv.2 (Or.inr rfl)

theorem is_attribute_line_text (d : Nat) (key value : List Char) (hk : is_key key = true)
    (hv : is_value value) : is_attribute_line d (attribute_text d key value) = true := by
  rw [is_attribute_line_iff, parse_attribute_text d key value hk hv]
  intro h; cases h

theorem attribute_text_body (d : Nat) (key value : List Char) (hk : is_key key = true)
    (hv : is_value value) :
    ∃ body, attribute_text d key value = body ++ ['\n'] ∧ ∀ c ∈ body, c ≠ '\n' := by
  refine ⟨List.replicate d ' ' ++ (key ++ [':', ' ']) ++ value, rfl, ?_⟩
  intro c hc
  simp only [List.mem_append, List.mem_replicate, List.mem_cons, List.mem_singleton,
    List.not_mem_nil, or_false] at hc
  rcases hc with (⟨_, h⟩ | h | h | h) | h
  · rw [h]; decide
  · exact is_key_no_newline key hk c h
  · rw [h]; decide
  · rw [h]; decide
  · exact (hv.1 c h).2

theorem is_value_fmt_i (v : Int) (hv : is_int v) : is_value (fmt_i v) := by
  refine ⟨fun c hc => ⟨(fmt_i_char_facts v c hc).2.2.2.1, (fmt_i_char_facts v c hc).2.2.1⟩, ?_⟩
  have := fmt_i_length v hv
  omega

theorem is_value_two_numbers (a b : Int) (sep : List Char) (ha : is_int a) (hb : is_int b)
    (hsep : sep = ", ".toList ∨ sep = ",".toList) : is_value (two_numbers a sep b) := by
  have h1 := is_value_fmt_i a ha
  have h2 := is_value_fmt_i b hb
  have h3 : (∀ c ∈ sep, c ≠ NUL ∧ c ≠ '\n') ∧ sep.length ≤ 2 := by
    rcases hsep with rfl | rfl <;> exact ⟨by decide, by decide⟩
  have hl1 := fmt_i_length a ha
  have hl2 := fmt_i_length b hb
  constructor
  · intro c hc
    simp only [two_numbers, List.mem_append] at hc
    rcases hc with (h | h) | h
    · exact h1.1 c h
    · exact h3.1 c h
    · exact h2.1 c h
  · simp only [two_numbers, List.length_append]
    omega

theorem is_value_four_numbers (a b c d : Int) (ha : is_int a) (hb : is_int b)
    (hc : is_int c) (hd : is_int d) : is_value (four_numbers a b c d) :=
  four_numbers_chars a b c d ha hb hc hd

theorem is_value_rotate (b : Bool) :
    is_value (if b then "true".toList else "false".toList) := by
  cases b <;> exact ⟨by decide, by decide⟩

theorem is_value_format (f : TextureAtlas_format) : is_value (formatEnumToString f) := by
  cases f <;> exact ⟨by decide, by decide⟩

theorem is_value_repeat (r : TextureAtlas_repeat) : is_value (repeatEnumToString r) := by
  cases r <;> exact ⟨by decide, by decide⟩

theorem is_value_filter (f : TextureAtlas_filter) : is_value (filterEnumToString f) ∧
    (filterEnumToString f).length ≤ 20 := by
  cases f <;> exact ⟨⟨by decide, by decide⟩, by decide⟩

theorem is_value_filter_pair (a b : TextureAtlas_filter) :
    is_value (filterEnumToString a ++ ',' :: filterEnumToString b) := by
  obtain ⟨h1, h2⟩ := is_value_filter a
  obtain ⟨h3, h4⟩ := is_value_filter b
  constructor
  · intro c hc
    simp only [List.mem_append, List.mem_cons] at hc
    rcases hc with h | h | h
    · exact h1.1 c h
    · rw [h]; decide
    · exact h3.1 c h
  · simp only [List.length_append, List.length_cons]
    omega

theorem region_attribute_rotate (region : TextureAtlas_region) (b : Bool) :
    region_attribute region "rotate".toList
        (some (if b then "true".toList else "false".toList))
      = .ok { region with rotate := b } := by
  unfold region_attribute
  rw [if_pos rfl]
  cases b
  · simp only [Bool.false_eq_true, if_false, if_true]
  · have : "true".toList ≠ "false".toList := by decide
    simp only [if_true, this, if_false]

theorem region_attribute_xy (region : TextureAtlas_region) (a b : Int)
    (ha : is_int a) (hb : is_int b) :
    region_attribute region "xy".toList (some (two_numbers a ", ".toList b))
      = .ok { region with x := toUInt32 a, y := toUInt32 b } := by
  have hs := (sscanf_u_u_fmt_i a b ha hb [] not_digit_head_nil).1
  have hform : two_numbers a ", ".toList b = fmt_i a ++ ',' :: ' ' :: (fmt_i b ++ []) := by
    simp [two_numbers]
  unfold region_attribute
  rw [if_neg (by decide), if_pos (by decide)]
  simp only [hform, hs]

theorem region_attribute_size (region : TextureAtlas_region) (a b : Int)
    (ha : is_int a) (hb : is_int b) :
    region_attribute region "size".toList (some (two_numbers a ", ".toList b))
      = .ok { region with width := toUInt32 a, height := toUInt32 b } := by
  have hs := (sscanf_u_u_fmt_i a b ha hb [] not_digit_head_nil).1
  have hform : two_numbers a ", ".toList b = fmt_i a ++ ',' :: ' ' :: (fmt_i b ++ []) := by
    simp [two_numbers]
  unfold region_attribute
  rw [if_neg (by decide), if_neg (by decide), if_pos rfl]
  simp only [hform, hs]

theorem region_attribute_orig (region : TextureAtlas_region) (a b : Int)
    (ha : is_int a) (hb : is_int b) :
    region_attribute region "orig".toList (some (two_numbers a ", ".toList b))
      = .ok { region with originalWidth := toUInt32 a, originalHeight := toUInt32 b } := by
  have hs := (sscanf_u_u_fmt_i a b ha hb [] not_digit_head_nil).1
  have hform : two_numbers a ", ".toList b = fmt_i a ++ ',' :: ' ' :: (fmt_i b ++ []) := by
    simp [two_numbers]
  unfold region_attribute
  rw [if_neg (by decide), if_neg (by decide), if_neg (by decide), if_pos rfl]
  simp only [hform, hs]

theorem region_attribute_offset (region : TextureAtlas_region) (a b : Int)
    (ha : is_int a) (hb : is_int b) :
    region_attribute region "offset".toList (some (two_numbers a ", ".toList b))
      = .ok { region with offsetX := toUInt32 a, offsetY := toUInt32 b } := by
  have hs := (sscanf_u_u_fmt_i a b ha hb [] not_digit_head_nil).1
  have hform : two_numbers a ", ".toList b = fmt_i a ++ ',' :: ' ' :: (fmt_i b ++ []) := by
    simp [two_numbers]
  unfold region_attribute
  rw [if_neg (by decide), if_neg (by decide), if_neg (by decide), if_neg (by decide),
    if_pos rfl]
  simp only [hform, hs]

theorem page_attribute_size (page : TextureAtlas_page) (w h : Int)
    (hw : is_int w) (hh : is_int h) :
    page_attribute page "size".toList (some (two_numbers w ",".toList h))
      = .ok { page with width := w, height := w } := by
  have hs := (sscanf_u_u_fmt_i w h hw hh [] not_digit_head_nil).2
  have hform : two_numbers w ",".toList h = fmt_i w ++ ',' :: (fmt_i h ++ []) := by
    simp [two_numbers]
  unfold page_attribute
  rw [if_pos rfl]
  simp only [hform, hs, toInt32_toUInt32 w hw]

theorem page_attribute_format (page : TextureAtlas_page) (f : TextureAtlas_format)
    (hf : f ≠ .UNDEFINED_FORMAT) :
    page_attribute page "format".toList (some (formatEnumToString f))
      = .ok { page with format := f } := by
  unfold page_attribute
  rw [if_neg (by decide), if_pos rfl]
  simp only [token_fidelity_format f hf]

theorem page_attribute_repeat (page : TextureAtlas_page) (r : TextureAtlas_repeat)
    (hr : r ≠ .UNDEFINED_REPEAT) :
    page_attribute page "repeat".toList (some (repeatEnumToString r))
      = .ok { page with repeat_ := r } := by
  unfold page_attribute
  rw [if_neg (by decide), if_neg (by decide), if_neg (by decide), if_pos rfl]
  simp only [token_fidelity_repeat r hr]

theorem parse_filter_pair_tokens (a b : TextureAtlas_filter)
    (ha : a ≠ .UNDEFINED_FILTER) (hb : b ≠ .UNDEFINED_FILTER) :
    parse_filter_pair (filterEnumToString a ++ ',' :: filterEnumToString b) = some (a, b) := by
  cases a <;> cases b <;> first | decide | exact absurd rfl ha | exact absurd rfl hb

theorem page_attribute_filter (page : TextureAtlas_page) (a b : TextureAtlas_filter)
    (ha : a ≠ .UNDEFINED_FILTER) (hb : b ≠ .UNDEFINED_FILTER) :
    page_attribute page "filter".toList
        (some (filterEnumToString a ++ ',' :: filterEnumToString b))
      = .ok { page with minificationFilter := a, magnificationFilter := b } := by
  unfold page_attribute
  rw [if_neg (by decide), if_neg (by decide), if_pos rfl]
  simp only [parse_filter_pair_tokens a b ha hb]


theorem read_name_of_name (name : List Char) (h : is_name name) :
    read_name ((name ++ ['\n']).length : Nat) (name ++ ['\n']) = some name ∧
    read_name (name.length : Nat) name = some name := by
  obtain ⟨hne, hc⟩ := h
  have hlen : 0 < name.length := List.length_pos.mpr hne
  have hnul : ∀ c ∈ name, c ≠ NUL := fun c hx => (hc c hx).1
  constructor
  · unfold read_name
    have h1 : (((name ++ ['\n']).length : Nat) : Int) = (name.length : Int) + 1 := by
      simp
    rw [h1, if_neg (by omega)]
    have h2 : charAt (name ++ ['\n']) ((name.length : Int) + 1 - 1).toNat = '\n' := by
      have : ((name.length : Int) + 1 - 1).toNat = name.length + 0 := by omega
      rw [this, charAt_append_right]; rfl
    simp only [h2, if_true]
    rw [if_neg (by omega)]
    have h3 : ((name.length : Int) + 1 - 1).toNat = name.length := by omega
    rw [h3, List.take_left', cstr_of_no_nul name hnul]
    rfl
  · unfold read_name
    rw [if_neg (by omega)]
    have h2 : charAt name ((name.length : Int) - 1).toNat ≠ '\n' := by
      have : ((name.length : Int) - 1).toNat = name.length - 1 := by omega
      rw [this]
      exact (hc _ (charAt_last_mem name hne)).2
    simp only [h2, if_false]
    rw [if_neg (by omega)]
    have h3 : ((name.length : Nat) : Int).toNat = name.length := by omega
    rw [h3, List.take_length, cstr_of_no_nul name hnul]

theorem region_attribute_lines_text (q q2 : TextureAtlas_region) (key value : List Char)
    (rest : List (List Char)) (hk : is_key key = true) (hv : is_value value)
    (h : region_attribute q key (some value) = .ok q2) :
    region_attribute_lines q (attribute_text 2 key value :: rest)
      = region_attribute_lines q2 rest := by
  have := parse_attribute_text 2 key value hk hv
  simp only [Nat.cast_ofNat] at this
  simp only [region_attribute_lines, this, h]

theorem page_attribute_lines_text (q q2 : TextureAtlas_page) (key value : List Char)
    (rest : List (List Char)) (hk : is_key key = true) (hv : is_value value)
    (h : page_attribute q key (some value) = .ok q2) :
    page_attribute_lines q (attribute_text 0 key value :: rest)
      = page_attribute_lines q2 rest := by
  have := parse_attribute_text 0 key value hk hv
  simp only [Nat.cast_zero] at this
  simp only [page_attribute_lines, this, h]

theorem region_attribute_lines_written (r : TextureAtlas_region) (h : region_valid r) :
    region_attribute_lines (new_region r.name) (written_region_attributes r) = .ok r := by
  obtain ⟨_, hx, hy, hw, hh, how, hoh, hox, hoy, hi, hs, hp⟩ := h
  have ix := toInt32_range r.x
  have iy := toInt32_range r.y
  have iw := toInt32_range r.width
  have ih := toInt32_range r.height
  have iow := toInt32_range r.originalWidth
  have ioh := toInt32_range r.originalHeight
  have iox := toInt32_range r.offsetX
  have ioy := toInt32_range r.offsetY
  have hsep : (", ".toList = ", ".toList ∨ ", ".toList = ",".toList) := Or.inl rfl
  unfold written_region_attributes
  simp only [List.cons_append, List.nil_append]
  rw [region_attribute_lines_text _ _ _ _ _ (by decide) (is_value_rotate r.rotate)
      (region_attribute_rotate _ r.rotate),
    region_attribute_lines_text _ _ _ _ _ (by decide)
      (is_value_two_numbers _ _ _ ix iy hsep) (region_attribute_xy _ _ _ ix iy),
    region_attribute_lines_text _ _ _ _ _ (by decide)
      (is_value_two_numbers _ _ _ iw ih hsep) (region_attribute_size _ _ _ iw ih)]
  have htail : ∀ q : TextureAtlas_region,
      region_attribute_lines q
        [attribute_text 2 "orig".toList
          (two_numbers (toInt32 r.originalWidth) ", ".toList (toInt32 r.originalHeight)),
         attribute_text 2 "offset".toList
          (two_numbers (toInt32 r.offsetX) ", ".toList (toInt32 r.offsetY)),
         attribute_text 2 "index".toList (fmt_i r.index)]
        = .ok { q with originalWidth := r.originalWidth, originalHeight := r.originalHeight,
                       offsetX := r.offsetX, offsetY := r.offsetY, index := r.index } := by
    intro q
    rw [region_attribute_lines_text _ _ _ _ _ (by decide)
        (is_value_two_numbers _ _ _ iow ioh hsep) (region_attribute_orig _ _ _ iow ioh),
      region_attribute_lines_text _ _ _ _ _ (by decide)
        (is_value_two_numbers _ _ _ iox ioy hsep) (region_attribute_offset _ _ _ iox ioy),
      region_attribute_lines_text _ _ _ _ _ (by decide)
        (is_value_fmt_i _ hi) (region_attribute_index _ _ hi)]
    simp only [region_attribute_lines, toUInt32_toInt32 _ how, toUInt32_toInt32 _ hoh,
      toUInt32_toInt32 _ hox, toUInt32_toInt32 _ hoy]
  have hfin : ∀ (s : Option (Int × Int × Int × Int)) (p : Option (Int × Int × Int × Int)),
      s = r.splits → p = r.pads →
      ({ name := r.name, rotate := r.rotate, x := r.x, y := r.y, width := r.width,
         height := r.height, originalWidth := r.originalWidth,
         originalHeight := r.originalHeight, offsetX := r.offsetX, offsetY := r.offsetY,
         index := r.index, splits := s, pads := p } : TextureAtlas_region) = r := by
    intro s p hs hp
    subst hs; subst hp
    rfl
  rcases hsp : r.splits with _ | ⟨s0, s1, s2, s3⟩ <;>
    rcases hpd : r.pads with _ | ⟨p0, p1, p2, p3⟩
  · simp only [List.nil_append]
    rw [htail _]
    simp only [new_region, toUInt32_toInt32 _ hx, toUInt32_toInt32 _ hy,
      toUInt32_toInt32 _ hw, toUInt32_toInt32 _ hh, Step.ok.injEq]
    exact hfin _ _ hsp.symm hpd.symm
  · obtain ⟨j0, j1, j2, j3⟩ := hp p0 p1 p2 p3 hpd
    simp only [List.nil_append, List.cons_append]
    rw [region_attribute_lines_text _ _ _ _ _ (by decide)
        (is_value_four_numbers _ _ _ _ j0 j1 j2 j3)
        (region_attribute_pad _ _ _ _ _ j0 j1 j2 j3),
      htail _]
    simp only [new_region, toUInt32_toInt32 _ hx, toUInt32_toInt32 _ hy,
      toUInt32_toInt32 _ hw, toUInt32_toInt32 _ hh, Step.ok.injEq]
    exact hfin _ _ hsp.symm hpd.symm
  · obtain ⟨k0, k1, k2, k3⟩ := hs s0 s1 s2 s3 hsp
    simp only [List.nil_append, List.cons_append]
    rw [region_attribute_lines_text _ _ _ _ _ (by decide)
        (is_value_four_numbers _ _ _ _ k0 k1 k2 k3)
        (region_attribute_split _ _ _ _ _ k0 k1 k2 k3),
      htail _]
    simp only [new_region, toUInt32_toInt32 _ hx, toUInt32_toInt32 _ hy,
      toUInt32_toInt32 _ hw, toUInt32_toInt32 _ hh, Step.ok.injEq]
    exact hfin _ _ hsp.symm hpd.symm
  · obtain ⟨k0, k1, k2, k3⟩ := hs s0 s1 s2 s3 hsp
    obtain ⟨j0, j1, j2, j3⟩ := hp p0 p1 p2 p3 hpd
    simp only [List.nil_append, List.cons_append]
    rw [region_attribute_lines_text _ _ _ _ _ (by decide)
        (is_value_four_numbers _ _ _ _ k0 k1 k2 k3)
        (region_attribute_split _ _ _ _ _ k0 k1 k2 k3),
      region_attribute_lines_text _ _ _ _ _ (by decide)
        (is_value_four_numbers _ _ _ _ j0 j1 j2 j3)
        (region_attribute_pad _ _ _ _ _ j0 j1 j2 j3),
      htail _]
    simp only [new_region, toUInt32_toInt32 _ hx, toUInt32_toInt32 _ hy,
      toUInt32_toInt32 _ hw, toUInt32_toInt32 _ hh, Step.ok.injEq]
    exact hfin _ _ hsp.symm hpd.symm


theorem region_of_block_written (r : TextureAtlas_region) (h : region_valid r) :
    region_of_block (written_region_block r) = .ok r := by
  unfold region_of_block written_region_block
  simp only [(read_name_of_name r.name h.1).1]
  exact region_attribute_lines_written r h

theorem regions_of_blocks_written (rs : List TextureAtlas_region)
    (h : ∀ r ∈ rs, region_valid r) :
    regions_of_blocks (rs.map written_region_block) = .ok rs := by
  induction rs with
  | nil => rfl
  | cons r rs ih =>
    have h1 := region_of_block_written r (h r (List.mem_cons_self _ _))
    have h2 := ih (fun x hx => h x (List.mem_cons_of_mem _ hx))
    simp only [List.map_cons, regions_of_blocks, h1, h2]

theorem page_attribute_lines_written (dir : List Char) (index : Int) (p : TextureAtlas_page)
    (hw : is_int p.width) (hh : p.height = p.width) (hc : page_complete p = true) :
    page_attribute_lines (new_page dir index p.name) (written_page_attributes p)
      = .ok { new_page dir index p.name with
                width := p.width, height := p.width, format := p.format,
                minificationFilter := p.minificationFilter,
                magnificationFilter := p.magnificationFilter, repeat_ := p.repeat_ } := by
  obtain ⟨_, _, hf, hr, hmin, hmag⟩ := page_complete_fields p hc
  unfold written_page_attributes
  rw [page_attribute_lines_text _ _ _ _ _ (by decide)
      (is_value_two_numbers _ _ _ hw (by rw [hh]; exact hw) (Or.inr rfl))
      (page_attribute_size _ _ _ hw (by rw [hh]; exact hw)),
    page_attribute_lines_text _ _ _ _ _ (by decide) (is_value_format p.format)
      (page_attribute_format _ _ hf),
    page_attribute_lines_text _ _ _ _ _ (by decide)
      (is_value_filter_pair p.minificationFilter p.magnificationFilter)
      (page_attribute_filter _ _ _ hmin hmag),
    page_attribute_lines_text _ _ _ _ _ (by decide) (is_value_repeat p.repeat_)
      (page_attribute_repeat _ _ hr)]
  rfl

theorem page_of_block_written (dir : List Char) (index : Nat) (p : TextureAtlas_page)
    (h : page_valid index p) :
    page_of_block dir index (written_page_block p) = .ok (relocate_page dir p) := by
  obtain ⟨hi, hn, hh, hw, hc, hr, _, hne⟩ := h
  obtain ⟨r, rs, hrs⟩ := List.exists_cons_of_ne_nil hne
  have hregs := regions_of_blocks_written p.regions hr
  have hcomplete : page_complete
      { new_page dir index p.name with
          width := p.width, height := p.width, format := p.format,
          minificationFilter := p.minificationFilter,
          magnificationFilter := p.magnificationFilter, repeat_ := p.repeat_ } = true := by
    have := hc
    simp only [page_complete, hh] at this ⊢
    exact this
  unfold page_of_block
  simp only [written_page_block, (read_name_of_name p.name hn).1,
    page_attribute_lines_written dir index p hw hh hc, hcomplete, if_true]
  rw [hrs] at hregs ⊢
  simp only [List.map_cons] at hregs ⊢
  simp only [hregs, Step.ok.injEq]
  simp only [relocate_page, new_page, List.nil_append, ← hi, ← hh, ← hrs]

theorem pages_of_blocks_written (dir : List Char) :
    ∀ (ps done : List TextureAtlas_page),
      (∀ (k : Nat) (p : TextureAtlas_page), ps[k]? = some p → page_valid (done.length + k) p) →
      pages_of_blocks dir done (ps.map written_page_block)
        = .ok (done ++ ps.map (relocate_page dir)) := by
  intro ps
  induction ps with
  | nil => intro done _; simp [pages_of_blocks]
  | cons p ps ih =>
    intro done h
    have hp := h 0 p (by simp)
    have h1 := page_of_block_written dir done.length p hp
    simp only [List.map_cons, pages_of_blocks, h1]
    rw [ih (done ++ [relocate_page dir p])]
    · simp
    · intro k q hq
      have := h (k + 1) q (by simpa using hq)
      have hl : (done ++ [relocate_page dir p]).length + k = done.length + (k + 1) := by
        simp only [List.length_append, List.length_singleton]; omega
      rw [hl]
      exact this


theorem getlines_text_lines (content : List Char) (hnul : ∀ c ∈ content, c ≠ NUL) :
    ∀ l ∈ getlines content, is_text_line l := by
  induction content with
  | nil => intro l hl; simp [getlines] at hl
  | cons c cs ih =>
    have hc := hnul c (List.mem_cons_self _ _)
    have ih2 := ih (fun x hx => hnul x (List.mem_cons_of_mem _ hx))
    intro l hl
    by_cases hcn : c = '\n'
    · simp only [getlines, hcn, if_true, List.mem_cons] at hl
      rcases hl with rfl | hl
      · refine ⟨by simp, ?_, [], ['\n'], rfl, by simp, Or.inr rfl⟩
        intro x hx
        rw [List.mem_singleton] at hx
        rw [hx]; decide
      · exact ih2 l hl
    · simp only [getlines, hcn, if_false] at hl
      cases hg : getlines cs with
      | nil =>
        rw [hg] at hl
        simp only [List.mem_singleton] at hl
        subst hl
        refine ⟨by simp, ?_, [c], [], rfl, ?_, Or.inl rfl⟩
        · intro x hx
          rw [List.mem_singleton] at hx
          rw [hx]; exact hc
        · intro x hx
          rw [List.mem_singleton] at hx
          rw [hx]; exact hcn
      | cons l2 ls =>
        rw [hg] at hl ih2
        simp only [List.mem_cons] at hl
        rcases hl with rfl | hl
        · obtain ⟨_, h2, body, nl, h3, h4, h5⟩ := ih2 l2 (List.mem_cons_self _ _)
          refine ⟨by simp, ?_, c :: body, nl, by rw [h3]; rfl, ?_, h5⟩
          · intro x hx
            rcases List.mem_cons.mp hx with rfl | hx
            · exact hc
            · exact h2 x hx
          · intro x hx
            rcases List.mem_cons.mp hx with rfl | hx
            · exact hcn
            · exact h4 x hx
        · exact ih2 l (List.mem_cons_of_mem _ hl)

theorem read_name_text_line (l n : List Char) (hl : is_text_line l)
    (h : read_name l.length l = some n) :
    is_name n ∧ (l = n ++ ['\n'] ∨ l = n) := by
  obtain ⟨hne, hnul, body, nl, hb, hbody, hnl⟩ := hl
  rcases hnl with rfl | rfl
  · rw [List.append_nil] at hb
    subst hb
    have hname : is_name l := ⟨hne, fun c hc => ⟨hnul c hc, hbody c hc⟩⟩
    rw [(read_name_of_name l hname).2] at h
    cases h
    exact ⟨hname, Or.inr rfl⟩
  · subst hb
    by_cases hbe : body = []
    · subst hbe
      simp [read_name, charAt] at h
    · have hname : is_name body :=
        ⟨hbe, fun c hc => ⟨hnul c (List.mem_append_left _ hc), hbody c hc⟩⟩
      rw [(read_name_of_name body hname).1] at h
      cases h
      exact ⟨hname, Or.inl rfl⟩

theorem strchr_append_other (M : List Char) (c x : Char) (hx : x ≠ c) :
    strchr (M ++ [x]) c = strchr M c := by
  induction M with
  | nil =>
    simp only [List.nil_append, strchr, hx, if_false]
    split_ifs <;> rfl
  | cons m ms ih =>
    rw [List.cons_append, strchr, strchr, ih]

theorem split_at_colon_notAttribute (k : Int) (L : List Char) :
    split_at_colon k L = .notAttribute ↔ strchr L ':' = none := by
  unfold split_at_colon
  cases strchr L ':' with
  | none => simp
  | some tokenPos =>
    simp only [reduceCtorEq, iff_false]
    intro h
    repeat' split at h
    all_goals cases h

theorem parse_unindented_newline (M : List Char) (hM : ∀ c ∈ M, c ≠ '\n')
    (h : parse_unindented (M.length : Nat) M = .notAttribute) :
    parse_unindented ((M.length : Nat) + 1) (M ++ ['\n']) = .notAttribute := by
  have hlast : charAt (M ++ ['\n']) (((M.length : Nat) : Int) + 1 - 1).toNat = '\n' := by
    have : (((M.length : Nat) : Int) + 1 - 1).toNat = M.length + 0 := by omega
    rw [this, charAt_append_right]; rfl
  by_cases hne : M = []
  · subst hne
    simp [parse_unindented, charAt]
  · have hpos : 0 < M.length := List.length_pos.mpr hne
    have hlastM : charAt M (((M.length : Nat) : Int) - 1).toNat ≠ '\n' := by
      have : (((M.length : Nat) : Int) - 1).toNat = M.length - 1 := by omega
      rw [this]
      exact hM _ (charAt_last_mem M hne)
    have h0 : charAt (M ++ ['\n']) 0 = charAt M 0 := charAt_append_left _ _ _ hpos
    unfold parse_unindented at h ⊢
    rw [if_neg (by omega)] at h ⊢
    simp only [hlast, hlastM, if_true, if_false] at h ⊢
    have hsub : ((M.length : Nat) : Int) + 1 - 1 = (M.length : Nat) := by omega
    rw [hsub, h0]
    rw [if_neg (by omega)] at h ⊢
    by_cases hsp : isspace (charAt M 0) = true
    · simp only [hsp, if_true]
    · simp only [hsp] at h ⊢
      simp only [Bool.false_eq_true, if_false] at h ⊢
      rw [split_at_colon_notAttribute] at h ⊢
      rw [strchr_append_other M ':' '\n' (by decide)]
      exact h

theorem is_attribute_line_newline (d : Nat) (n : List Char) (hd : d = 0 ∨ d = 2)
    (hn : ∀ c ∈ n, c ≠ '\n')
    (h : is_attribute_line d n = false) : is_attribute_line d (n ++ ['\n']) = false := by
  rw [is_attribute_line_false_iff] at h ⊢
  have hlen : (((n ++ ['\n']).length : Nat) : Int) = (n.length : Nat) + 1 := by simp
  rcases hd with rfl | rfl
  · rw [Nat.cast_zero, parse_attribute_zero] at h ⊢
    rw [if_neg (by omega)] at h
    rw [if_neg (by omega), hlen]
    exact parse_unindented_newline n hn h
  · have h2 : ((2 : Nat) : Int) = 2 := rfl
    rw [h2, parse_attribute_pos _ _ _ (by norm_num)] at h ⊢
    rw [hlen]
    by_cases hlt : n.length < 2
    · by_cases hlt2 : n.length < 1
      · rw [if_pos (by omega)]
      · rw [if_neg (by omega)]
        have h1 : n.length = 1 := by omega
        have hany : (List.range (2 : Int).toNat).any
            (fun i => decide (charAt (n ++ ['\n']) i ≠ ' ')) = true := by
          rw [List.any_eq_true]
          refine ⟨1, by simp, ?_⟩
          have : charAt (n ++ ['\n']) 1 = '\n' := by
            have := charAt_append_right n ['\n'] 0
            rw [h1] at this
            exact this
          rw [this]; decide
        rw [if_pos hany]
    · rw [if_neg (by omega)] at h ⊢
      have hsame : (List.range (2 : Int).toNat).any
            (fun i => decide (charAt (n ++ ['\n']) i ≠ ' '))
          = (List.range (2 : Int).toNat).any (fun i => decide (charAt n i ≠ ' ')) := by
        have e0 : charAt (n ++ ['\n']) 0 = charAt n 0 := charAt_append_left _ _ _ (by omega)
        have e1 : charAt (n ++ ['\n']) 1 = charAt n 1 := charAt_append_left _ _ _ (by omega)
        have hr : (2 : Int).toNat = 2 := rfl
        simp only [hr, List.range, List.range.loop, List.any_cons, List.any_nil, e0, e1]
      rw [hsame]
      by_cases hany : (List.range (2 : Int).toNat).any
          (fun i => decide (charAt n i ≠ ' ')) = true
      · rw [if_pos hany]
      · rw [if_neg hany] at h ⊢
        have hr : (2 : Int).toNat = 2 := rfl
        have hdrop : (n ++ ['\n']).drop 2 = n.drop 2 ++ ['\n'] := by
          rw [List.drop_append_of_le_length (by omega)]
        have hl2 : ((n.length : Nat) : Int) - 2 = ((n.drop 2).length : Nat) := by
          rw [List.length_drop]; omega
        have hl3 : ((n.length : Nat) : Int) + 1 - 2 = ((n.drop 2).length : Nat) + 1 := by
          rw [List.length_drop]; omega
        rw [hr, hl2] at h
        rw [hr, hdrop, hl3]
        exact parse_unindented_newline (n.drop 2)
          (fun c hc => hn c (List.mem_of_mem_drop hc)) h


theorem scan_u_lt (s : List Char) (v : Nat) (rest : List Char)
    (h : scan_u s = .matched v rest) : v < 4294967296 := by
  unfold scan_u at h
  simp only at h
  split_ifs at h
  all_goals
    injection h with hv _
    subst hv
    first | exact Nat.mod_lt _ (by norm_num) | omega

theorem scan_comma_u_lt (s : List Char) (v : Nat) (rest : List Char)
    (h : scan_comma_u s = .matched v rest) : v < 4294967296 := by
  unfold scan_comma_u at h
  split at h
  · exact scan_u_lt _ _ _ h
  · cases h

theorem sscanf_u_u_lt (s : List Char) (a b : Nat) (rest : List Char)
    (h : sscanf_u_u s = .matched (a, b) rest) : a < 4294967296 ∧ b < 4294967296 := by
  unfold sscanf_u_u at h
  cases h1 : scan_u s with
  | mismatch => simp only [h1] at h; cases h
  | overflow => simp only [h1] at h; cases h
  | matched a1 r1 =>
    simp only [h1] at h
    cases h2 : scan_comma_u r1 with
    | mismatch => simp only [h2] at h; cases h
    | overflow => simp only [h2] at h; cases h
    | matched b1 r2 =>
      simp only [h2, Scanned.matched.injEq, Prod.mk.injEq] at h
      obtain ⟨⟨ha, hb⟩, _⟩ := h
      subst ha; subst hb
      exact ⟨scan_u_lt _ _ _ h1, scan_comma_u_lt _ _ _ h2⟩

theorem new_region_numbers_valid (name : List Char) :
    region_numbers_valid (new_region name) := by
  have h1 : toUInt32 (-1) < 4294967296 := by decide
  have h2 : is_int (-1) := by decide
  refine ⟨h1, h1, h1, h1, h1, h1, h1, h1, h2, ?_, ?_⟩
  · intro _ _ _ _ h; cases h
  · intro _ _ _ _ h; cases h

theorem region_attribute_numbers (q q2 : TextureAtlas_region) (key : List Char)
    (value : Option (List Char)) (h : region_attribute q key value = .ok q2)
    (hq : region_numbers_valid q) : region_numbers_valid q2 := by
  obtain ⟨hx, hy, hw, hh, how, hoh, hox, hoy, hi, hs, hp⟩ := hq
  unfold region_attribute at h
  repeat' split at h
  all_goals first
    | (injection h with h; subst h
       first
        | exact ⟨hx, hy, hw, hh, how, hoh, hox, hoy, hi, hs, hp⟩
        | (rename_i heq
           have hb := sscanf_u_u_lt _ _ _ _ heq
           first
            | exact ⟨hb.1, hb.2, hw, hh, how, hoh, hox, hoy, hi, hs, hp⟩
            | exact ⟨hx, hy, hb.1, hb.2, how, hoh, hox, hoy, hi, hs, hp⟩
            | exact ⟨hx, hy, hw, hh, hb.1, hb.2, hox, hoy, hi, hs, hp⟩
            | exact ⟨hx, hy, hw, hh, how, hoh, hb.1, hb.2, hi, hs, hp⟩)
        | exact ⟨hx, hy, hw, hh, how, hoh, hox, hoy, toInt32_range _, hs, hp⟩
        | (refine ⟨hx, hy, hw, hh, how, hoh, hox, hoy, hi, ?_, hp⟩
           intro s0 s1 s2 s3 he
           simp only [Option.some.injEq, Prod.mk.injEq] at he
           obtain ⟨rfl, rfl, rfl, rfl⟩ := he
           exact ⟨toInt32_range _, toInt32_range _, toInt32_range _, toInt32_range _⟩)
        | (refine ⟨hx, hy, hw, hh, how, hoh, hox, hoy, hi, hs, ?_⟩
           intro s0 s1 s2 s3 he
           simp only [Option.some.injEq, Prod.mk.injEq] at he
           obtain ⟨rfl, rfl, rfl, rfl⟩ := he
           exact ⟨toInt32_range _, toInt32_range _, toInt32_range _, toInt32_range _⟩))
    | (injection h)

theorem region_attribute_lines_numbers :
    ∀ (attrs : List (List Char)) (q q2 : TextureAtlas_region),
      region_attribute_lines q attrs = .ok q2 → region_numbers_valid q →
      region_numbers_valid q2 := by
  intro attrs
  induction attrs with
  | nil =>
    intro q q2 h hq
    simp only [region_attribute_lines, Step.ok.injEq] at h
    rw [← h]; exact hq
  | cons l ls ih =>
    intro q q2 h hq
    cases hpa : parse_attribute l.length l 2 with
    | notAttribute =>
      simp only [region_attribute_lines, hpa, Step.ok.injEq] at h
      rw [← h]; exact hq
    | undefined => simp only [region_attribute_lines, hpa] at h; cases h
    | pair key value =>
      cases hr : region_attribute q key value with
      | error => simp only [region_attribute_lines, hpa, hr] at h; cases h
      | undefined => simp only [region_attribute_lines, hpa, hr] at h; cases h
      | ok q3 =>
        simp only [region_attribute_lines, hpa, hr] at h
        exact ih q3 q2 h (region_attribute_numbers q q3 key value hr hq)

theorem page_attribute_size_inv (q q2 : TextureAtlas_page) (key : List Char)
    (value : Option (List Char)) (h : page_attribute q key value = .ok q2)
    (hq : q.height = q.width ∧ is_int q.width) : q2.height = q2.width ∧ is_int q2.width := by
  unfold page_attribute at h
  repeat' split at h
  all_goals first
    | (injection h with h; subst h
       first
        | exact hq
        | exact ⟨rfl, toInt32_range _⟩)
    | (injection h)

theorem page_attribute_lines_size_inv :
    ∀ (attrs : List (List Char)) (q q2 : TextureAtlas_page),
      page_attribute_lines q attrs = .ok q2 → (q.height = q.width ∧ is_int q.width) →
      (q2.height = q2.width ∧ is_int q2.width) := by
  intro attrs
  induction attrs with
  | nil =>
    intro q q2 h hq
    simp only [page_attribute_lines, Step.ok.injEq] at h
    rw [← h]; exact hq
  | cons l ls ih =>
    intro q q2 h hq
    cases hpa : parse_attribute l.length l 0 with
    | notAttribute =>
      simp only [page_attribute_lines, hpa, Step.ok.injEq] at h
      rw [← h]; exact hq
    | undefined => simp only [page_attribute_lines, hpa] at h; cases h
    | pair key value =>
      cases hr : page_attribute q key value with
      | error => simp only [page_attribute_lines, hpa, hr] at h; cases h
      | undefined => simp only [page_attribute_lines, hpa, hr] at h; cases h
      | ok q3 =>
        simp only [page_attribute_lines, hpa, hr] at h
        exact ih q3 q2 h (page_attribute_size_inv q q3 key value hr hq)


theorem is_attribute_line_text2 (key value : List Char) (hk : is_key key = true)
    (hv : is_value value) : is_attribute_line 2 (attribute_text 2 key value) = true :=
  is_attribute_line_text 2 key value hk hv

theorem is_attribute_line_text0 (key value : List Char) (hk : is_key key = true)
    (hv : is_value value) : is_attribute_line 0 (attribute_text 0 key value) = true :=
  is_attribute_line_text 0 key value hk hv

theorem region_of_block_valid (rb : RegionBlock) (r : TextureAtlas_region)
    (hl : is_text_line rb.nameLine) (h : region_of_block rb = .ok r) :
    region_valid r ∧ (rb.nameLine = r.name ++ ['\n'] ∨ rb.nameLine = r.name) := by
  have hname := region_of_block_name rb r h
  obtain ⟨h1, h2⟩ := read_name_text_line _ _ hl hname
  obtain ⟨regionName, hlist⟩ := region_of_block_lines rb r h
  exact ⟨⟨h1, region_attribute_lines_numbers _ _ _ hlist (new_region_numbers_valid _)⟩, h2⟩

theorem written_region_attributes_shaped (r : TextureAtlas_region)
    (h : region_numbers_valid r) :
    (written_region_attributes r).all (is_attribute_line 2) = true := by
  obtain ⟨_, _, _, _, _, _, _, _, hi, hs, hp⟩ := h
  have hsep : (", ".toList = ", ".toList ∨ ", ".toList = ",".toList) := Or.inl rfl
  have h2 : ∀ a b : Nat, is_value (two_numbers (toInt32 a) ", ".toList (toInt32 b)) :=
    fun a b => is_value_two_numbers _ _ _ (toInt32_range a) (toInt32_range b) hsep
  have hsplit : (match r.splits with
      | some (s0, s1, s2, s3) => [attribute_text 2 "split".toList (four_numbers s0 s1 s2 s3)]
      | none => []).all (is_attribute_line 2) = true := by
    rcases hsp : r.splits with _ | ⟨s0, s1, s2, s3⟩
    · rfl
    · obtain ⟨k0, k1, k2, k3⟩ := hs s0 s1 s2 s3 hsp
      simp only [List.all_cons, List.all_nil, Bool.and_true]
      exact is_attribute_line_text2 "split".toList _ (by decide)
        (is_value_four_numbers _ _ _ _ k0 k1 k2 k3)
  have hpad : (match r.pads with
      | some (p0, p1, p2, p3) => [attribute_text 2 "pad".toList (four_numbers p0 p1 p2 p3)]
      | none => []).all (is_attribute_line 2) = true := by
    rcases hpd : r.pads with _ | ⟨p0, p1, p2, p3⟩
    · rfl
    · obtain ⟨k0, k1, k2, k3⟩ := hp p0 p1 p2 p3 hpd
      simp only [List.all_cons, List.all_nil, Bool.and_true]
      exact is_attribute_line_text2 "pad".toList _ (by decide)
        (is_value_four_numbers _ _ _ _ k0 k1 k2 k3)
  unfold written_region_attributes
  simp only [List.all_append, List.all_cons, List.all_nil, Bool.and_true,
    is_attribute_line_text2 "rotate".toList _ (by decide) (is_value_rotate r.rotate),
    is_attribute_line_text2 "xy".toList _ (by decide) (h2 r.x r.y),
    is_attribute_line_text2 "size".toList _ (by decide) (h2 r.width r.height),
    is_attribute_line_text2 "orig".toList _ (by decide) (h2 r.originalWidth r.originalHeight),
    is_attribute_line_text2 "offset".toList _ (by decide) (h2 r.offsetX r.offsetY),
    is_attribute_line_text2 "index".toList _ (by decide) (is_value_fmt_i _ hi)]
  rw [Bool.and_eq_true, Bool.and_eq_true]
  exact ⟨⟨rfl, hsplit⟩, hpad⟩

theorem written_page_attributes_shaped (p : TextureAtlas_page) (hw : is_int p.width)
    (hh : p.height = p.width) :
    (written_page_attributes p).all (is_attribute_line 0) = true := by
  have e1 := is_attribute_line_text0 "size".toList _ (by decide)
    (is_value_two_numbers p.width p.height ",".toList hw (by rw [hh]; exact hw) (Or.inr rfl))
  have e2 := is_attribute_line_text0 "format".toList _ (by decide) (is_value_format p.format)
  have e3 := is_attribute_line_text0 "filter".toList _ (by decide)
    (is_value_filter_pair p.minificationFilter p.magnificationFilter)
  have e4 := is_attribute_line_text0 "repeat".toList _ (by decide) (is_value_repeat p.repeat_)
  unfold written_page_attributes
  simp only [List.all_cons, List.all_nil, Bool.and_true, e1, e2, e3, e4]

theorem is_new_page_name_line (name : List Char) (h : name ≠ []) :
    is_new_page ((name ++ ['\n']).length : Nat) (name ++ ['\n']) = false := by
  have := List.length_pos.mpr h
  simp only [is_new_page, Bool.and_eq_false_iff, decide_eq_false_iff_not]
  left
  simp only [List.length_append, List.length_singleton]
  omega

theorem name_line_not_attribute (d : Nat) (hd : d = 0 ∨ d = 2) (line name : List Char)
    (hname : is_name name) (hline : line = name ++ ['\n'] ∨ line = name)
    (h : is_attribute_line d line = false) :
    is_attribute_line d (name ++ ['\n']) = false := by
  rcases hline with rfl | rfl
  · exact h
  · exact is_attribute_line_newline d line hd (fun c hc => (hname.2 c hc).2) h

/-- The regions read from region blocks that follow a first region are valid, and the blocks
the writer prints for them have the shape they need to be read back. -/
theorem regions_of_blocks_valid :
    ∀ (rbs : List RegionBlock) (rs : List TextureAtlas_region),
      regions_of_blocks rbs = .ok rs →
      (∀ rb ∈ rbs, is_text_line rb.nameLine) →
      rbs.all RegionBlock.shaped = true →
      (∀ r ∈ rs, region_valid r) ∧ (rs.map written_region_block).all RegionBlock.shaped = true := by
  intro rbs
  induction rbs with
  | nil =>
    intro rs h _ _
    simp only [regions_of_blocks, Step.ok.injEq] at h
    subst h
    exact ⟨by simp, rfl⟩
  | cons rb rbs ih =>
    intro rs h hl hs
    rw [List.all_cons, Bool.and_eq_true] at hs
    cases hr : region_of_block rb with
    | error => simp only [regions_of_blocks, hr] at h; cases h
    | undefined => simp only [regions_of_blocks, hr] at h; cases h
    | ok r =>
      cases hrs : regions_of_blocks rbs with
      | error => simp only [regions_of_blocks, hr, hrs] at h; cases h
      | undefined => simp only [regions_of_blocks, hr, hrs] at h; cases h
      | ok rest =>
        simp only [regions_of_blocks, hr, hrs, Step.ok.injEq] at h
        subst h
        obtain ⟨hv, hline⟩ := region_of_block_valid rb r (hl rb (List.mem_cons_self _ _)) hr
        obtain ⟨ih1, ih2⟩ := ih rest hrs (fun x hx => hl x (List.mem_cons_of_mem _ hx)) hs.2
        have hsb := hs.1
        simp only [RegionBlock.shaped, Bool.and_eq_true, Bool.not_eq_true'] at hsb
        refine ⟨?_, ?_⟩
        · intro x hx
          rcases List.mem_cons.mp hx with rfl | hx
          · exact hv
          · exact ih1 x hx
        · rw [List.map_cons, List.all_cons, ih2, Bool.and_true]
          simp only [RegionBlock.shaped, written_region_block, Bool.and_eq_true,
            Bool.not_eq_true']
          exact ⟨⟨name_line_not_attribute 2 (Or.inr rfl) _ _ hv.1 hline hsb.1.1,
            is_new_page_name_line _ hv.1.1⟩, written_region_attributes_shaped r hv.2⟩

theorem page_of_block_valid (dir : List Char) (index : Nat) (b : PageBlock)
    (p : TextureAtlas_page) (hs : b.shaped = true) (hl : ∀ l ∈ b.lines, is_text_line l)
    (h : page_of_block dir index b = .ok p) : page_valid index p := by
  obtain ⟨pageName, page, h1, h2, h3, h4, h5, h6⟩ := page_of_block_ok dir index b p h
  obtain ⟨_, hname, hindex, _⟩ := page_attribute_lines_regions _ _ _ h2
  obtain ⟨hhw, hint⟩ := page_attribute_lines_size_inv _ _ _ h2
    ⟨rfl, (show is_int (-1) by decide)⟩
  have hpn := page_of_block_name dir index b p h
  have hnl : is_text_line b.nameLine := hl _ (by simp [PageBlock.lines])
  obtain ⟨hn, _⟩ := read_name_text_line _ _ hnl hpn
  have hpw : p.width = page.width := by rw [h6]
  have hph : p.height = page.height := by rw [h6]
  have hpc : page_complete p = page_complete page := by rw [h6]; rfl
  have hrl : ∀ rb ∈ b.regions, is_text_line rb.nameLine := by
    intro rb hrb
    apply hl
    simp only [PageBlock.lines, List.mem_cons, List.mem_append, region_blocks_lines,
      List.mem_flatten, List.mem_map]
    exact Or.inr (Or.inr ⟨rb.lines, ⟨rb, hrb, rfl⟩, by simp [RegionBlock.lines]⟩)
  simp only [PageBlock.shaped, Bool.and_eq_true] at hs
  obtain ⟨_, hsr⟩ := hs
  obtain ⟨rb, rbs, hb⟩ := List.exists_cons_of_ne_nil h4
  rw [hb] at hsr h5 hrl
  simp only [Bool.and_eq_true, Bool.not_eq_true'] at hsr
  obtain ⟨⟨hs1, hs2⟩, hs3⟩ := hsr
  cases hr : region_of_block rb with
  | error => simp only [regions_of_blocks, hr] at h5; cases h5
  | undefined => simp only [regions_of_blocks, hr] at h5; cases h5
  | ok r =>
    cases hrs : regions_of_blocks rbs with
    | error => simp only [regions_of_blocks, hr, hrs] at h5; cases h5
    | undefined => simp only [regions_of_blocks, hr, hrs] at h5; cases h5
    | ok rest =>
      simp only [regions_of_blocks, hr, hrs, Step.ok.injEq] at h5
      obtain ⟨hv, hline⟩ := region_of_block_valid rb r (hrl rb (List.mem_cons_self _ _)) hr
      obtain ⟨ih1, ih2⟩ := regions_of_blocks_valid rbs rest hrs
        (fun x hx => hrl x (List.mem_cons_of_mem _ hx)) hs3
      have hwint : is_int p.width := by rw [hpw]; exact hint
      have hheight : p.height = p.width := by rw [hpw, hph]; exact hhw
      refine ⟨?_, hn, hheight, hwint, by rw [hpc]; exact h3, ?_, ?_, ?_⟩
      · rw [h6]; exact hindex
      · intro x hx
        rw [← h5] at hx
        rcases List.mem_cons.mp hx with rfl | hx
        · exact hv
        · exact ih1 x hx
      · simp only [PageBlock.shaped, written_page_block, Bool.and_eq_true]
        refine ⟨written_page_attributes_shaped p hwint hheight, ?_⟩
        rw [← h5]
        simp only [List.map_cons, Bool.and_eq_true, Bool.not_eq_true', written_region_block]
        exact ⟨⟨name_line_not_attribute 0 (Or.inl rfl) _ _ hv.1 hline hs1,
          written_region_attributes_shaped r hv.2⟩, ih2⟩
      · rw [← h5]; simp


/-! ## The round trip -/

theorem written_region_attributes_text (r : TextureAtlas_region)
    (h : region_numbers_valid r) :
    ∀ l ∈ written_region_attributes r,
      ∃ key value, l = attribute_text 2 key value ∧ is_key key = true ∧ is_value value := by
  obtain ⟨_, _, _, _, _, _, _, _, hi, hs, hp⟩ := h
  have hsep : (", ".toList = ", ".toList ∨ ", ".toList = ",".toList) := Or.inl rfl
  have h2 : ∀ a b : Nat, is_value (two_numbers (toInt32 a) ", ".toList (toInt32 b)) :=
    fun a b => is_value_two_numbers _ _ _ (toInt32_range a) (toInt32_range b) hsep
  intro l hl
  unfold written_region_attributes at hl
  simp only [List.mem_append, List.mem_cons, List.mem_singleton, List.not_mem_nil,
    or_false] at hl
  rcases hl with (((h | h | h) | h) | h) | (h | h | h)
  · exact ⟨_, _, h, by decide, is_value_rotate r.rotate⟩
  · exact ⟨_, _, h, by decide, h2 _ _⟩
  · exact ⟨_, _, h, by decide, h2 _ _⟩
  · rcases hsp : r.splits with _ | ⟨s0, s1, s2, s3⟩
    · rw [hsp] at h; simp at h
    · rw [hsp] at h
      simp only [List.mem_singleton] at h
      obtain ⟨k0, k1, k2, k3⟩ := hs s0 s1 s2 s3 hsp
      exact ⟨_, _, h, by decide, is_value_four_numbers _ _ _ _ k0 k1 k2 k3⟩
  · rcases hpd : r.pads with _ | ⟨p0, p1, p2, p3⟩
    · rw [hpd] at h; simp at h
    · rw [hpd] at h
      simp only [List.mem_singleton] at h
      obtain ⟨k0, k1, k2, k3⟩ := hp p0 p1 p2 p3 hpd
      exact ⟨_, _, h, by decide, is_value_four_numbers _ _ _ _ k0 k1 k2 k3⟩
  · exact ⟨_, _, h, by decide, h2 _ _⟩
  · exact ⟨_, _, h, by decide, h2 _ _⟩
  · exact ⟨_, _, h, by decide, is_value_fmt_i _ hi⟩

theorem name_line_body (name : List Char) (h : is_name name) :
    ∃ body, name ++ ['\n'] = body ++ ['\n'] ∧ ∀ c ∈ body, c ≠ '\n' :=
  ⟨name, rfl, fun c hc => (h.2 c hc).2⟩

theorem written_region_lines_body (r : TextureAtlas_region) (h : region_valid r) :
    ∀ l ∈ (written_region_block r).lines,
      ∃ body, l = body ++ ['\n'] ∧ ∀ c ∈ body, c ≠ '\n' := by
  intro l hl
  simp only [RegionBlock.lines, written_region_block, List.mem_cons] at hl
  rcases hl with rfl | hl
  · exact name_line_body r.name h.1
  · obtain ⟨key, value, rfl, hk, hv⟩ := written_region_attributes_text r h.2 l hl
    exact attribute_text_body 2 key value hk hv

theorem written_page_lines_body (index : Nat) (p : TextureAtlas_page)
    (h : page_valid index p) :
    ∀ l ∈ (written_page_block p).lines,
      ∃ body, l = body ++ ['\n'] ∧ ∀ c ∈ body, c ≠ '\n' := by
  obtain ⟨_, hn, hh, hw, _, hr, _, _⟩ := h
  intro l hl
  simp only [PageBlock.lines, written_page_block, List.mem_cons, List.mem_append,
    region_blocks_lines, List.mem_flatten, List.mem_map] at hl
  rcases hl with rfl | hl | ⟨ls, ⟨rb, ⟨r, hr1, rfl⟩, rfl⟩, hl⟩
  · exact name_line_body p.name hn
  · unfold written_page_attributes at hl
    simp only [List.mem_cons, List.mem_singleton, List.not_mem_nil, or_false] at hl
    rcases hl with rfl | rfl | rfl | rfl
    · exact attribute_text_body 0 _ _ (by decide)
        (is_value_two_numbers p.width p.height ",".toList hw (by rw [hh]; exact hw)
          (Or.inr rfl))
    · exact attribute_text_body 0 _ _ (by decide) (is_value_format p.format)
    · exact attribute_text_body 0 _ _ (by decide)
        (is_value_filter_pair p.minificationFilter p.magnificationFilter)
    · exact attribute_text_body 0 _ _ (by decide) (is_value_repeat p.repeat_)
  · exact written_region_lines_body r (hr r hr1) l hl

theorem mem_body_lines (blocks : List PageBlock) (l : List Char)
    (h : l ∈ body_lines blocks) : l = blank_line ∨ ∃ b ∈ blocks, l ∈ b.lines := by
  induction blocks with
  | nil => simp [body_lines] at h
  | cons b bs ih =>
    cases bs with
    | nil =>
      simp only [body_lines] at h
      exact Or.inr ⟨b, List.mem_cons_self _ _, h⟩
    | cons b2 bs =>
      simp only [body_lines, List.mem_append, List.mem_cons] at h
      rcases h with h | h | h
      · exact Or.inr ⟨b, List.mem_cons_self _ _, h⟩
      · exact Or.inl h
      · rcases ih h with h | ⟨x, hx, hl⟩
        · exact Or.inl h
        · exact Or.inr ⟨x, List.mem_cons_of_mem _ hx, hl⟩

theorem lines_mem_body_lines (blocks : List PageBlock) (b : PageBlock) (hb : b ∈ blocks) :
    ∀ l ∈ b.lines, l ∈ body_lines blocks := by
  induction blocks with
  | nil => simp at hb
  | cons x xs ih =>
    intro l hl
    cases xs with
    | nil =>
      simp only [List.mem_singleton] at hb
      subst hb
      simpa [body_lines] using hl
    | cons x2 xs =>
      simp only [body_lines, List.mem_append, List.mem_cons]
      rcases List.mem_cons.mp hb with rfl | hb
      · exact Or.inl hl
      · exact Or.inr (Or.inr (ih hb l hl))

/-- The pages of an atlas read from a text without NUL are valid. -/
theorem read_pages_valid (dir content : List Char) (a : TextureAtlas_atlas)
    (hnul : ∀ c ∈ content, c ≠ NUL)
    (hread : TextureAtlas_read dir (some content) = .atlas a) :
    a.pages ≠ [] ∧ a.numberOfPages = a.pages.length ∧
    ∀ (k : Nat) (p : TextureAtlas_page), a.pages[k]? = some p → page_valid k p := by
  obtain ⟨blocks, hshape, hlines, _⟩ := read_accepts_blocks dir content a hread
  obtain ⟨h1, h2, h3⟩ := read_blocks_page dir content blocks a hread hlines hshape
  have htext := getlines_text_lines content hnul
  rw [hlines] at htext
  have hne : blocks ≠ [] := by
    intro hb
    rw [read_descriptor dir content blocks hlines hshape, hb] at hread
    cases hread
  refine ⟨?_, by rw [h2, h1], ?_⟩
  · intro hp
    rw [hp] at h1
    exact hne (List.length_eq_zero.mp h1.symm)
  · intro k p hk
    have hlt : k < a.pages.length := by
      rw [List.getElem?_eq_some] at hk
      exact hk.1
    have hkb : k < blocks.length := by omega
    obtain ⟨p2, hp2, hp3⟩ := h3 k blocks[k] (List.getElem?_eq_getElem hkb)
    rw [hk] at hp2
    cases hp2
    have hbm : blocks[k] ∈ blocks := List.getElem_mem _
    refine page_of_block_valid dir k blocks[k] p (List.all_eq_true.mp hshape _ hbm) ?_ hp3
    intro l hl
    apply htext
    simp only [descriptor_lines, List.mem_cons]
    exact Or.inr (lines_mem_body_lines blocks _ hbm l hl)

/-- C1 (round trip): when `TextureAtlas_read` returns the atlas `A` for a descriptor text
(a text holds no NUL character), reading the text that `TextureAtlas_write` produces for `A`
succeeds and returns `A` with the absolute paths recomputed for the new directory: the pages
come in the same order with the same name, width, height, format, filters and repeat, and
their regions come in the same order with the same name, rotate, x, y, width, height, original
size, offsets, index, splits and pads. -/
theorem round_trip (dir dir2 content : List Char) (a : TextureAtlas_atlas)
    (hnul : ∀ c ∈ content, c ≠ NUL)
    (hread : TextureAtlas_read dir (some content) = .atlas a) :
    TextureAtlas_read dir2 (TextureAtlas_write a true) = .atlas (relocate dir2 a) := by
  obtain ⟨hne, hnum, hvalid⟩ := read_pages_valid dir content a hnul hread
  have hmem : ∀ p ∈ a.pages, ∃ k, page_valid k p := by
    intro p hp
    obtain ⟨k, hk⟩ := List.mem_iff_getElem?.mp hp
    exact ⟨k, hvalid k p hk⟩
  have hlines : getlines (write_pages a.pages)
      = descriptor_lines (a.pages.map written_page_block) := by
    rw [write_pages_lines a.pages hne]
    apply getlines_flatten
    intro l hl
    simp only [descriptor_lines, List.mem_cons] at hl
    rcases hl with rfl | hl
    · exact ⟨[], rfl, by simp⟩
    · rcases mem_body_lines _ l hl with rfl | ⟨b, hb, hlb⟩
      · exact ⟨[], rfl, by simp⟩
      · obtain ⟨p, hp, rfl⟩ := List.mem_map.mp hb
        obtain ⟨k, hk⟩ := hmem p hp
        exact written_page_lines_body k p hk l hlb
  have hshape : (a.pages.map written_page_block).all PageBlock.shaped = true := by
    rw [List.all_eq_true]
    intro b hb
    obtain ⟨p, hp, rfl⟩ := List.mem_map.mp hb
    obtain ⟨k, hk⟩ := hmem p hp
    exact hk.2.2.2.2.2.2.1
  have hpages := pages_of_blocks_written dir2 a.pages [] (by simpa using hvalid)
  have hw : TextureAtlas_write a true = some (write_pages a.pages) := rfl
  rw [hw, read_descriptor dir2 _ _ hlines hshape]
  obtain ⟨p, ps, hps⟩ := List.exists_cons_of_ne_nil hne
  have hb : a.pages.map written_page_block
      = written_page_block p :: ps.map written_page_block := by rw [hps]; rfl
  rw [hb] at hpages ⊢
  simp only [atlas_of_blocks, hpages, pages_result, List.nil_append, relocate,
    ReadResult.atlas.injEq]
  rw [hnum]
  simp

set_option maxRecDepth 8192 in
/-- C1, instance: the atlas read from the minimal descriptor is written, and reading that
text from the directory `/tmp` gives the same atlas with the paths recomputed. -/
theorem round_trip_witness :
    (∀ c ∈ minimal_example, c ≠ NUL) ∧
    TextureAtlas_read [] (some minimal_example) = .atlas (minimal_atlas []) ∧
    TextureAtlas_read "/tmp".toList (TextureAtlas_write (minimal_atlas []) true)
      = .atlas (minimal_atlas "/tmp".toList) :=
  ⟨by decide, by decide,
   round_trip [] "/tmp".toList minimal_example (minimal_atlas []) (by decide) (by decide)⟩

/-! ## Unrecognized keys -/

theorem page_attribute_unrecognized (page : TextureAtlas_page) (key : List Char)
    (value : Option (List Char)) (h : key ∉ page_keys) :
    page_attribute page key value = .ok page := by
  simp only [page_keys, List.mem_cons, List.mem_singleton, List.not_mem_nil, or_false,
    not_or] at h
  obtain ⟨h1, h2, h3, h4⟩ := h
  simp only [page_attribute, if_neg h1, if_neg h2, if_neg h3, if_neg h4]

theorem region_attribute_unrecognized (region : TextureAtlas_region) (key : List Char)
    (value : Option (List Char)) (h : key ∉ region_keys) :
    region_attribute region key value = .ok region := by
  simp only [region_keys, List.mem_cons, List.mem_singleton, List.not_mem_nil, or_false,
    not_or] at h
  obtain ⟨h1, h2, h3, h4, h5, h6, h7, h8⟩ := h
  have h2b : ¬ key = REPEAT_XY := h2
  simp only [region_attribute, if_neg h1, if_neg h2b, if_neg h3, if_neg h4, if_neg h5,
    if_neg h6, if_neg h7, if_neg h8]

/-- A line with an unrecognized key can be added anywhere to the lines of the page attribute
loop. -/
theorem page_attribute_lines_insert (l key : List Char) (value : Option (List Char))
    (hl : parse_attribute l.length l 0 = .pair key value) (hk : key ∉ page_keys)
    (post : List (List Char)) :
    ∀ (pre : List (List Char)) (page : TextureAtlas_page),
      page_attribute_lines page (pre ++ l :: post) = page_attribute_lines page (pre ++ post) := by
  intro pre
  induction pre with
  | nil =>
    intro page
    simp only [List.nil_append, page_attribute_lines, hl,
      page_attribute_unrecognized page key value hk]
  | cons x xs ih =>
    intro page
    cases hpa : parse_attribute x.length x 0 with
    | notAttribute => simp only [List.cons_append, page_attribute_lines, hpa]
    | undefined => simp only [List.cons_append, page_attribute_lines, hpa]
    | pair k v =>
      cases hq : page_attribute page k v with
      | ok page2 =>
        simp only [List.cons_append, page_attribute_lines, hpa, hq]
        exact ih page2
      | error => simp only [List.cons_append, page_attribute_lines, hpa, hq]
      | undefined => simp only [List.cons_append, page_attribute_lines, hpa, hq]

theorem region_attribute_lines_insert (l key : List Char) (value : Option (List Char))
    (hl : parse_attribute l.length l 2 = .pair key value) (hk : key ∉ region_keys)
    (post : List (List Char)) :
    ∀ (pre : List (List Char)) (region : TextureAtlas_region),
      region_attribute_lines region (pre ++ l :: post)
        = region_attribute_lines region (pre ++ post) := by
  intro pre
  induction pre with
  | nil =>
    intro region
    simp only [List.nil_append, region_attribute_lines, hl,
      region_attribute_unrecognized region key value hk]
  | cons x xs ih =>
    intro region
    cases hpa : parse_attribute x.length x 2 with
    | notAttribute => simp only [List.cons_append, region_attribute_lines, hpa]
    | undefined => simp only [List.cons_append, region_attribute_lines, hpa]
    | pair k v =>
      cases hq : region_attribute region k v with
      | ok region2 =>
        simp only [List.cons_append, region_attribute_lines, hpa, hq]
        exact ih region2
      | error => simp only [List.cons_append, region_attribute_lines, hpa, hq]
      | undefined => simp only [List.cons_append, region_attribute_lines, hpa, hq]

/-- Replacing a region block by one that describes the same region does not change the
regions described by a list of region blocks. -/
theorem regions_of_blocks_congr (rb rb2 : RegionBlock)
    (h : region_of_block rb2 = region_of_block rb) (R2 : List RegionBlock) :
    ∀ R1 : List RegionBlock,
      regions_of_blocks (R1 ++ rb2 :: R2) = regions_of_blocks (R1 ++ rb :: R2) := by
  intro R1
  induction R1 with
  | nil => simp only [List.nil_append, regions_of_blocks, h]
  | cons x xs ih =>
    rw [List.cons_append, List.cons_append, regions_of_blocks, regions_of_blocks, ih]

/-- Replacing a page block by one that describes the same page does not change the pages
described by a list of page blocks. -/
theorem pages_of_blocks_congr (dir : List Char) (b b2 : PageBlock)
    (h : ∀ index, page_of_block dir index b2 = page_of_block dir index b)
    (B2 : List PageBlock) :
    ∀ (B1 : List PageBlock) (done : List TextureAtlas_page),
      pages_of_blocks dir done (B1 ++ b2 :: B2) = pages_of_blocks dir done (B1 ++ b :: B2) := by
  intro B1
  induction B1 with
  | nil => intro done; simp only [List.nil_append, pages_of_blocks, h]
  | cons x xs ih =>
    intro done
    cases hq : page_of_block dir done.length x with
    | ok page =>
      simp only [List.cons_append, pages_of_blocks, hq]
      exact ih _
    | error => simp only [List.cons_append, pages_of_blocks, hq]
    | undefined => simp only [List.cons_append, pages_of_blocks, hq]

theorem atlas_of_blocks_congr (dir : List Char) (b b2 : PageBlock)
    (h : ∀ index, page_of_block dir index b2 = page_of_block dir index b)
    (B1 B2 : List PageBlock) :
    atlas_of_blocks dir (B1 ++ b2 :: B2) = atlas_of_blocks dir (B1 ++ b :: B2) := by
  have := pages_of_blocks_congr dir b b2 h B2 B1 []
  cases B1 with
  | nil => simpa only [atlas_of_blocks, List.nil_append] using congrArg pages_result this
  | cons x xs => simpa only [atlas_of_blocks, List.cons_append] using congrArg pages_result this

theorem all_insert {α : Type} (p : α → Bool) (pre post : List α) (l : α) (h : p l = true) :
    (pre ++ l :: post).all p = (pre ++ post).all p := by
  simp only [List.all_append, List.all_cons, h, Bool.true_and]

theorem all_replace {α : Type} (p : α → Bool) (pre post : List α) (x y : α) (h : p y = p x) :
    (pre ++ y :: post).all p = (pre ++ x :: post).all p := by
  simp only [List.all_append, List.all_cons, h]

theorem page_of_block_insert (dir : List Char) (index : Int) (b : PageBlock)
    (pre post : List (List Char)) (l key : List Char) (value : Option (List Char))
    (hb : b.attributes = pre ++ post)
    (hl : parse_attribute l.length l 0 = .pair key value) (hk : key ∉ page_keys) :
    page_of_block dir index { b with attributes := pre ++ l :: post }
      = page_of_block dir index b := by
  simp only [page_of_block, hb, page_attribute_lines_insert l key value hl hk post pre]

theorem page_block_shaped_insert (b : PageBlock)
    (pre post : List (List Char)) (l key : List Char) (value : Option (List Char))
    (hb : b.attributes = pre ++ post)
    (hl : parse_attribute l.length l 0 = .pair key value) :
    PageBlock.shaped { b with attributes := pre ++ l :: post } = b.shaped := by
  have h : is_attribute_line 0 l = true := by
    rw [is_attribute_line_iff, hl]; exact fun h => Parsed.noConfusion h
  simp only [PageBlock.shaped, hb, all_insert _ pre post l h]

theorem region_of_block_insert (rb : RegionBlock)
    (pre post : List (List Char)) (l key : List Char) (value : Option (List Char))
    (hrb : rb.attributes = pre ++ post)
    (hl : parse_attribute l.length l 2 = .pair key value) (hk : key ∉ region_keys) :
    region_of_block { rb with attributes := pre ++ l :: post } = region_of_block rb := by
  simp only [region_of_block, hrb, region_attribute_lines_insert l key value hl hk post pre]

theorem region_block_shaped_insert (rb : RegionBlock)
    (pre post : List (List Char)) (l key : List Char) (value : Option (List Char))
    (hrb : rb.attributes = pre ++ post)
    (hl : parse_attribute l.length l 2 = .pair key value) :
    RegionBlock.shaped { rb with attributes := pre ++ l :: post } = rb.shaped
    ∧ (pre ++ l :: post).all (is_attribute_line 2) = rb.attributes.all (is_attribute_line 2) := by
  have h : is_attribute_line 2 l = true := by
    rw [is_attribute_line_iff, hl]; exact fun h => Parsed.noConfusion h
  simp only [RegionBlock.shaped, hrb, all_insert _ pre post l h, and_self]

/-- Replacing one region block of a page block by a block with the same name line that
describes the same region and has the same shape changes neither the page described nor the
shape of the page block. -/
theorem page_of_block_region_congr (dir : List Char) (index : Int) (b : PageBlock)
    (R1 R2 : List RegionBlock) (rb rb2 : RegionBlock)
    (hb : b.regions = R1 ++ rb :: R2)
    (hname : rb2.nameLine = rb.nameLine)
    (hregion : region_of_block rb2 = region_of_block rb)
    (hshape : rb2.shaped = rb.shaped)
    (hattrs : rb2.attributes.all (is_attribute_line 2)
      = rb.attributes.all (is_attribute_line 2)) :
    page_of_block dir index { b with regions := R1 ++ rb2 :: R2 } = page_of_block dir index b
    ∧ PageBlock.shaped { b with regions := R1 ++ rb2 :: R2 } = b.shaped := by
  have hregions := regions_of_blocks_congr rb rb2 hregion R2 R1
  cases R1 with
  | nil =>
    simp only [List.nil_append] at hregions hb ⊢
    simp only [page_of_block, PageBlock.shaped, hb, hregions, hname, hattrs, and_self]
  | cons x xs =>
    simp only [List.cons_append] at hregions hb ⊢
    simp only [page_of_block, PageBlock.shaped, hb, hregions,
      all_replace RegionBlock.shaped xs R2 rb rb2 hshape, and_self]

/-- C11 (unrecognized keys are ignored): when the reading of a descriptor meets nothing that
C leaves undefined, adding to the attribute block of a page a depth-0 attribute line whose
key is none of `size`, `format`, `filter`, `repeat`, or to the attribute block of a region a
depth-2 attribute line whose key is none of `rotate`, `xy`, `size`, `orig`, `offset`,
`index`, `split`, `pad`, does not change the outcome of `TextureAtlas_read`: an atlas is
returned with the added line exactly when one is returned without it, and it is the same
atlas; the pages, the page and the region that the reader holds are the same before and
after such a line.  The line does overwrite the value buffer: a later line with a recognized
key and nothing behind its colon, on which `parse_attribute` returns true without writing
the buffer, is then handled with the value of the added line, and the model records the read
of a buffer that was not written as undefined. -/
theorem unrecognized_keys_ignored :
    (∀ (dir content content2 : List Char) (B1 B2 : List PageBlock) (b : PageBlock)
        (pre post : List (List Char)) (l key : List Char) (value : Option (List Char)),
      b.attributes = pre ++ post →
      getlines content = descriptor_lines (B1 ++ b :: B2) →
      getlines content2
        = descriptor_lines (B1 ++ { b with attributes := pre ++ l :: post } :: B2) →
      (B1 ++ b :: B2).all PageBlock.shaped = true →
      parse_attribute l.length l 0 = .pair key value → key ∉ page_keys →
      TextureAtlas_read dir (some content) ≠ .undefined →
      ∀ a, TextureAtlas_read dir (some content2) = .atlas a
        ↔ TextureAtlas_read dir (some content) = .atlas a) ∧
    (∀ (dir content content2 : List Char) (B1 B2 : List PageBlock) (b : PageBlock)
        (R1 R2 : List RegionBlock) (rb : RegionBlock)
        (pre post : List (List Char)) (l key : List Char) (value : Option (List Char)),
      b.regions = R1 ++ rb :: R2 → rb.attributes = pre ++ post →
      getlines content = descriptor_lines (B1 ++ b :: B2) →
      getlines content2
        = descriptor_lines (B1 ++
            { b with regions := R1 ++ { rb with attributes := pre ++ l :: post } :: R2 }
            :: B2) →
      (B1 ++ b :: B2).all PageBlock.shaped = true →
      parse_attribute l.length l 2 = .pair key value → key ∉ region_keys →
      TextureAtlas_read dir (some content) ≠ .undefined →
      ∀ a, TextureAtlas_read dir (some content2) = .atlas a
        ↔ TextureAtlas_read dir (some content) = .atlas a) ∧
    (∀ (dir : List Char) (pages : List TextureAtlas_page) (page : TextureAtlas_page)
        (l key : List Char) (value : Option (List Char)),
      parse_attribute l.length l 0 = .pair key value → key ∉ page_keys →
      read_line dir (.page_attributes pages page) l = .page_attributes pages page) ∧
    (∀ (dir : List Char) (pages : List TextureAtlas_page) (page : TextureAtlas_page)
        (region : TextureAtlas_region) (l key : List Char) (value : Option (List Char)),
      parse_attribute l.length l 2 = .pair key value → key ∉ region_keys →
      read_line dir (.region_attributes pages page region) l
        = .region_attributes pages page region) ∧
    (∀ (page : TextureAtlas_page) (region : TextureAtlas_region) (key : List Char),
      (key ∈ page_keys → page_attribute page key none = .undefined)
      ∧ (key ∈ region_keys → region_attribute region key none = .undefined)) := by
  refine ⟨?_, ?_, ?_, ?_, ?_⟩
  · intro dir content content2 B1 B2 b pre post l key value hb hlines hlines2 hshape hl hk _ a
    have hs := page_block_shaped_insert b pre post l key value hb hl
    have hshape2 : (B1 ++ { b with attributes := pre ++ l :: post } :: B2).all
        PageBlock.shaped = true := by
      rw [all_replace PageBlock.shaped B1 B2 b _ hs]; exact hshape
    rw [read_descriptor dir content _ hlines hshape,
      read_descriptor dir content2 _ hlines2 hshape2,
      atlas_of_blocks_congr dir b _
        (fun index => page_of_block_insert dir index b pre post l key value hb hl hk) B1 B2]
  · intro dir content content2 B1 B2 b R1 R2 rb pre post l key value hb hrb hlines hlines2
      hshape hl hk _ a
    have hr := region_block_shaped_insert rb pre post l key value hrb hl
    have hp := fun index => page_of_block_region_congr dir index b R1 R2 rb
      { rb with attributes := pre ++ l :: post } hb rfl
      (region_of_block_insert rb pre post l key value hrb hl hk) hr.1 hr.2
    have hshape2 : (B1 ++
        { b with regions := R1 ++ { rb with attributes := pre ++ l :: post } :: R2 }
        :: B2).all PageBlock.shaped = true := by
      rw [all_replace PageBlock.shaped B1 B2 b _ (hp 0).2]; exact hshape
    rw [read_descriptor dir content _ hlines hshape,
      read_descriptor dir content2 _ hlines2 hshape2,
      atlas_of_blocks_congr dir b _ (fun index => (hp index).1) B1 B2]
  · intro dir pages page l key value hl hk
    simp only [read_line, hl, page_attribute_unrecognized page key value hk]
  · intro dir pages page region l key value hl hk
    simp only [read_line, hl, region_attribute_unrecognized region key value hk]
  · intro page region key
    constructor
    · intro hk
      simp only [page_keys, List.mem_cons, List.mem_singleton, List.not_mem_nil,
        or_false] at hk
      rcases hk with rfl | rfl | rfl | rfl <;> rfl
    · intro hk
      simp only [region_keys, List.mem_cons, List.mem_singleton, List.not_mem_nil,
        or_false] at hk
      rcases hk with rfl | rfl | rfl | rfl | rfl | rfl | rfl | rfl <;> rfl

set_option maxRecDepth 8192 in
/-- C11, instance: the minimal descriptor with the line `comment: packed by hand` added to
its page block, and the minimal descriptor with the line `  flip: y` added to its region
block, are read as the atlas of the minimal descriptor.  In `rotate_no_value_example` and in
the same descriptor with the line `  flip: true` added, the `rotate` branch compares a value
buffer that the line `  rotate:` has not written. -/
theorem unrecognized_keys_ignored_witness :
    TextureAtlas_read [] (some minimal_example) = .atlas (minimal_atlas []) ∧
    TextureAtlas_read [] (some extra_page_key_example) = .atlas (minimal_atlas []) ∧
    TextureAtlas_read [] (some extra_region_key_example) = .atlas (minimal_atlas []) ∧
    parse_attribute 10 "  rotate:\n".toList 2 = .pair "rotate".toList none ∧
    TextureAtlas_read [] (some rotate_no_value_example) = .undefined ∧
    TextureAtlas_read [] (some rotate_no_value_flip_example) = .undefined :=
  ⟨by decide,
   (unrecognized_keys_ignored.1 [] minimal_example extra_page_key_example [] []
      minimal_page_block ["size: 256, 256\n".toList]
      ["format: RGBA8888\n".toList, "filter: Nearest,Nearest\n".toList,
        "repeat: none\n".toList]
      "comment: packed by hand\n".toList "comment".toList (some "packed by hand".toList)
      (by decide) (by decide) (by decide) (by decide) (by decide) (by decide) (by decide)
      (minimal_atlas [])).mpr (by decide),
   (unrecognized_keys_ignored.2.1 [] minimal_example extra_region_key_example [] []
      minimal_page_block [] [] minimal_region_block
      ["  rotate: false\n".toList, "  xy: 0, 0\n".toList]
      ["  size: 32, 48\n".toList, "  orig: 32, 48\n".toList,
        "  offset: 0, 0\n".toList, "  index: 1\n".toList]
      "  flip: y\n".toList "flip".toList (some "y".toList)
      (by decide) (by decide) (by decide) (by decide) (by decide) (by decide) (by decide)
      (by decide) (minimal_atlas [])).mpr (by decide),
   by decide, by decide, by decide⟩

/-! ## Lines that make the reader fail -/

/-- The same for the region attribute loop. -/
theorem region_attribute_lines_mem :
    ∀ (attrs : List (List Char)) (region region2 : TextureAtlas_region),
      region_attribute_lines region attrs = .ok region2 →
      attrs.all (is_attribute_line 2) = true →
      ∀ l ∈ attrs, ∀ key value, parse_attribute l.length l 2 = .pair key value →
        ∃ q q2, region_attribute q key value = .ok q2 := by
  intro attrs
  induction attrs with
  | nil => intro _ _ _ _ l hl; cases hl
  | cons x xs ih =>
    intro region region2 h hall l hl key value hpl
    rw [List.all_cons, Bool.and_eq_true] at hall
    have hx := (is_attribute_line_iff 2 x).mp hall.1
    cases hpa : parse_attribute x.length x 2 with
    | notAttribute => exact absurd hpa hx
    | undefined => simp only [region_attribute_lines, hpa] at h; cases h
    | pair k v =>
      cases hq : region_attribute region k v with
      | error => simp only [region_attribute_lines, hpa, hq] at h; cases h
      | undefined => simp only [region_attribute_lines, hpa, hq] at h; cases h
      | ok region3 =>
        simp only [region_attribute_lines, hpa, hq] at h
        rcases List.mem_cons.mp hl with rfl | hl
        · rw [hpa] at hpl
          cases hpl
          exact ⟨region, region3, hq⟩
        · exact ih region3 region2 h hall.2 l hl key value hpl

/-- In a descriptor for which the reader returns an atlas, the body of the region attribute
loop went through for every attribute line of every region block. -/
theorem read_region_line (dir content : List Char) (blocks : List PageBlock)
    (a : TextureAtlas_atlas)
    (hread : TextureAtlas_read dir (some content) = .atlas a)
    (hlines : getlines content = descriptor_lines blocks)
    (hshape : blocks.all PageBlock.shaped = true)
    (b : PageBlock) (hb : b ∈ blocks) (rb : RegionBlock) (hrb : rb ∈ b.regions)
    (l : List Char) (hl : l ∈ rb.attributes)
    (key : List Char) (value : Option (List Char))
    (hpl : parse_attribute l.length l 2 = .pair key value) :
    ∃ q q2, region_attribute q key value = .ok q2 := by
  obtain ⟨i, hi, hbi⟩ := List.mem_iff_getElem.mp hb
  obtain ⟨j, hj, hrbj⟩ := List.mem_iff_getElem.mp hrb
  have hb2 : blocks[i]? = some b := by rw [List.getElem?_eq_getElem hi, hbi]
  have hrb2 : b.regions[j]? = some rb := by rw [List.getElem?_eq_getElem hj, hrbj]
  obtain ⟨r, _, hr2⟩ :=
    read_blocks_region dir content blocks a hread hlines hshape i j b rb hb2 hrb2
  obtain ⟨regionName, hlist⟩ := region_of_block_lines rb r hr2
  have hattrs := shaped_region_attributes blocks hshape i j b rb hb2 hrb2
  exact region_attribute_lines_mem rb.attributes _ r hlist hattrs l hl key value hpl

theorem parse_attribute_rotate_line (v : Bool) (nl : List Char) (hnl : is_terminator nl) :
    parse_attribute ((rotate_line v nl).length : Nat) (rotate_line v nl) 2
      = .pair "rotate".toList (some (if v then "true".toList else "false".toList)) := by
  unfold rotate_line
  refine parse_attribute_literal 2 _ "rotate".toList _ nl (by decide) (by decide) ?_ ?_ hnl
  · cases v <;> decide
  · cases v <;> decide

theorem region_attribute_rotate_other (region : TextureAtlas_region) (value : List Char)
    (h1 : value ≠ "true".toList) (h2 : value ≠ "false".toList) :
    region_attribute region "rotate".toList (some value) = .error := by
  unfold region_attribute
  rw [if_pos rfl]
  simp only [if_neg h1, if_neg h2]

/-- C14 (rotate): in an atlas returned by the reader, a region whose block has
`  rotate: true` as its last `rotate` line has rotate true, and one whose block has
`  rotate: false` as its last `rotate` line has rotate false; a `rotate` line of a region
block whose value buffer holds any other string makes `TextureAtlas_read` return no atlas,
because the `rotate` branch of the region attribute loop takes its error exit for every such
string.  On the line `  rotate:`, with nothing behind the colon, `parse_attribute` returns
true without writing the value buffer, and the `rotate` branch compares what is in the buffer
from before; the model records this read of a buffer that was not written as undefined. -/
theorem rotate_values :
    (∀ (dir content : List Char) (blocks : List PageBlock) (a : TextureAtlas_atlas)
        (i j : Nat) (b : PageBlock) (rb : RegionBlock),
      TextureAtlas_read dir (some content) = .atlas a →
      getlines content = descriptor_lines blocks → blocks.all PageBlock.shaped = true →
      blocks[i]? = some b → b.regions[j]? = some rb →
      ∃ r, region_at a i j = some r ∧
        ∀ (pre post : List (List Char)) (v : Bool) (nl : List Char),
          rb.attributes = pre ++ rotate_line v nl :: post → is_terminator nl →
          (∀ l ∈ post, attribute_key 2 l ≠ some "rotate".toList) →
          r.rotate = v) ∧
    (∀ (dir content : List Char) (blocks : List PageBlock) (b : PageBlock) (rb : RegionBlock)
        (l value : List Char),
      getlines content = descriptor_lines blocks → blocks.all PageBlock.shaped = true →
      b ∈ blocks → rb ∈ b.regions → l ∈ rb.attributes →
      parse_attribute l.length l 2 = .pair "rotate".toList (some value) →
      value ≠ "true".toList → value ≠ "false".toList →
      ∀ a, TextureAtlas_read dir (some content) ≠ .atlas a) ∧
    (∀ (region : TextureAtlas_region) (value : List Char),
      value ≠ "true".toList → value ≠ "false".toList →
      region_attribute region "rotate".toList (some value) = .error) ∧
    (parse_attribute 10 "  rotate:\n".toList 2 = .pair "rotate".toList none
      ∧ ∀ region : TextureAtlas_region,
          region_attribute region "rotate".toList none = .undefined) := by
  refine ⟨?_, ?_, region_attribute_rotate_other, by decide, fun _ => rfl⟩
  · intro dir content blocks a i j b rb hread hlines hshape hb hrb
    obtain ⟨r, hr1, hr2⟩ :=
      read_blocks_region dir content blocks a hread hlines hshape i j b rb hb hrb
    obtain ⟨regionName, hlist⟩ := region_of_block_lines rb r hr2
    have hattrs := shaped_region_attributes blocks hshape i j b rb hb hrb
    refine ⟨r, hr1, ?_⟩
    intro pre post v nl heq hnl hpost
    rw [heq] at hlist hattrs
    have hpre : pre.all (is_attribute_line 2) = true := by
      rw [List.all_append, Bool.and_eq_true] at hattrs
      exact hattrs.1
    exact region_attribute_lines_last (fun q => q.rotate = v) "rotate".toList
      (fun q key value q2 hk hq hq1 =>
        ((region_attribute_keeps q q2 key value hq).2.1 hk).trans hq1)
      pre post _ _ _ r hpre (parse_attribute_rotate_line v nl hnl)
      (fun q q2 hq => by
        rw [region_attribute_rotate q v] at hq
        cases hq; rfl)
      hpost hlist
  · intro dir content blocks b rb l value hlines hshape hb hrb hl hpl h1 h2 a hread
    obtain ⟨q, q2, hq⟩ :=
      read_region_line dir content blocks a hread hlines hshape b hb rb hrb l hl _ _ hpl
    rw [region_attribute_rotate_other q value h1 h2] at hq
    cases hq

set_option maxRecDepth 8192 in
/-- C14, instance: region `b` of `two_page_example` has the line `  rotate: true` and rotate
true; the minimal descriptor with `  rotate: True` is rejected; the value `1` and the empty
value of the line `  rotate: ` (a blank behind the colon) take the error exit as well.  In
`rotate_no_value_example` the line `  rotate:` follows the line `  rotate: false` and the
`rotate` branch compares a buffer that this line has not written. -/
theorem rotate_values_witness :
    (∃ r, region_at two_page_atlas 0 1 = some r ∧ r.rotate = true) ∧
    (∀ a, TextureAtlas_read [] (some capital_rotate_example) ≠ .atlas a) ∧
    TextureAtlas_read [] (some capital_rotate_example) = .null ∧
    region_attribute (new_region []) "rotate".toList (some "1".toList) = .error ∧
    parse_attribute 11 "  rotate: \n".toList 2 = .pair "rotate".toList (some []) ∧
    region_attribute (new_region []) "rotate".toList (some []) = .error ∧
    TextureAtlas_read [] (some rotate_no_value_example) = .undefined := by
  refine ⟨?_, ?_, by decide, ?_, by decide, ?_, by decide⟩
  · obtain ⟨r, h1, h2⟩ :=
      rotate_values.1 [] two_page_example two_page_blocks two_page_atlas 0 1 _ _
        (by decide) (by decide) (by decide) rfl rfl
    exact ⟨r, h1, h2 [] [] true ['\n'] (by decide) (Or.inr rfl) (by decide)⟩
  · exact rotate_values.2.1 [] capital_rotate_example capital_rotate_blocks _
      capital_rotate_region_block "  rotate: True\n".toList "True".toList
      (by decide) (by decide) (List.mem_singleton.mpr rfl) (List.mem_singleton.mpr rfl)
      (by decide) (by decide) (by decide) (by decide)
  · exact rotate_values.2.2.1 _ _ (by decide) (by decide)
  · exact rotate_values.2.2.1 _ _ (by decide) (by decide)

/-! ## Layout of the written text -/

theorem write_pages_layout (ps : List TextureAtlas_page) :
    write_pages ps = ((ps.map written_page_lines).flatten).flatten := by
  induction ps with
  | nil => rfl
  | cons p ps ih =>
    simp only [write_pages, List.map_cons, List.flatten_cons, List.flatten_append, ih,
      write_page_lines, written_page_lines]

/-- C15 (writer layout): the text written for an atlas is the concatenation, over the pages
in list order, of an empty line, the page name line, the lines `size`, `format`, `filter`
(minification token, comma, magnification token) and `repeat` in this order, and for each
region of the page in list order the region name line followed by the lines `rotate`, `xy`,
`size`, `split`, `pad`, `orig`, `offset`, `index` in this order, each behind exactly two
blanks; the `split` line is there exactly when the splits are present, the `pad` line exactly
when the pads are present, and the value of the `rotate` line is `true` or `false`. -/
theorem write_layout (atlas : TextureAtlas_atlas) :
    TextureAtlas_write atlas true
      = some ((atlas.pages.map written_page_lines).flatten).flatten ∧
    (∀ p : TextureAtlas_page,
      written_page_lines p
        = [['\n'], p.name ++ ['\n']] ++ written_page_attributes p
          ++ (p.regions.map
              (fun r => (r.name ++ ['\n']) :: written_region_attributes r)).flatten) ∧
    (∀ p : TextureAtlas_page,
      (written_page_attributes p).map key_text
        = ["size".toList, "format".toList, "filter".toList, "repeat".toList]
      ∧ (written_page_attributes p)[2]?
        = some ("filter: ".toList ++ filterEnumToString p.minificationFilter ++ ",".toList
            ++ filterEnumToString p.magnificationFilter ++ "\n".toList)) ∧
    (∀ r : TextureAtlas_region,
      (written_region_attributes r).map key_text
        = ["  rotate".toList, "  xy".toList, "  size".toList]
          ++ (if r.splits.isSome then ["  split".toList] else [])
          ++ (if r.pads.isSome then ["  pad".toList] else [])
          ++ ["  orig".toList, "  offset".toList, "  index".toList]
      ∧ (written_region_attributes r)[0]?
        = some ("  rotate: ".toList ++ (if r.rotate then "true".toList else "false".toList)
            ++ "\n".toList)) := by
  refine ⟨?_, ?_, ?_, ?_⟩
  · show (if (!true) = true then none else some (write_pages atlas.pages)) = _
    rw [write_pages_layout]
    rfl
  · intro p
    simp only [written_page_lines, written_page_block, PageBlock.lines, region_blocks_lines,
      blank_line, List.map_map, List.cons_append, List.nil_append, List.singleton_append]
    rfl
  · intro p
    exact ⟨rfl, by simp [written_page_attributes, attribute_text]⟩
  · intro r
    constructor
    · rcases hs : r.splits with _ | ⟨s0, s1, s2, s3⟩ <;>
        rcases hp : r.pads with _ | ⟨p0, p1, p2, p3⟩ <;>
        simp only [written_region_attributes, hs, hp] <;> rfl
    · simp [written_region_attributes, attribute_text]

/-! ## Reproduction of the text -/

/-- After a blank line read in any reader state the end of the input does not give an
atlas. -/
theorem read_eof_blank_line (dir : List Char) (s : Reader) :
    ∀ a, read_eof (read_line dir s blank_line) ≠ .atlas a := by
  intro a h
  have hlen : ((blank_line.length : Nat) : Int) = 1 := rfl
  cases s with
  | error => cases h
  | undefined => cases h
  | page_name pages =>
    simp only [read_line, hlen, read_name_blank, read_eof] at h
    cases h
  | page_attributes pages page =>
    simp only [read_line, hlen, parse_attribute_blank 0 (le_refl 0), start_region,
      read_name_blank] at h
    split_ifs at h <;> cases h
  | region_attributes pages page region =>
    simp only [read_line, hlen, parse_attribute_blank 2 (by decide), is_new_page_blank,
      if_true, read_eof] at h
    cases h

/-- Once the reader has left through an error exit, no atlas is returned. -/
theorem read_eof_error_exit (dir : List Char) (rest : List (List Char)) :
    ∀ a, read_eof (read_lines dir .error rest) ≠ .atlas a := by
  intro a h
  rw [read_lines_error] at h
  cases h

set_option maxRecDepth 8192 in
/-- C17, counterexample: the minimal descriptor is read to its atlas, but for the minimal
descriptor followed by a blank line (a blank line after its last region) no atlas is
returned. -/
theorem trailing_blank_line_rejected :
    TextureAtlas_read [] (some minimal_example) = .atlas (minimal_atlas []) ∧
    ∀ a, TextureAtlas_read [] (some trailing_blank_example) ≠ .atlas a := by
  refine ⟨by decide, ?_⟩
  intro a h
  have hlines : (getlines trailing_blank_example).getLast? = some blank_line := by decide
  obtain ⟨front, hfront⟩ := List.getLast?_eq_some_iff.mp hlines
  unfold TextureAtlas_read at h
  simp only [hfront] at h
  cases front with
  | nil =>
    simp only [List.nil_append] at h
    split_ifs at h
    · cases h
  | cons lineBuffer lines =>
    simp only [List.cons_append] at h
    split_ifs at h
    simp only [read_pages, read_lines_append, read_lines_cons, read_lines_nil] at h
    exact read_eof_blank_line [] _ a h

/-- C17, amended (page name at the end of the scan): when the reader is about to read a page
name and the line is blank, or there is no line left, the function leaves through the page
name error and no atlas is returned, whatever pages have been read and whatever follows; a
descriptor whose last line is a blank line is never read to an atlas. -/
theorem page_name_end_fails :
    (∀ (dir : List Char) (pages : List TextureAtlas_page) (rest : List (List Char))
        (a : TextureAtlas_atlas),
      read_eof (read_lines dir (.page_name pages) (blank_line :: rest)) ≠ .atlas a) ∧
    (∀ (pages : List TextureAtlas_page) (a : TextureAtlas_atlas),
      read_eof (.page_name pages) ≠ .atlas a) ∧
    (∀ (dir content : List Char), (getlines content).getLast? = some blank_line →
      ∀ a, TextureAtlas_read dir (some content) ≠ .atlas a) := by
  refine ⟨?_, ?_, ?_⟩
  · intro dir pages rest a
    have hlen : ((blank_line.length : Nat) : Int) = 1 := rfl
    have hline : read_line dir (.page_name pages) blank_line = .error := by
      simp only [read_line, hlen, read_name_blank]
    rw [read_lines_cons, hline]
    exact read_eof_error_exit dir rest a
  · intro pages a h
    cases h
  · intro dir content hlast a hread
    obtain ⟨front, hfront⟩ := List.getLast?_eq_some_iff.mp hlast
    unfold TextureAtlas_read at hread
    simp only [hfront] at hread
    cases front with
    | nil =>
      simp only [List.nil_append] at hread
      split_ifs at hread
      · cases hread
    | cons lineBuffer lines =>
      simp only [List.cons_append] at hread
      split_ifs at hread
      simp only [read_pages, read_lines_append, read_lines_cons, read_lines_nil] at hread
      exact read_eof_blank_line dir _ a hread

set_option maxRecDepth 8192 in
/-- C17, instance of the amended statement: the last line of the minimal descriptor followed
by a blank line is a blank line, and no atlas is returned for it. -/
theorem page_name_end_fails_witness :
    (getlines trailing_blank_example).getLast? = some blank_line ∧
    ∀ a, TextureAtlas_read [] (some trailing_blank_example) ≠ .atlas a :=
  ⟨by decide, page_name_end_fails.2.2 [] trailing_blank_example (by decide)⟩

/-! ## The token line parser -/

theorem strchr_eq_none (c : Char) : ∀ L : List Char, (∀ x ∈ L, x ≠ NUL) →
    (strchr L c = none ↔ c ∉ L) := by
  intro L
  induction L with
  | nil => intro _; simp [strchr]
  | cons x xs ih =>
    intro h
    have hx : x ≠ NUL := h x (List.mem_cons_self _ _)
    have ih2 := ih (fun y hy => h y (List.mem_cons_of_mem _ hy))
    rw [strchr, if_neg hx]
    by_cases hxc : x = c
    · subst hxc; simp
    · rw [if_neg hxc]
      have hcx : ¬ c = x := fun e => hxc e.symm
      simp only [Option.map_eq_none', ih2, List.mem_cons, hcx, false_or]

/-- A list that contains `c` splits at the first `c`. -/
theorem split_first (c : Char) : ∀ L : List Char, c ∈ L →
    ∃ key tail, L = key ++ c :: tail ∧ c ∉ key := by
  intro L
  induction L with
  | nil => intro h; cases h
  | cons x xs ih =>
    intro h
    by_cases hxc : x = c
    · subst hxc; exact ⟨[], xs, rfl, by simp⟩
    · have hc : c ∈ xs := by
        rcases List.mem_cons.mp h with e | e
        · exact absurd e.symm hxc
        · exact e
      obtain ⟨key, tail, h1, h2⟩ := ih hc
      refine ⟨x :: key, tail, by rw [h1]; rfl, ?_⟩
      intro hm
      rcases List.mem_cons.mp hm with e | e
      · exact hxc e.symm
      · exact h2 e

theorem takeWhile_split_first (c : Char) (key tail : List Char) (h : c ∉ key) :
    (key ++ c :: tail).takeWhile (fun x => x != c) = key := by
  induction key with
  | nil => simp [List.takeWhile]
  | cons x xs ih =>
    have hx : x ≠ c := fun e => h (by rw [e]; exact List.mem_cons_self _ _)
    have hxs : c ∉ xs := fun e => h (List.mem_cons_of_mem _ e)
    rw [List.cons_append, List.takeWhile_cons, if_pos (by simpa using hx), ih hxs]

/-- Every line is its content followed by the newline that `strip_newline` removes. -/
theorem strip_newline_spec (M : List Char) :
    ∃ nl, M = strip_newline M ++ nl ∧ (nl = [] ∨ nl = ['\n'])
      ∧ (nl = [] → M.getLast? ≠ some '\n') := by
  unfold strip_newline
  by_cases h : M.getLast? = some '\n'
  · rw [if_pos h]
    obtain ⟨ys, hys⟩ := List.getLast?_eq_some_iff.mp h
    refine ⟨['\n'], ?_, Or.inr rfl, fun e => by cases e⟩
    rw [hys, List.dropLast_concat]
  · rw [if_neg h]
    exact ⟨[], by simp, Or.inl rfl, fun _ => h⟩

theorem charAt_last (body : List Char) (x : Char) :
    charAt (body ++ [x]) body.length = x := by
  have := charAt_append_right body [x] 0
  simpa using this

/-- The part of `parse_attribute` after the lead blanks, for a line given as its content and
its terminator. -/
theorem parse_unindented_content (content nl : List Char)
    (hnl : nl = [] ∨ nl = ['\n']) (hlast : nl = [] → content.getLast? ≠ some '\n') :
    parse_unindented ((content ++ nl).length : Nat) (content ++ nl) =
      if content = [] then .notAttribute
      else if isspace (charAt content 0) = true then .notAttribute
      else split_at_colon content.length (content ++ nl) := by
  rcases hnl with rfl | rfl
  · rw [List.append_nil]
    rcases List.eq_nil_or_concat content with h | ⟨body, x, h⟩
    · subst h; simp [parse_unindented]
    · rw [List.concat_eq_append] at h
      subst h
      have hx : x ≠ '\n' := by
        intro e
        exact hlast rfl (by rw [e, List.getLast?_concat])
      have hne : body ++ [x] ≠ [] := by simp
      have hlen : (((body ++ [x]).length : Nat) : Int) = (body.length : Int) + 1 := by
        simp
      have hc : charAt (body ++ [x]) ((body.length : Int) + 1 - 1).toNat = x := by
        have : ((body.length : Int) + 1 - 1).toNat = body.length := by omega
        rw [this, charAt_last]
      unfold parse_unindented
      rw [hlen, hc, if_neg hx, if_neg (by omega), if_neg (by omega), if_neg hne]
  · have hlen : (((content ++ ['\n']).length : Nat) : Int) = (content.length : Int) + 1 := by
      simp
    have hc : charAt (content ++ ['\n']) ((content.length : Int) + 1 - 1).toNat = '\n' := by
      have : ((content.length : Int) + 1 - 1).toNat = content.length := by omega
      rw [this, charAt_last]
    have h1 : (content.length : Int) + 1 - 1 = content.length := by omega
    unfold parse_unindented
    rw [hlen, hc, if_pos rfl, if_neg (by omega), h1]
    by_cases hne : content = []
    · subst hne; simp
    · have hpos : 0 < content.length := List.length_pos.mpr hne
      have h0 : charAt (content ++ ['\n']) 0 = charAt content 0 :=
        charAt_append_left _ _ 0 hpos
      rw [if_neg (by omega), if_neg hne, h0]

theorem any_range_take : ∀ (d : Nat) (L : List Char), d ≤ L.length →
    (List.range d).any (fun i => decide (charAt L i ≠ ' '))
      = (L.take d).any (fun c => decide (c ≠ ' ')) := by
  intro d
  induction d with
  | zero => intro L _; rfl
  | succ d ih =>
    intro L h
    cases L with
    | nil => simp at h
    | cons x xs =>
      have hxs : d ≤ xs.length := by simpa using h
      rw [List.range_succ_eq_map, List.any_cons, List.any_map, List.take_succ_cons,
        List.any_cons, ← ih xs hxs]
      rfl

/-- The function `parse_attribute` on a whole line at depth `d`: the two tests on the lead
blanks, then the work on the rest of the line. -/
theorem parse_attribute_depth (d : Nat) (L : List Char) :
    parse_attribute (L.length : Nat) L (d : Nat) =
      if L.length < d then .notAttribute
      else if (L.take d).any (fun c => decide (c ≠ ' ')) = true then .notAttribute
      else parse_unindented ((L.drop d).length : Nat) (L.drop d) := by
  rcases Nat.eq_zero_or_pos d with rfl | hd
  · have h := parse_attribute_zero (L.length : Nat) L
    simp only [Nat.cast_zero] at h ⊢
    rw [h, if_neg (by omega)]
    simp
  · rw [parse_attribute_pos _ _ _ (by exact_mod_cast hd)]
    by_cases hlt : L.length < d
    · rw [if_pos (by exact_mod_cast hlt), if_pos hlt]
    · rw [if_neg (by exact_mod_cast hlt), if_neg hlt]
      have hle : d ≤ L.length := by omega
      have hany := any_range_take d L hle
      have hcast : ((L.length : Nat) : Int) - (d : Nat) = ((L.drop d).length : Nat) := by
        rw [List.length_drop]; omega
      simp only [Int.toNat_ofNat, hcast]
      rw [hany]

theorem strip_newline_eq_nil (M : List Char) :
    strip_newline M = [] ↔ M = [] ∨ M = ['\n'] := by
  obtain ⟨nl, h1, h2, h3⟩ := strip_newline_spec M
  constructor
  · intro h
    rw [h, List.nil_append] at h1
    rcases h2 with rfl | rfl
    · exact Or.inl h1
    · exact Or.inr h1
  · rintro (rfl | rfl)
    · rfl
    · rfl

/-- The end of `parse_attribute` when nothing follows the colon: the size passed to the second
`snprintf` is 0 and the value buffer is not written. -/
theorem split_at_colon_colon_last (key nl : List Char)
    (hkey : ∀ c ∈ key, c ≠ ':' ∧ c ≠ NUL) (hklen : key.length < 1024) :
    split_at_colon ((key.length : Int) + 1) (key ++ ':' :: nl) = .pair key none := by
  have hcolon : (':' : Char) ≠ NUL := by decide
  have hstr := strchr_append_found ':' hcolon key nl hkey
  have hknul : ∀ x ∈ key, x ≠ NUL := fun x hx => (hkey x hx).2
  have h1 : wrapInt ((key.length : Int) + 1) = (key.length : Int) + 1 :=
    wrapInt_small _ (by omega)
  have h2 : wrapInt ((key.length : Int) + 1 - 2 - ((key.length : Int) + 1) + 2) = 0 := by
    have : (key.length : Int) + 1 - 2 - ((key.length : Int) + 1) + 2 = 0 := by ring
    rw [this]; rfl
  have h3 : toSize ((key.length : Int) + 1) = key.length + 1 := by
    rw [toSize_small _ (by omega)]; omega
  have h4 : toSize 0 = 0 := rfl
  have h5 : (cstr (key ++ ':' :: nl)).take key.length = key := by
    rw [cstr_append _ _ hknul, List.take_left']
    rfl
  unfold split_at_colon
  simp only [hstr, h1, h2, h3, h4, snprintf_s, Nat.add_sub_cancel, Nat.succ_ne_zero, if_false,
    h5, BUFFER_SIZE, if_true]
  simp only [gt_iff_lt, Nat.not_lt.mpr (show key.length + 1 ≤ 1024 by omega), if_false]

/-- The end of `parse_attribute` on a line without NUL that fits the buffers and has a
colon. -/
theorem split_at_colon_content (content nl : List Char)
    (hnul : ∀ c ∈ content ++ nl, c ≠ NUL) (hlen : content.length < 1024)
    (hc : ':' ∈ content) :
    split_at_colon content.length (content ++ nl)
      = .pair (content.takeWhile (fun c => c != ':'))
          (if content.length = (content.takeWhile (fun c => c != ':')).length + 1 then none
           else some (content.drop ((content.takeWhile (fun c => c != ':')).length + 2))) := by
  obtain ⟨k, tail, rfl, hk⟩ := split_first ':' content hc
  have hkey : ∀ c ∈ k, c ≠ ':' ∧ c ≠ NUL := by
    intro c hck
    refine ⟨fun e => hk (e ▸ hck), hnul c ?_⟩
    simp only [List.mem_append, List.mem_cons]
    exact Or.inl (Or.inl hck)
  have hklen : k.length < 1024 := by
    simp only [List.length_append, List.length_cons] at hlen
    omega
  rw [takeWhile_split_first ':' k tail hk]
  cases tail with
  | nil =>
    have h := split_at_colon_colon_last k nl hkey hklen
    have e1 : (((k ++ [':']).length : Nat) : Int) = (k.length : Int) + 1 := by simp
    have e2 : k ++ [':'] ++ nl = k ++ ':' :: nl := by simp
    rw [e1, e2, h]
    simp
  | cons sp v =>
    have hvalue : ∀ c ∈ v, c ≠ NUL := by
      intro c hcv
      apply hnul c
      simp only [List.mem_append, List.mem_cons]
      exact Or.inl (Or.inr (Or.inr (Or.inr hcv)))
    have hvlen : v.length < 1024 := by
      simp only [List.length_append, List.length_cons] at hlen
      omega
    have h := split_at_colon_line k v nl sp hkey hvalue hklen hvlen
    have e1 : (((k ++ ':' :: sp :: v).length : Nat) : Int)
        = (k.length : Int) + 2 + (v.length : Int) := by
      simp only [List.length_append, List.length_cons]
      push_cast
      ring
    have e3 : (k ++ ':' :: sp :: v).drop (k.length + 2) = v := by
      rw [← List.drop_drop, List.drop_left']
      · rfl
      · rfl
    have e4 : ¬ (k ++ ':' :: sp :: v).length = k.length + 1 := by
      simp only [List.length_append, List.length_cons]
      omega
    rw [e1, h, e3, if_neg e4]

theorem charAt_zero_head (content : List Char) (hne : content ≠ []) :
    content.head? = some (charAt content 0) := by
  cases content with
  | nil => exact absurd rfl hne
  | cons x xs => rfl

/-- The part of `parse_attribute` after the lead blanks returns false exactly when the
content of the line is empty, starts with white space or has no colon. -/
theorem parse_unindented_content_fails (content nl : List Char)
    (hnl : nl = [] ∨ nl = ['\n']) (hlast : nl = [] → content.getLast? ≠ some '\n')
    (hnul : ∀ c ∈ content ++ nl, c ≠ NUL) :
    parse_unindented ((content ++ nl).length : Nat) (content ++ nl) = .notAttribute ↔
      (content = [] ∨ (∃ c, content.head? = some c ∧ isspace c = true) ∨ ':' ∉ content) := by
  rw [parse_unindented_content content nl hnl hlast]
  by_cases hne : content = []
  · rw [if_pos hne]
    exact ⟨fun _ => Or.inl hne, fun _ => rfl⟩
  · rw [if_neg hne]
    have hhead := charAt_zero_head content hne
    by_cases hsp : isspace (charAt content 0) = true
    · rw [if_pos hsp]
      exact ⟨fun _ => Or.inr (Or.inl ⟨_, hhead, hsp⟩), fun _ => rfl⟩
    · rw [if_neg hsp, split_at_colon_notAttribute, strchr_eq_none ':' _ hnul]
      have hcolon : ':' ∉ nl := by
        rcases hnl with rfl | rfl <;> decide
      constructor
      · intro h
        exact Or.inr (Or.inr (fun hc => h (List.mem_append_left _ hc)))
      · rintro (h | ⟨c, h1, h2⟩ | h)
        · exact absurd h hne
        · rw [hhead] at h1
          cases h1
          exact absurd h2 hsp
        · intro hc
          rcases List.mem_append.mp hc with hc | hc
          · exact h hc
          · exact hcolon hc

/-- When it does not return false, the part of `parse_attribute` after the lead blanks
returns the text before the first colon as key, and as value the text that starts two
characters behind the colon; the value buffer is not written when the colon is the last
character of the content. -/
theorem parse_unindented_content_pair (content nl : List Char)
    (hnl : nl = [] ∨ nl = ['\n']) (hlast : nl = [] → content.getLast? ≠ some '\n')
    (hnul : ∀ c ∈ content ++ nl, c ≠ NUL) (hlen : content.length < 1024)
    (h : parse_unindented ((content ++ nl).length : Nat) (content ++ nl) ≠ .notAttribute) :
    parse_unindented ((content ++ nl).length : Nat) (content ++ nl)
      = .pair (content.takeWhile (fun c => c != ':'))
          (if content.length = (content.takeWhile (fun c => c != ':')).length + 1 then none
           else some (content.drop ((content.takeWhile (fun c => c != ':')).length + 2))) := by
  have hc : ':' ∈ content := by
    by_contra hc
    exact h ((parse_unindented_content_fails content nl hnl hlast hnul).mpr
      (Or.inr (Or.inr hc)))
  rw [parse_unindented_content content nl hnl hlast] at h ⊢
  by_cases hne : content = []
  · rw [if_pos hne] at h; exact absurd rfl h
  · rw [if_neg hne] at h ⊢
    by_cases hsp : isspace (charAt content 0) = true
    · rw [if_pos hsp] at h; exact absurd rfl h
    · rw [if_neg hsp]
      exact split_at_colon_content content nl hnul hlen hc

theorem parse_unindented_fails_iff (M : List Char) (hnul : ∀ c ∈ M, c ≠ NUL) :
    parse_unindented (M.length : Nat) M = .notAttribute ↔
      (strip_newline M = [] ∨ (∃ c, (strip_newline M).head? = some c ∧ isspace c = true)
        ∨ ':' ∉ strip_newline M) := by
  obtain ⟨nl, h1, h2, h3⟩ := strip_newline_spec M
  generalize strip_newline M = content at h1 ⊢
  subst h1
  refine parse_unindented_content_fails content nl h2 ?_ hnul
  intro e
  have := h3 e
  rwa [e, List.append_nil] at this

theorem parse_unindented_pair (M : List Char) (hnul : ∀ c ∈ M, c ≠ NUL)
    (hlen : M.length < 1024)
    (h : parse_unindented (M.length : Nat) M ≠ .notAttribute) :
    parse_unindented (M.length : Nat) M
      = .pair ((strip_newline M).takeWhile (fun c => c != ':'))
          (if (strip_newline M).length
              = ((strip_newline M).takeWhile (fun c => c != ':')).length + 1 then none
           else some ((strip_newline M).drop
              (((strip_newline M).takeWhile (fun c => c != ':')).length + 2))) := by
  obtain ⟨nl, h1, h2, h3⟩ := strip_newline_spec M
  generalize strip_newline M = content at h1 ⊢
  subst h1
  refine parse_unindented_content_pair content nl h2 ?_ hnul ?_ h
  · intro e
    have := h3 e
    rwa [e, List.append_nil] at this
  · simp only [List.length_append] at hlen
    omega

theorem any_not_blank (l : List Char) :
    l.any (fun c => decide (c ≠ ' ')) = true ↔ ∃ c ∈ l, c ≠ ' ' := by
  simp only [List.any_eq_true, decide_eq_true_eq]

/-- On a line without NUL that fits the buffers, `parse_attribute` returns false, or returns
true with the text before the first colon of the content as key. -/
theorem parse_attribute_short (d : Nat) (line : List Char)
    (hnul : ∀ c ∈ line, c ≠ NUL) (hlen : line.length < 1024)
    (h : parse_attribute (line.length : Nat) line (d : Nat) ≠ .notAttribute) :
    parse_attribute (line.length : Nat) line (d : Nat)
      = .pair ((remaining_content d line).takeWhile (fun c => c != ':'))
          (if (remaining_content d line).length
              = ((remaining_content d line).takeWhile (fun c => c != ':')).length + 1
           then none
           else some ((remaining_content d line).drop
              (((remaining_content d line).takeWhile (fun c => c != ':')).length + 2))) := by
  rw [parse_attribute_depth] at h ⊢
  by_cases hlt : line.length < d
  · rw [if_pos hlt] at h; exact absurd rfl h
  · rw [if_neg hlt] at h ⊢
    by_cases hany : (line.take d).any (fun c => decide (c ≠ ' ')) = true
    · rw [if_pos hany] at h; exact absurd rfl h
    · rw [if_neg hany] at h ⊢
      exact parse_unindented_pair (line.drop d)
        (fun c hc => hnul c (List.mem_of_mem_drop hc))
        (by rw [List.length_drop]; omega) h

/-- The function `parse_attribute` returns false exactly in the five cases listed. -/
theorem parse_attribute_notAttribute_iff (d : Nat) (line : List Char)
    (hnul : ∀ c ∈ line, c ≠ NUL) :
    parse_attribute (line.length : Nat) line (d : Nat) = .notAttribute ↔
      (line.length < d
        ∨ (∃ c ∈ line.take d, c ≠ ' ')
        ∨ remaining_content d line = []
        ∨ (∃ c, (remaining_content d line).head? = some c ∧ isspace c = true)
        ∨ ':' ∉ remaining_content d line) := by
  rw [parse_attribute_depth]
  by_cases hlt : line.length < d
  · rw [if_pos hlt]
    exact ⟨fun _ => Or.inl hlt, fun _ => rfl⟩
  · rw [if_neg hlt]
    by_cases hany : (line.take d).any (fun c => decide (c ≠ ' ')) = true
    · rw [if_pos hany]
      exact ⟨fun _ => Or.inr (Or.inl ((any_not_blank _).mp hany)), fun _ => rfl⟩
    · rw [if_neg hany,
        parse_unindented_fails_iff (line.drop d)
          (fun c hc => hnul c (List.mem_of_mem_drop hc))]
      constructor
      · intro h
        exact Or.inr (Or.inr h)
      · rintro (h | h | h)
        · exact absurd h hlt
        · exact absurd ((any_not_blank _).mpr h) hany
        · exact h

/-- C18 (token line parser, failure condition): for a line without NUL and a depth `d`,
`parse_attribute` returns false exactly when the line has fewer than `d` characters, or one
of its first `d` characters is not a blank, or nothing remains after the removal of the `d`
indentation characters and of one newline at the end, or the first remaining character is
white space, or what remains has no colon.  On a line that fits the buffers the function
returns true in every other case. -/
theorem parse_attribute_fails_iff (d : Nat) (line : List Char)
    (hnul : ∀ c ∈ line, c ≠ NUL) :
    (parse_attribute (line.length : Nat) line (d : Nat) = .notAttribute ↔
      (line.length < d
        ∨ (∃ c ∈ line.take d, c ≠ ' ')
        ∨ remaining_content d line = []
        ∨ (∃ c, (remaining_content d line).head? = some c ∧ isspace c = true)
        ∨ ':' ∉ remaining_content d line)) ∧
    (line.length < BUFFER_SIZE →
      parse_attribute (line.length : Nat) line (d : Nat) ≠ .notAttribute →
      ∃ key value, parse_attribute (line.length : Nat) line (d : Nat) = .pair key value) :=
  ⟨parse_attribute_notAttribute_iff d line hnul,
   fun hlen h => ⟨_, _, parse_attribute_short d line hnul hlen h⟩⟩

/-- C18, instance: the line `  xy 1, 2` has no colon and is not an attribute line at depth
2; the line `  xy: 1, 2` is one at depth 2, but not at depth 0, where its first character is
white space. -/
theorem parse_attribute_fails_iff_witness :
    parse_attribute 10 "  xy 1, 2\n".toList 2 = .notAttribute ∧
    parse_attribute 11 "  xy: 1, 2\n".toList 0 = .notAttribute ∧
    (∃ key value, parse_attribute 11 "  xy: 1, 2\n".toList 2 = .pair key value) :=
  ⟨(parse_attribute_fails_iff 2 "  xy 1, 2\n".toList (by decide)).1.mpr
      (Or.inr (Or.inr (Or.inr (Or.inr (by decide))))),
   (parse_attribute_fails_iff 0 "  xy: 1, 2\n".toList (by decide)).1.mpr
      (Or.inr (Or.inr (Or.inr (Or.inl ⟨' ', by decide, by decide⟩)))),
   (parse_attribute_fails_iff 2 "  xy: 1, 2\n".toList (by decide)).2 (by decide)
      (by decide)⟩

/-- C19 (token line parser, split): when `parse_attribute` returns true on a line without
NUL that fits the buffers, the key is the text between the `d` indentation characters and
the first colon, so it has no colon, and the value is the text that starts two characters
behind that colon and ends at the end of the line, one newline removed, provided at least
one character follows the colon; when the colon is the last character the value buffer is
not written at all (`none`), as for the line `  rotate:`.  For a line made of `d` blanks, a
key `K`, a colon, a blank, a value `V` and a newline the result is `(K, V)`. -/
theorem parse_attribute_split :
    (∀ (d : Nat) (line key : List Char) (value : Option (List Char)),
      (∀ c ∈ line, c ≠ NUL) → line.length < BUFFER_SIZE →
      parse_attribute (line.length : Nat) line (d : Nat) = .pair key value →
      key = (remaining_content d line).takeWhile (fun c => c != ':')
      ∧ ':' ∉ key
      ∧ ((remaining_content d line).drop key.length).head? = some ':'
      ∧ value = if (remaining_content d line).length = key.length + 1 then none
          else some ((remaining_content d line).drop (key.length + 2))) ∧
    (∀ (d : Nat) (K V : List Char), is_key K = true → is_value V →
      parse_attribute ((attribute_text d K V).length : Nat) (attribute_text d K V) (d : Nat)
        = .pair K (some V)) ∧
    parse_attribute 10 "  rotate:\n".toList 2 = .pair "rotate".toList none := by
  refine ⟨?_, fun d K V hk hv => parse_attribute_text d K V hk hv, by decide⟩
  intro d line key value hnul hlen h
  have hne : parse_attribute (line.length : Nat) line (d : Nat) ≠ .notAttribute := by
    rw [h]; exact fun e => Parsed.noConfusion e
  have hc : ':' ∈ remaining_content d line := by
    by_contra hc
    exact hne ((parse_attribute_notAttribute_iff d line hnul).mpr
      (Or.inr (Or.inr (Or.inr (Or.inr hc)))))
  rw [parse_attribute_short d line hnul hlen hne] at h
  injection h with hk hv
  obtain ⟨k, tail, hsplit, hkc⟩ := split_first ':' _ hc
  have htw := takeWhile_split_first ':' k tail hkc
  rw [← hsplit] at htw
  rw [htw] at hk hv
  subst hk
  refine ⟨htw.symm, hkc, ?_, hv.symm⟩
  rw [hsplit, List.drop_left']
  · rfl
  · rfl

/-- C19, instance: on the line `  xy: 1, 2` at depth 2 the key is `xy` and the value is
`1, 2`; on the line `  rotate:` the key is `rotate` and the value buffer is not written. -/
theorem parse_attribute_split_witness :
    ("xy".toList = (remaining_content 2 "  xy: 1, 2\n".toList).takeWhile (fun c => c != ':')
      ∧ ':' ∉ "xy".toList
      ∧ ((remaining_content 2 "  xy: 1, 2\n".toList).drop "xy".toList.length).head?
          = some ':'
      ∧ some "1, 2".toList
        = if (remaining_content 2 "  xy: 1, 2\n".toList).length = "xy".toList.length + 1
          then none
          else some ((remaining_content 2 "  xy: 1, 2\n".toList).drop
            ("xy".toList.length + 2))) ∧
    parse_attribute 10 "  rotate:\n".toList 2 = .pair "rotate".toList none :=
  ⟨parse_attribute_split.1 2 "  xy: 1, 2\n".toList "xy".toList (some "1, 2".toList)
      (by decide) (by decide) (by decide),
   parse_attribute_split.2.2⟩

/-! ## The filter line -/

/-- The page attribute loop over `pre ++ l :: post` passes through the state reached after
`pre`. -/
theorem page_attribute_lines_split :
    ∀ (pre : List (List Char)) (l : List Char) (post : List (List Char))
      (page page2 : TextureAtlas_page),
      pre.all (is_attribute_line 0) = true →
      page_attribute_lines page (pre ++ l :: post) = .ok page2 →
      ∃ page1, page_attribute_lines page pre = .ok page1
        ∧ page_attribute_lines page1 (l :: post) = .ok page2 := by
  intro pre
  induction pre with
  | nil => intro l post page page2 _ h; exact ⟨page, rfl, h⟩
  | cons x xs ih =>
    intro l post page page2 hall h
    rw [List.all_cons, Bool.and_eq_true] at hall
    have hx := (is_attribute_line_iff 0 x).mp hall.1
    cases hpa : parse_attribute x.length x 0 with
    | notAttribute => exact absurd hpa hx
    | undefined => simp only [List.cons_append, page_attribute_lines, hpa] at h; cases h
    | pair key value =>
      cases hq : page_attribute page key value with
      | error => simp only [List.cons_append, page_attribute_lines, hpa, hq] at h; cases h
      | undefined =>
        simp only [List.cons_append, page_attribute_lines, hpa, hq] at h; cases h
      | ok page3 =>
        simp only [List.cons_append, page_attribute_lines, hpa, hq] at h
        obtain ⟨page1, h1, h2⟩ := ih l post page3 page2 hall.2 h
        exact ⟨page1, by simp only [page_attribute_lines, hpa, hq, h1], h2⟩

/-- A property that the line `l` with key `K` establishes and that only lines with key `K`
can change holds after the page attribute loop when no later line has the key `K`. -/
theorem page_attribute_lines_last (P : TextureAtlas_page → Prop) (K : List Char)
    (hP : ∀ page key value page2, key ≠ K →
      page_attribute page key value = .ok page2 → P page → P page2)
    (pre post : List (List Char)) (l value : List Char)
    (page page2 : TextureAtlas_page)
    (hpre : pre.all (is_attribute_line 0) = true)
    (hl : parse_attribute l.length l 0 = .pair K (some value))
    (hset : ∀ q q2, page_attribute q K (some value) = .ok q2 → P q2)
    (hpost : ∀ x ∈ post, attribute_key 0 x ≠ some K)
    (h : page_attribute_lines page (pre ++ l :: post) = .ok page2) : P page2 := by
  obtain ⟨page1, _, h2⟩ := page_attribute_lines_split pre l post page page2 hpre h
  cases hq : page_attribute page1 K (some value) with
  | error => simp only [page_attribute_lines, hl, hq] at h2; cases h2
  | undefined => simp only [page_attribute_lines, hl, hq] at h2; cases h2
  | ok page3 =>
    simp only [page_attribute_lines, hl, hq] at h2
    exact page_attribute_lines_keeps P K hP post page3 page2 hpost h2 (hset _ _ hq)

/-- The position found by `strchr` splits the buffer. -/
theorem strchr_some (c : Char) : ∀ (L : List Char) (n : Nat), strchr L c = some n →
    L = L.take n ++ c :: L.drop (n + 1) := by
  intro L
  induction L with
  | nil => intro n h; simp [strchr] at h
  | cons x xs ih =>
    intro n h
    rw [strchr] at h
    split_ifs at h with h1 h2
    · cases h
      rw [h2]
      rfl
    · cases hs : strchr xs c with
      | none => rw [hs] at h; cases h
      | some m =>
        rw [hs] at h
        simp only [Option.map_some', Option.some.injEq] at h
        subst h
        have := ih m hs
        simp only [List.take_succ_cons, List.drop_succ_cons, List.cons_append]
        rw [← this]

theorem strchr_mem (c : Char) (L : List Char) (n : Nat) (h : strchr L c = some n) :
    c ∈ L := by
  rw [strchr_some c L n h]
  simp

/-- The `size` branch of the page attribute loop stores the first converted number in both
fields. -/
theorem page_attribute_size_matched (page : TextureAtlas_page) (value rest : List Char)
    (w h : Nat) (hs : sscanf_u_u value = .matched (w, h) rest) :
    page_attribute page "size".toList (some value)
      = .ok { page with width := toInt32 w, height := toInt32 w } := by
  unfold page_attribute
  rw [if_pos rfl]
  simp only [hs]

theorem size_line_value (w h : Int) (sep : List Char) (hw : is_int w) (hh : is_int h)
    (hsep : sep = ", ".toList ∨ sep = ",".toList) :
    sscanf_u_u (two_numbers w sep h) = .matched (toUInt32 w, toUInt32 h) [] := by
  rcases hsep with rfl | rfl
  · have hs := (sscanf_u_u_fmt_i w h hw hh [] not_digit_head_nil).1
    have hform : two_numbers w ", ".toList h = fmt_i w ++ ',' :: ' ' :: (fmt_i h ++ []) := by
      simp [two_numbers]
    rw [hform, hs]
  · have hs := (sscanf_u_u_fmt_i w h hw hh [] not_digit_head_nil).2
    have hform : two_numbers w ",".toList h = fmt_i w ++ ',' :: (fmt_i h ++ []) := by
      simp [two_numbers]
    rw [hform, hs]

theorem parse_attribute_size_line (w h : Int) (sep nl : List Char)
    (hw : is_int w) (hh : is_int h) (hsep : sep = ", ".toList ∨ sep = ",".toList)
    (hnl : is_terminator nl) :
    parse_attribute ((size_line w h sep nl).length : Nat) (size_line w h sep nl) 0
      = .pair "size".toList (some (two_numbers w sep h)) := by
  have hv := is_value_two_numbers w h sep hw hh hsep
  unfold size_line
  exact parse_attribute_literal 0 _ "size".toList _ nl (by decide) (by decide) hv.1 hv.2 hnl

/-- A page that went through the page attribute loop has equal width and height. -/
theorem page_of_block_square (dir : List Char) (index : Int) (b : PageBlock)
    (p : TextureAtlas_page) (h : page_of_block dir index b = .ok p) :
    p.height = p.width := by
  obtain ⟨pageName, page, _, hattrs, _, _, _, heq⟩ := page_of_block_ok dir index b p h
  have := page_attribute_lines_size_inv b.attributes _ page hattrs
    ⟨rfl, by
      show is_int (-1)
      decide⟩
  rw [heq]
  exact this.1

set_option maxRecDepth 8192 in
/-- C21, counterexample: for the page line `size: 128, 512` the reader stores 128, the first
number, in the width and in the height; the second number 512 is stored nowhere. -/
theorem page_size_not_second :
    ∃ a p, TextureAtlas_read [] (some tall_page_example) = .atlas a ∧ a.pages = [p]
      ∧ p.width = 128 ∧ p.height = 128 ∧ p.width ≠ 512 ∧ p.height ≠ 512 := by
  refine ⟨{ minimal_atlas [] with
            pages := (minimal_atlas []).pages.map
              (fun q => { q with width := 128, height := 128 }) }, _, by decide, rfl,
    ?_, ?_, ?_, ?_⟩ <;> decide

/-- C21, amended (page size): the `size` branch of the page attribute loop stores one and the
same value in the width and in the height of the page, and this value is the first number
converted from the line; so every page of a returned atlas has its height equal to its
width, and a page whose last `size` line is `size: W, H` or `size: W,H` has width `W` and
height `W`. -/
theorem page_size_first_integer :
    (∀ (page : TextureAtlas_page) (value rest : List Char) (w h : Nat),
      sscanf_u_u value = .matched (w, h) rest →
      page_attribute page "size".toList (some value)
        = .ok { page with width := toInt32 w, height := toInt32 w }) ∧
    (∀ (dir : List Char) (atlasFile : Option (List Char)) (a : TextureAtlas_atlas),
      TextureAtlas_read dir atlasFile = .atlas a → ∀ p ∈ a.pages, p.height = p.width) ∧
    (∀ (dir content : List Char) (blocks : List PageBlock) (a : TextureAtlas_atlas)
        (i : Nat) (b : PageBlock),
      TextureAtlas_read dir (some content) = .atlas a →
      getlines content = descriptor_lines blocks → blocks.all PageBlock.shaped = true →
      blocks[i]? = some b →
      ∃ p, a.pages[i]? = some p ∧
        ∀ (pre post : List (List Char)) (w h : Int) (sep nl : List Char),
          b.attributes = pre ++ size_line w h sep nl :: post →
          is_int w → is_int h → (sep = ", ".toList ∨ sep = ",".toList) → is_terminator nl →
          (∀ l ∈ post, attribute_key 0 l ≠ some "size".toList) →
          p.width = w ∧ p.height = w) := by
  refine ⟨page_attribute_size_matched, ?_, ?_⟩
  · intro dir atlasFile a hread p hp
    cases atlasFile with
    | none => cases hread
    | some content =>
      obtain ⟨blocks, _, _, hpages⟩ := read_accepts_blocks dir content a hread
      obtain ⟨i, b, _, _, hpb⟩ := pages_of_blocks_mem dir blocks a.pages hpages p hp
      exact page_of_block_square dir _ b p hpb
  · intro dir content blocks a i b hread hlines hshape hb
    obtain ⟨_, _, hpages⟩ := read_blocks_page dir content blocks a hread hlines hshape
    obtain ⟨p, hp1, hp2⟩ := hpages i b hb
    obtain ⟨pageName, page, _, hattrs, _, _, _, heq⟩ := page_of_block_ok dir _ b p hp2
    have hs : b.shaped = true :=
      List.all_eq_true.mp hshape b (List.getElem?_mem hb)
    have hall : b.attributes.all (is_attribute_line 0) = true := by
      simp only [PageBlock.shaped, Bool.and_eq_true] at hs
      exact hs.1
    refine ⟨p, hp1, ?_⟩
    intro pre post w h sep nl hb2 hw hh hsep hnl hpost
    rw [hb2] at hattrs hall
    have hpre : pre.all (is_attribute_line 0) = true := by
      rw [List.all_append, Bool.and_eq_true] at hall
      exact hall.1
    have hres := page_attribute_lines_last
      (fun q => q.width = w ∧ q.height = w) "size".toList
      (fun q key value q2 hk hq hq1 => by
        have hkeep := (page_attribute_keeps q q2 key value hq).1 hk
        exact ⟨hkeep.1.trans hq1.1, hkeep.2.trans hq1.2⟩)
      pre post _ _ _ page hpre (parse_attribute_size_line w h sep nl hw hh hsep hnl)
      (fun q q2 hq => by
        rw [page_attribute_size_matched q _ [] _ _ (size_line_value w h sep hw hh hsep)] at hq
        cases hq
        exact ⟨toInt32_toUInt32 w hw, toInt32_toUInt32 w hw⟩)
      hpost hattrs
    rw [heq]
    exact hres

set_option maxRecDepth 8192 in
/-- C21, instance of the amended statement: the page read from `tall_page_example`, whose
`size` line is `size: 128, 512`, has width 128 and height 128. -/
theorem page_size_first_integer_witness :
    ∃ a p, TextureAtlas_read [] (some tall_page_example) = .atlas a ∧ a.pages[0]? = some p
      ∧ p.width = 128 ∧ p.height = 128 := by
  have hread : TextureAtlas_read [] (some tall_page_example)
      = .atlas { minimal_atlas [] with
          pages := (minimal_atlas []).pages.map
            (fun q => { q with width := 128, height := 128 }) } := by decide
  obtain ⟨p, h1, h2⟩ :=
    page_size_first_integer.2.2 [] tall_page_example tall_page_blocks _ 0 _
      hread (by decide) (by decide) rfl
  have h3 := h2 []
    ["format: RGBA8888\n".toList, "filter: Nearest,Nearest\n".toList,
      "repeat: none\n".toList] 128 512 ", ".toList ['\n'] (by decide) (by decide)
    (by decide) (Or.inl rfl) (Or.inr rfl) (by decide)
  exact ⟨_, p, hread, h1, h3.1, h3.2⟩

/-! ## Pages and regions are not empty -/

theorem start_region_no_name (pages : List TextureAtlas_page) (page : TextureAtlas_page) :
    start_region pages page 1 blank_line = .error
    ∧ start_region pages page (-1) [] = .error := by
  have h : read_name (-1) [] = none := by simp [read_name]
  simp only [start_region, read_name_blank, h, and_self]

/-- C22 (pages and regions are not empty): an atlas returned by the reader has at least one
page and each of its pages has at least one region.  A page block without region blocks,
that is one whose attribute lines are followed directly by a blank line or by the end of the
input, makes `TextureAtlas_read` return no atlas; when its attribute lines give a complete
page, the reader is then at the top of the region loop with a blank line or without a line,
where `read_name` returns NULL and the function leaves through the region name error. -/
theorem pages_and_regions_not_empty :
    (∀ (dir : List Char) (atlasFile : Option (List Char)) (a : TextureAtlas_atlas),
      TextureAtlas_read dir atlasFile = .atlas a →
      a.pages ≠ [] ∧ ∀ p ∈ a.pages, p.regions ≠ []) ∧
    (∀ (dir content : List Char) (blocks : List PageBlock) (b : PageBlock),
      getlines content = descriptor_lines blocks → blocks.all PageBlock.shaped = true →
      b ∈ blocks → b.regions = [] →
      ∀ a, TextureAtlas_read dir (some content) ≠ .atlas a) ∧
    (∀ (dir : List Char) (pages : List TextureAtlas_page) (b : PageBlock)
        (pageName : List Char) (page : TextureAtlas_page),
      b.shaped = true → b.regions = [] →
      read_name b.nameLine.length b.nameLine = some pageName →
      page_attribute_lines (new_page dir pages.length pageName) b.attributes = .ok page →
      page_complete page = true →
      read_lines dir (.page_name pages) b.lines = .page_attributes pages page
      ∧ read_line dir (.page_attributes pages page) blank_line
          = start_region pages page 1 blank_line
      ∧ start_region pages page 1 blank_line = .error
      ∧ start_region pages page (-1) [] = .error
      ∧ read_eof (.page_attributes pages page) = .null) := by
  refine ⟨?_, ?_, ?_⟩
  · intro dir atlasFile a hread
    cases atlasFile with
    | none => cases hread
    | some content =>
      obtain ⟨blocks, hshape, hlines, hpages⟩ := read_accepts_blocks dir content a hread
      constructor
      · intro hnil
        have hne : blocks ≠ [] := by
          intro hb
          rw [read_descriptor dir content blocks hlines hshape, hb] at hread
          cases hread
        obtain ⟨new, h1, h2, _⟩ := pages_of_blocks_ok dir blocks [] a.pages hpages
        rw [hnil, List.nil_append] at h1
        rw [← h1] at h2
        exact hne (List.length_eq_zero.mp h2.symm)
      · intro p hp
        obtain ⟨i, b, _, _, hpb⟩ := pages_of_blocks_mem dir blocks a.pages hpages p hp
        obtain ⟨_, _, _, _, _, hne, hregions, _⟩ := page_of_block_ok dir _ b p hpb
        obtain ⟨hlen, _⟩ := regions_of_blocks_ok b.regions p.regions hregions
        intro hnil
        rw [hnil] at hlen
        exact hne (List.length_eq_zero.mp hlen.symm)
  · intro dir content blocks b hlines hshape hb hnil a hread
    obtain ⟨_, _, hpages⟩ := read_blocks_page dir content blocks a hread hlines hshape
    obtain ⟨i, hi, hbi⟩ := List.mem_iff_getElem.mp hb
    obtain ⟨p, _, hp⟩ := hpages i b (by rw [List.getElem?_eq_getElem hi, hbi])
    obtain ⟨_, _, _, _, _, hne, _, _⟩ := page_of_block_ok dir _ b p hp
    exact hne hnil
  · intro dir pages b pageName page hshape hnil hname hattrs hcomplete
    have hlen : ((blank_line.length : Nat) : Int) = 1 := rfl
    refine ⟨?_, ?_, (start_region_no_name pages page).1, (start_region_no_name pages page).2,
      read_eof_page_attributes pages page⟩
    · rw [read_lines_page_block dir pages b hshape]
      simp only [page_block_state, hname, hattrs, hnil]
    · simp only [read_line, hlen, parse_attribute_blank 0 (le_refl 0), hcomplete, if_true]

set_option maxRecDepth 8192 in
/-- C22, instance: the descriptor whose first page block has no region, and the descriptor
that ends after the attribute lines of its page, are rejected; the atlas of the minimal
descriptor has one page with one region. -/
theorem pages_and_regions_not_empty_witness :
    (∀ a, TextureAtlas_read [] (some no_region_example) ≠ .atlas a) ∧
    (∀ a, TextureAtlas_read [] (some no_region_at_end_example) ≠ .atlas a) ∧
    TextureAtlas_read [] (some no_region_example) = .null ∧
    TextureAtlas_read [] (some no_region_at_end_example) = .null ∧
    ((minimal_atlas []).pages ≠ [] ∧ ∀ p ∈ (minimal_atlas []).pages, p.regions ≠ []) :=
  ⟨pages_and_regions_not_empty.2.1 [] no_region_example
      [{ no_region_block with nameLine := "empty.png\n".toList }, minimal_page_block] _
      (by decide) (by decide) (List.mem_cons_self _ _) rfl,
   pages_and_regions_not_empty.2.1 [] no_region_at_end_example [no_region_block] _
      (by decide) (by decide) (List.mem_singleton.mpr rfl) rfl,
   by decide, by decide,
   pages_and_regions_not_empty.1 [] (some minimal_example) (minimal_atlas []) (by decide)⟩

/-! ## Regions without attribute lines -/

/-- C23 (no completeness check on regions): a region block that is a name line only
describes the region as it is created at the top of the region loop: rotate false, index -1,
no splits, no pads, and x, y, width, height, original width and height and both offsets at
the value that the assignment of -1 stores in an `unsigned int`, whose `int` reading is -1.
The reader accepts such a block whatever follows it: at the end of the input it returns the
atlas with this region, at a blank line it closes the page with this region, and at the name
line of another region it closes this region and starts the next; in a returned atlas the
region of such a block is the region just described. -/
theorem region_without_attributes :
    (∀ (nameLine regionName : List Char),
      read_name nameLine.length nameLine = some regionName →
      region_of_block { nameLine := nameLine, attributes := [] }
        = .ok (new_region regionName)) ∧
    (∀ regionName : List Char,
      (new_region regionName).name = regionName
      ∧ (new_region regionName).rotate = false ∧ (new_region regionName).index = -1
      ∧ (new_region regionName).splits = none ∧ (new_region regionName).pads = none
      ∧ (new_region regionName).x = toUInt32 (-1)
      ∧ (new_region regionName).y = toUInt32 (-1)
      ∧ (new_region regionName).width = toUInt32 (-1)
      ∧ (new_region regionName).height = toUInt32 (-1)
      ∧ (new_region regionName).originalWidth = toUInt32 (-1)
      ∧ (new_region regionName).originalHeight = toUInt32 (-1)
      ∧ (new_region regionName).offsetX = toUInt32 (-1)
      ∧ (new_region regionName).offsetY = toUInt32 (-1)
      ∧ toInt32 (toUInt32 (-1)) = -1) ∧
    (∀ (dir : List Char) (pages : List TextureAtlas_page) (page : TextureAtlas_page)
        (regionName : List Char),
      read_eof (.region_attributes pages page (new_region regionName))
        = .atlas { pages := pages ++ [close_region page (new_region regionName)],
                   numberOfPages := (pages.length : Int) + 1 }
      ∧ read_line dir (.region_attributes pages page (new_region regionName)) blank_line
        = .page_name (pages ++ [close_region page (new_region regionName)])
      ∧ ∀ (l nextName : List Char),
          parse_attribute l.length l 2 = .notAttribute → is_new_page l.length l = false →
          read_name l.length l = some nextName →
          read_line dir (.region_attributes pages page (new_region regionName)) l
            = .region_attributes pages (close_region page (new_region regionName))
                (new_region nextName)) ∧
    (∀ (dir content : List Char) (blocks : List PageBlock) (a : TextureAtlas_atlas)
        (i j : Nat) (b : PageBlock) (rb : RegionBlock),
      TextureAtlas_read dir (some content) = .atlas a →
      getlines content = descriptor_lines blocks → blocks.all PageBlock.shaped = true →
      blocks[i]? = some b → b.regions[j]? = some rb → rb.attributes = [] →
      ∃ regionName, read_name rb.nameLine.length rb.nameLine = some regionName
        ∧ region_at a i j = some (new_region regionName)) := by
  refine ⟨?_, ?_, ?_, ?_⟩
  · intro nameLine regionName h
    simp only [region_of_block, h, region_attribute_lines]
  · intro regionName
    refine ⟨rfl, rfl, rfl, rfl, rfl, rfl, rfl, rfl, rfl, rfl, rfl, rfl, rfl, by decide⟩
  · intro dir pages page regionName
    have hlen : ((blank_line.length : Nat) : Int) = 1 := rfl
    refine ⟨rfl, ?_, ?_⟩
    · simp only [read_line, hlen, parse_attribute_blank 2 (by decide), is_new_page_blank,
        if_true]
    · intro l nextName h1 h2 h3
      simp only [read_line, h1, h2, start_region, h3]
      rfl
  · intro dir content blocks a i j b rb hread hlines hshape hb hrb hnil
    obtain ⟨r, hr1, hr2⟩ :=
      read_blocks_region dir content blocks a hread hlines hshape i j b rb hb hrb
    unfold region_of_block at hr2
    cases hn : read_name rb.nameLine.length rb.nameLine with
    | none => rw [hn] at hr2; cases hr2
    | some regionName =>
      rw [hn, hnil] at hr2
      simp only [region_attribute_lines, Step.ok.injEq] at hr2
      exact ⟨regionName, rfl, by rw [hr2]; exact hr1⟩

set_option maxRecDepth 8192 in
/-- C23, instance: `name_only_example` is read to `name_only_atlas`; its regions `a`
(followed by a region name), `b` (followed by a blank line) and `c` (followed by the end of
the input) are the regions as created. -/
theorem region_without_attributes_witness :
    TextureAtlas_read [] (some name_only_example) = .atlas name_only_atlas ∧
    (∃ regionName, read_name 2 "a\n".toList = some regionName
      ∧ region_at name_only_atlas 0 0 = some (new_region regionName)) ∧
    (∃ regionName, read_name 2 "b\n".toList = some regionName
      ∧ region_at name_only_atlas 0 1 = some (new_region regionName)) ∧
    (∃ regionName, read_name 2 "c\n".toList = some regionName
      ∧ region_at name_only_atlas 1 0 = some (new_region regionName)) :=
  ⟨by decide,
   region_without_attributes.2.2.2 [] name_only_example name_only_blocks name_only_atlas
      0 0 _ _ (by decide) (by decide) (by decide) rfl rfl rfl,
   region_without_attributes.2.2.2 [] name_only_example name_only_blocks name_only_atlas
      0 1 _ _ (by decide) (by decide) (by decide) rfl rfl rfl,
   region_without_attributes.2.2.2 [] name_only_example name_only_blocks name_only_atlas
      1 0 _ _ (by decide) (by decide) (by decide) rfl rfl rfl⟩

/-! ## Decoding and encoding -/

theorem parse_format_value_token (t : List Char) (v : TextureAtlas_format)
    (h : parse_format_value t = some v) :
    formatEnumToString v = t ∧ v ≠ .UNDEFINED_FORMAT := by
  unfold parse_format_value at h
  split_ifs at h with h1 h2 h3 h4 h5 h6 h7 <;> cases h <;>
    exact ⟨by subst_vars; rfl, by decide⟩

theorem parse_filter_value_defined (t : List Char) (v : TextureAtlas_filter)
    (h : parse_filter_value t = some v) :
    filterEnumToString v = t ∧ v ≠ .UNDEFINED_FILTER := by
  unfold parse_filter_value at h
  split_ifs at h with h1 h2 h3 h4 h5 h6 h7 <;> cases h <;>
    exact ⟨by subst_vars; rfl, by decide⟩

theorem parse_repeat_value_token (t : List Char) (v : TextureAtlas_repeat)
    (h : parse_repeat_value t = some v) :
    repeatEnumToString v = t ∧ v ≠ .UNDEFINED_REPEAT := by
  unfold parse_repeat_value at h
  split_ifs at h with h1 h2 h3 h4 <;> cases h <;>
    exact ⟨by subst_vars; rfl, by decide⟩

/-- C24 (decoders and encoders are inverse to each other): when the format, filter or repeat
decoder accepts a string and yields a value, this value is a defined one and the encoder
returns exactly that string for it; the encoders are injective on the defined values; none
of them returns the placeholder `ERROR!!!!` for a defined value; and every decoder rejects
the placeholder. -/
theorem decode_then_encode :
    ((∀ (t : List Char) (v : TextureAtlas_format), parse_format_value t = some v →
        formatEnumToString v = t ∧ v ≠ .UNDEFINED_FORMAT) ∧
      (∀ (t : List Char) (v : TextureAtlas_filter), parse_filter_value t = some v →
        filterEnumToString v = t ∧ v ≠ .UNDEFINED_FILTER) ∧
      (∀ (t : List Char) (v : TextureAtlas_repeat), parse_repeat_value t = some v →
        repeatEnumToString v = t ∧ v ≠ .UNDEFINED_REPEAT)) ∧
    ((∀ v w : TextureAtlas_format, v ≠ .UNDEFINED_FORMAT → w ≠ .UNDEFINED_FORMAT →
        formatEnumToString v = formatEnumToString w → v = w) ∧
      (∀ v w : TextureAtlas_filter, v ≠ .UNDEFINED_FILTER → w ≠ .UNDEFINED_FILTER →
        filterEnumToString v = filterEnumToString w → v = w) ∧
      (∀ v w : TextureAtlas_repeat, v ≠ .UNDEFINED_REPEAT → w ≠ .UNDEFINED_REPEAT →
        repeatEnumToString v = repeatEnumToString w → v = w)) ∧
    ((∀ v : TextureAtlas_format, v ≠ .UNDEFINED_FORMAT →
        formatEnumToString v ≠ ERROR_PLACEHOLDER) ∧
      (∀ v : TextureAtlas_filter, v ≠ .UNDEFINED_FILTER →
        filterEnumToString v ≠ ERROR_PLACEHOLDER) ∧
      (∀ v : TextureAtlas_repeat, v ≠ .UNDEFINED_REPEAT →
        repeatEnumToString v ≠ ERROR_PLACEHOLDER)) ∧
    (parse_format_value ERROR_PLACEHOLDER = none
      ∧ parse_filter_value ERROR_PLACEHOLDER = none
      ∧ parse_repeat_value ERROR_PLACEHOLDER = none) := by
  refine ⟨⟨parse_format_value_token, parse_filter_value_defined, parse_repeat_value_token⟩,
    ⟨?_, ?_, ?_⟩, ⟨?_, ?_, ?_⟩, ⟨by decide, by decide, by decide⟩⟩
  · intro v w hv hw h
    cases v <;> cases w <;>
      first | rfl | exact absurd rfl hv | exact absurd rfl hw | exact absurd h (by decide)
  · intro v w hv hw h
    cases v <;> cases w <;>
      first | rfl | exact absurd rfl hv | exact absurd rfl hw | exact absurd h (by decide)
  · intro v w hv hw h
    cases v <;> cases w <;>
      first | rfl | exact absurd rfl hv | exact absurd rfl hw | exact absurd h (by decide)
  · intro v hv
    cases v <;> first | exact absurd rfl hv | decide
  · intro v hv
    cases v <;> first | exact absurd rfl hv | decide
  · intro v hv
    cases v <;> first | exact absurd rfl hv | decide

/-- C24, instance: the decoders accept `RGB565`, `MipMapLinearNearest` and `xy`, and the
encoders return these strings for the values decoded. -/
theorem decode_then_encode_witness :
    (formatEnumToString .RGB565 = "RGB565".toList
      ∧ TextureAtlas_format.RGB565 ≠ .UNDEFINED_FORMAT) ∧
    (filterEnumToString .MIP_MAP_LINEAR_NEAREST = "MipMapLinearNearest".toList
      ∧ TextureAtlas_filter.MIP_MAP_LINEAR_NEAREST ≠ .UNDEFINED_FILTER) ∧
    (repeatEnumToString .XY = "xy".toList
      ∧ TextureAtlas_repeat.XY ≠ .UNDEFINED_REPEAT) :=
  ⟨decode_then_encode.1.1 "RGB565".toList .RGB565 (by decide),
   decode_then_encode.1.2.1 "MipMapLinearNearest".toList .MIP_MAP_LINEAR_NEAREST (by decide),
   decode_then_encode.1.2.2 "xy".toList .XY (by decide)⟩

/-! ## Reproduction of the layout of the writer -/

end TextureAtlas
